import Mathlib

/-!
TrenchBroom: node visitors and the render partition of the map renderer

A shallow embedding of the visitor dispatch engine of `common/src/Model/NodeVisitor.h`
(visitors, lambda visitors, matching visitors and queries), of the handlers of
`common/src/Model/FindContainerVisitor.cpp`, and of
`common/src/Renderer/MapRenderer.cpp`, the manager that keeps one object
renderer (batch) per layer plus one selection renderer and patches them on the
notifications of the document, with its two brush filters.

C++ objects are identified by a natural number standing for their address.
A failed `assert` is the result `none`.  Definitions come first, theorems follow.
-/

namespace TrenchBroom

/-! ## Model: nodes -/

/-- The closed set of node kinds (`Model::World`, `Model::Layer`, `Model::Group`,
`Model::Entity`, `Model::Brush`). -/
inductive NodeKind where
  | World
  | Layer
  | Group
  | Entity
  | Brush
  deriving DecidableEq, Repr

/-- Renderable objects are the Group, Entity and Brush nodes: the kinds for which
the visitors of `MapRenderer.cpp` do something. -/
def NodeKind.isObject : NodeKind → Bool
  | .World => false
  | .Layer => false
  | .Group => true
  | .Entity => true
  | .Brush => true

/-- A node of the scene graph.  `id` stands for the address of the C++ object,
`selected` and `descendantSelected` are the values returned by `selected()` and
`descendantSelected()`, `layer` is the value returned by `layer()` (the address of
the owning layer, `none` for a null pointer) and `children` is `children()`. -/
inductive Node where
  | mk (id : Nat) (kind : NodeKind) (selected : Bool) (descendantSelected : Bool)
      (layer : Option Nat) (children : List Node) : Node

namespace Node

/-- Address of the node. -/
def id : Node → Nat
  | mk i _ _ _ _ _ => i

/-- Runtime kind of the node. -/
def kind : Node → NodeKind
  | mk _ k _ _ _ _ => k

/-- Value of `selected()`. -/
def selected : Node → Bool
  | mk _ _ s _ _ _ => s

/-- Value of `descendantSelected()`. -/
def descendantSelected : Node → Bool
  | mk _ _ _ d _ _ => d

/-- Value of `layer()`. -/
def layer : Node → Option Nat
  | mk _ _ _ _ l _ => l

/-- Value of `children()`. -/
def children : Node → List Node
  | mk _ _ _ _ _ cs => cs

/-- The node is a Group, an Entity or a Brush. -/
def isObject (n : Node) : Bool := n.kind.isObject

mutual
/-- All nodes of the tree rooted at a node, in depth-first pre-order. -/
def subtree : Node → List Node
  | mk i k s d l cs => mk i k s d l cs :: subtrees cs
/-- All nodes of the trees rooted at the nodes of a list, in depth-first pre-order. -/
def subtrees : List Node → List Node
  | [] => []
  | c :: cs => subtree c ++ subtrees cs
end

end Node

/-! ## Model: the visitor dispatch engine -/

/-- A visitor object: the two flags of `BaseNodeVisitor`, the members `state` of
the concrete visitor class, and a trace `visited` of the nodes whose `doVisit`
handler was invoked (the trace is not in the C++ class; no handler reads it). -/
structure NodeVisitor (σ : Type) where
  cancelled : Bool
  recursionStopped : Bool
  visited : List Nat
  state : σ

namespace NodeVisitor

variable {σ : Type}

/-- A freshly constructed visitor around the members `s`. -/
def new (s : σ) : NodeVisitor σ :=
  { cancelled := false, recursionStopped := false, visited := [], state := s }

/-- Modelled from the spec: `BaseNodeVisitor::cancel` (NodeVisitor.cpp is not
among the sources) sets the traversal-global `cancelled` flag. -/
def cancel (v : NodeVisitor σ) : NodeVisitor σ :=
  { v with cancelled := true }

/-- Modelled from the spec: `BaseNodeVisitor::stopRecursion` sets the flag that
skips the descent below the node being visited. -/
def stopRecursion (v : NodeVisitor σ) : NodeVisitor σ :=
  { v with recursionStopped := true }

/-- Modelled from the spec: `NodeVisitor::visit` dispatches to the `doVisit`
handler of the node's kind; `doVisit` is one function here, matching on the kind.
The visited node is appended to the trace. -/
def visit (doVisit : Node → NodeVisitor σ → Option (NodeVisitor σ))
    (n : Node) (v : NodeVisitor σ) : Option (NodeVisitor σ) :=
  doVisit n { v with visited := v.visited ++ [n.id] }

end NodeVisitor

namespace Node

variable {σ : Type}

/-- Modelled from the spec: `Node::accept(visitor)` calls `visitor.visit(this)`. -/
def accept (visit : Node → NodeVisitor σ → Option (NodeVisitor σ))
    (n : Node) (v : NodeVisitor σ) : Option (NodeVisitor σ) :=
  visit n v

mutual
/-- Modelled from the spec: `Node::acceptAndRecurse(visitor)` (Node.h is not among the
sources).  The node is visited; the driver then reads the `recursionStopped`
flag, which resets it, and unless it was set visits the children in stored order. -/
def acceptAndRecurse (visit : Node → NodeVisitor σ → Option (NodeVisitor σ)) :
    Node → NodeVisitor σ → Option (NodeVisitor σ)
  | mk i k s d l cs, v =>
    match visit (mk i k s d l cs) v with
    | none => none
    | some v1 =>
      if v1.recursionStopped then some { v1 with recursionStopped := false }
      else recurse visit cs { v1 with recursionStopped := false }
/-- Modelled from the spec: the driver loop over a list of children (or of given
nodes): it stops as soon as the visitor is cancelled. -/
def recurse (visit : Node → NodeVisitor σ → Option (NodeVisitor σ)) :
    List Node → NodeVisitor σ → Option (NodeVisitor σ)
  | [], v => some v
  | c :: cs, v =>
    if v.cancelled then some v
    else
      match acceptAndRecurse visit c v with
      | none => none
      | some v1 => recurse visit cs v1
end

/-- Modelled from the spec: the static `Node::accept(begin, end, visitor)`, which
visits the given nodes only, without descending. -/
def acceptList (visit : Node → NodeVisitor σ → Option (NodeVisitor σ)) :
    List Node → NodeVisitor σ → Option (NodeVisitor σ)
  | [], v => some v
  | c :: cs, v =>
    if v.cancelled then some v
    else
      match accept visit c v with
      | none => none
      | some v1 => acceptList visit cs v1

end Node

/-! ## Renderer: object renderers (the batches) -/

/-- A call received by an object renderer. -/
inductive RendererCall where
  | addObject (id : Nat)
  | removeObject (id : Nat)
  | updateObject (id : Nat)
  deriving DecidableEq, Repr

/-- The brush filter an object renderer is constructed with. -/
inductive BrushFilter where
  | SelectedBrushRendererFilter
  | UnselectedBrushRendererFilter
  deriving DecidableEq, Repr

/-- The preference values read by `MapRenderer.cpp` through
`PreferenceManager::instance()`; colors and alpha values are opaque numbers. -/
structure Preferences where
  InfoOverlayTextColor : Nat
  InfoOverlayBackgroundColor : Nat
  TransparentFaceAlpha : Nat
  UndefinedEntityColor : Nat
  FaceColor : Nat
  EdgeColor : Nat
  SelectedInfoOverlayTextColor : Nat
  SelectedInfoOverlayBackgroundColor : Nat
  OccludedSelectedEdgeColor : Nat
  SelectedFaceColor : Nat
  SelectedEdgeColor : Nat
  AngleIndicatorColor : Nat
  deriving DecidableEq, Repr

/-- The style settings of an object renderer, one field per setter called in
`MapRenderer.cpp`. -/
structure RendererStyle where
  overlayTextColor : Nat
  overlayBackgroundColor : Nat
  tint : Bool
  tintColor : Nat
  transparencyAlpha : Nat
  showOccludedObjects : Bool
  occludedEdgeColor : Nat
  overrideEntityBoundsColor : Bool
  entityBoundsColor : Nat
  showEntityAngles : Bool
  entityAngleColor : Nat
  brushFaceColor : Nat
  brushEdgeColor : Nat
  deriving DecidableEq, Repr

/-- Modelled from the spec: `Renderer::ObjectRenderer` (ObjectRenderer.h/.cpp are
not among the sources), a batch: "a renderer-facing collection of objects
rendered together with shared style".  `objects` is the membership of the batch,
`calls` records the calls it received, in order. -/
structure ObjectRenderer where
  filter : BrushFilter
  objects : Finset Nat
  calls : List RendererCall
  style : RendererStyle
  deriving DecidableEq

namespace ObjectRenderer

/-- Modelled from the spec: a newly constructed object renderer holds no object;
its style settings start at zero/false until a setup function writes them. -/
def new (f : BrushFilter) : ObjectRenderer :=
  { filter := f, objects := ∅, calls := [],
    style :=
      { overlayTextColor := 0, overlayBackgroundColor := 0, tint := false, tintColor := 0,
        transparencyAlpha := 0, showOccludedObjects := false, occludedEdgeColor := 0,
        overrideEntityBoundsColor := false, entityBoundsColor := 0, showEntityAngles := false,
        entityAngleColor := 0, brushFaceColor := 0, brushEdgeColor := 0 } }

/-- Modelled from the spec: `ObjectRenderer::addObject` adds the node to the batch
("add/ensure it in the selection batch": adding a member again changes nothing). -/
def addObject (r : ObjectRenderer) (id : Nat) : ObjectRenderer :=
  { r with objects := insert id r.objects, calls := r.calls ++ [RendererCall.addObject id] }

/-- Modelled from the spec: `ObjectRenderer::removeObject` removes the node from the
batch; removing a node that is not a member changes no membership. -/
def removeObject (r : ObjectRenderer) (id : Nat) : ObjectRenderer :=
  { r with objects := r.objects.erase id, calls := r.calls ++ [RendererCall.removeObject id] }

/-- Modelled from the spec: `ObjectRenderer::updateObject` "recomputes visual state
(not membership)". -/
def updateObject (r : ObjectRenderer) (id : Nat) : ObjectRenderer :=
  { r with calls := r.calls ++ [RendererCall.updateObject id] }

/-- Modelled from the spec: `ObjectRenderer::addObjects(nodes)`.  The load visitor
is described as "found a layer, add its own tree of objects", every non-world,
non-layer node is rendered by its owning layer's batch while unselected, and a
fresh load makes one `addObject` call per non-World/non-Layer node: the batch
receives `addObject` for every Group, Entity and Brush node of the trees rooted at
the given nodes, in pre-order. -/
def addObjects (r : ObjectRenderer) (nodes : List Node) : ObjectRenderer :=
  ((Node.subtrees nodes).filter Node.isObject).foldl (fun acc n => acc.addObject n.id) r

/-- Number of `addObject` calls the renderer has received. -/
def addObjectCalls (r : ObjectRenderer) : Nat :=
  (r.calls.filter fun c => match c with
    | RendererCall.addObject _ => true
    | _ => false).length

end ObjectRenderer

/-- The type `RendererMap` of `MapRenderer.h`: a `std::map` from layer to object
renderer, as an association list with at most one entry per key. -/
abbrev RendererMap := List (Nat × ObjectRenderer)

namespace MapUtils

/-- Modelled from the spec: `MapUtils::find(map, key, NULL)` (CollectionUtils.h is not
among the sources) looks up the batch stored under `key`; the null default is `none`. -/
def find : RendererMap → Nat → Option ObjectRenderer
  | [], _ => none
  | (k, r) :: m, key => if k = key then some r else find m key

/-- Modelled from the spec: `MapUtils::insertOrFail` "fails fatally — assertion — if
a layer is already present". -/
def insertOrFail (m : RendererMap) (key : Nat) (r : ObjectRenderer) : Option RendererMap :=
  match find m key with
  | some _ => none
  | none => some (m ++ [(key, r)])

/-- A call through the renderer pointer stored under `key`: the renderer found there is
replaced by its state after the call. -/
def update : RendererMap → Nat → (ObjectRenderer → ObjectRenderer) → RendererMap
  | [], _, _ => []
  | (k, r) :: m, key, f =>
    if k = key then (k, f r) :: update m key f else (k, r) :: update m key f

end MapUtils

/-! ## View: the selection delta -/

/-- A brush face; `brush` is the value of `face->brush()`. -/
structure BrushFace where
  id : Nat
  brush : Node

/-- The part of `View::Selection` read by `MapRenderer::selectionDidChange`. -/
structure Selection where
  partiallySelectedNodes : List Node
  partiallyDeselectedNodes : List Node
  selectedNodes : List Node
  deselectedNodes : List Node
  selectedBrushFaces : List BrushFace
  deselectedBrushFaces : List BrushFace

/-! ## Renderer: the map renderer -/

/-- The members of `Renderer::MapRenderer` that hold the render partition:
`m_layerRenderers` and `m_selectionRenderer`. -/
structure MapRenderer where
  layerRenderers : RendererMap
  selectionRenderer : ObjectRenderer
  deriving DecidableEq

namespace MapRenderer

/-- The function `MapRenderer::setupLayerRenderer`. -/
def setupLayerRenderer (prefs : Preferences) (renderer : ObjectRenderer) : ObjectRenderer :=
  { renderer with style :=
      { renderer.style with
        overlayTextColor := prefs.InfoOverlayTextColor
        overlayBackgroundColor := prefs.InfoOverlayBackgroundColor
        tint := false
        transparencyAlpha := prefs.TransparentFaceAlpha
        entityBoundsColor := prefs.UndefinedEntityColor
        brushFaceColor := prefs.FaceColor
        brushEdgeColor := prefs.EdgeColor } }

/-- The function `MapRenderer::setupSelectionRenderer`. -/
def setupSelectionRenderer (prefs : Preferences) (renderer : ObjectRenderer) : ObjectRenderer :=
  { renderer with style :=
      { renderer.style with
        overlayTextColor := prefs.SelectedInfoOverlayTextColor
        overlayBackgroundColor := prefs.SelectedInfoOverlayBackgroundColor
        showOccludedObjects := true
        occludedEdgeColor := prefs.OccludedSelectedEdgeColor
        tint := true
        tintColor := prefs.SelectedFaceColor
        transparencyAlpha := prefs.TransparentFaceAlpha
        overrideEntityBoundsColor := true
        entityBoundsColor := prefs.SelectedEdgeColor
        showEntityAngles := true
        entityAngleColor := prefs.AngleIndicatorColor
        brushFaceColor := prefs.FaceColor
        brushEdgeColor := prefs.SelectedEdgeColor } }

/-- The function `MapRenderer::setupLayerRenderers`: every layer renderer is set up. -/
def setupLayerRenderers (prefs : Preferences) (r : MapRenderer) : MapRenderer :=
  { r with layerRenderers := r.layerRenderers.map fun p => (p.1, setupLayerRenderer prefs p.2) }

/-- The function `MapRenderer::setupRenderers`. -/
def setupRenderers (prefs : Preferences) (r : MapRenderer) : MapRenderer :=
  let r1 := setupLayerRenderers prefs r
  { r1 with selectionRenderer := setupSelectionRenderer prefs r1.selectionRenderer }

/-- The constructor of `MapRenderer`: no layer renderer, a new selection renderer
with the selected-brush filter, then `setupRenderers`. -/
def new (prefs : Preferences) : MapRenderer :=
  setupRenderers prefs
    { layerRenderers := [],
      selectionRenderer := ObjectRenderer.new BrushFilter.SelectedBrushRendererFilter }

/-- The function `MapRenderer::documentWasCleared`: `m_layerRenderers.clear()`. -/
def documentWasCleared (r : MapRenderer) : MapRenderer :=
  { r with layerRenderers := [] }

/-- The handlers `MapRenderer::AddLayer::doVisit`.  The visitor holds a reference to
`m_layerRenderers`.  The World handler does nothing; the Layer handler creates a
renderer, inserts it under the layer (or fails), adds the layer's children to it
and stops the recursion; the Group, Entity and Brush handlers are `assert(false)`. -/
def AddLayer.doVisit (n : Node) (v : NodeVisitor RendererMap) : Option (NodeVisitor RendererMap) :=
  match n.kind with
  | NodeKind.World => some v
  | NodeKind.Layer =>
    let renderer := ObjectRenderer.new BrushFilter.UnselectedBrushRendererFilter
    match MapUtils.insertOrFail v.state n.id renderer with
    | none => none
    | some m =>
      some ({ v with state := MapUtils.update m n.id fun r => r.addObjects n.children }).stopRecursion
  | NodeKind.Group => none
  | NodeKind.Entity => none
  | NodeKind.Brush => none

/-- The function `MapRenderer::documentWasNewedOrLoaded`; `world` is
`document->world()`. -/
def documentWasNewedOrLoaded (prefs : Preferences) (world : Node) (r : MapRenderer) :
    Option MapRenderer :=
  match Node.acceptAndRecurse (NodeVisitor.visit AddLayer.doVisit) world
      (NodeVisitor.new r.layerRenderers) with
  | none => none
  | some visitor => some (setupLayerRenderers prefs { r with layerRenderers := visitor.state })

/-- The handlers `MapRenderer::HandleSelectedNode::doVisit`.  The visitor holds
references to `m_layerRenderers` and `m_selectionRenderer`. -/
def HandleSelectedNode.doVisit (n : Node) (v : NodeVisitor MapRenderer) :
    Option (NodeVisitor MapRenderer) :=
  match n.kind with
  | NodeKind.World => some v
  | NodeKind.Layer => some v
  | NodeKind.Group =>
    match n.layer with
    | none => none
    | some layer =>
      match MapUtils.find v.state.layerRenderers layer with
      | none => none
      | some _ =>
        if n.selected || n.descendantSelected then
          some { v with state :=
            { layerRenderers :=
                MapUtils.update v.state.layerRenderers layer fun r => r.removeObject n.id,
              selectionRenderer := v.state.selectionRenderer.addObject n.id } }
        else
          some { v with state :=
            { layerRenderers :=
                MapUtils.update v.state.layerRenderers layer fun r => r.addObject n.id,
              selectionRenderer := v.state.selectionRenderer.removeObject n.id } }
  | NodeKind.Entity =>
    match n.layer with
    | none => none
    | some layer =>
      match MapUtils.find v.state.layerRenderers layer with
      | none => none
      | some _ =>
        if n.selected || n.descendantSelected then
          some { v with state :=
            { layerRenderers :=
                MapUtils.update v.state.layerRenderers layer fun r => r.removeObject n.id,
              selectionRenderer := v.state.selectionRenderer.addObject n.id } }
        else
          some { v with state :=
            { layerRenderers :=
                MapUtils.update v.state.layerRenderers layer fun r => r.addObject n.id,
              selectionRenderer := v.state.selectionRenderer.removeObject n.id } }
  | NodeKind.Brush =>
    match n.layer with
    | none => none
    | some layer =>
      match MapUtils.find v.state.layerRenderers layer with
      | none => none
      | some _ =>
        let layerRenderers :=
          if n.selected then
            MapUtils.update v.state.layerRenderers layer fun r => r.removeObject n.id
          else
            MapUtils.update v.state.layerRenderers layer fun r => r.addObject n.id
        let selectionRenderer :=
          if n.selected || n.descendantSelected then
            v.state.selectionRenderer.addObject n.id
          else
            v.state.selectionRenderer.removeObject n.id
        some { v with state :=
          { layerRenderers := layerRenderers, selectionRenderer := selectionRenderer } }

/-- The function `MapRenderer::AddNode::handleNode`. -/
def AddNode.handleNode (n : Node) (layer : Option Nat) (v : NodeVisitor RendererMap) :
    Option (NodeVisitor RendererMap) :=
  match layer with
  | none => none
  | some l =>
    match MapUtils.find v.state l with
    | none => none
    | some _ => some { v with state := MapUtils.update v.state l fun r => r.addObject n.id }

/-- The handlers `MapRenderer::AddNode::doVisit`. -/
def AddNode.doVisit (n : Node) (v : NodeVisitor RendererMap) : Option (NodeVisitor RendererMap) :=
  match n.kind with
  | NodeKind.World => some v
  | NodeKind.Layer => some v
  | NodeKind.Group => AddNode.handleNode n n.layer v
  | NodeKind.Entity => AddNode.handleNode n n.layer v
  | NodeKind.Brush => AddNode.handleNode n n.layer v

/-- The function `MapRenderer::nodesWereAdded`: the static
`Node::acceptAndRecurse(begin, end, visitor)` over the added nodes. -/
def nodesWereAdded (nodes : List Node) (r : MapRenderer) : Option MapRenderer :=
  match Node.recurse (NodeVisitor.visit AddNode.doVisit) nodes (NodeVisitor.new r.layerRenderers) with
  | none => none
  | some visitor => some { r with layerRenderers := visitor.state }

/-- The function `MapRenderer::RemoveNode::handleNode`. -/
def RemoveNode.handleNode (n : Node) (layer : Option Nat) (v : NodeVisitor RendererMap) :
    Option (NodeVisitor RendererMap) :=
  match layer with
  | none => none
  | some l =>
    match MapUtils.find v.state l with
    | none => none
    | some _ => some { v with state := MapUtils.update v.state l fun r => r.removeObject n.id }

/-- The handlers `MapRenderer::RemoveNode::doVisit`. -/
def RemoveNode.doVisit (n : Node) (v : NodeVisitor RendererMap) : Option (NodeVisitor RendererMap) :=
  match n.kind with
  | NodeKind.World => some v
  | NodeKind.Layer => some v
  | NodeKind.Group => RemoveNode.handleNode n n.layer v
  | NodeKind.Entity => RemoveNode.handleNode n n.layer v
  | NodeKind.Brush => RemoveNode.handleNode n n.layer v

/-- The function `MapRenderer::nodesWillBeRemoved`. -/
def nodesWillBeRemoved (nodes : List Node) (r : MapRenderer) : Option MapRenderer :=
  match Node.recurse (NodeVisitor.visit RemoveNode.doVisit) nodes
      (NodeVisitor.new r.layerRenderers) with
  | none => none
  | some visitor => some { r with layerRenderers := visitor.state }

/-- The function `MapRenderer::UpdateNode::handleNode`; the visitor holds
`m_selectionRenderer`. -/
def UpdateNode.handleNode (n : Node) (v : NodeVisitor ObjectRenderer) :
    Option (NodeVisitor ObjectRenderer) :=
  if n.selected || n.descendantSelected then
    some { v with state := v.state.updateObject n.id }
  else none

/-- The handlers `MapRenderer::UpdateNode::doVisit`. -/
def UpdateNode.doVisit (n : Node) (v : NodeVisitor ObjectRenderer) :
    Option (NodeVisitor ObjectRenderer) :=
  match n.kind with
  | NodeKind.World => some v
  | NodeKind.Layer => some v
  | NodeKind.Group => UpdateNode.handleNode n v
  | NodeKind.Entity => UpdateNode.handleNode n v
  | NodeKind.Brush => UpdateNode.handleNode n v

/-- The function `MapRenderer::nodesDidChange`: the static `Node::accept` over the
given nodes, no recursion. -/
def nodesDidChange (nodes : List Node) (r : MapRenderer) : Option MapRenderer :=
  match Node.acceptList (NodeVisitor.visit UpdateNode.doVisit) nodes
      (NodeVisitor.new r.selectionRenderer) with
  | none => none
  | some visitor => some { r with selectionRenderer := visitor.state }

/-- The function `MapRenderer::UpdateSelectedNode::handleNode`. -/
def UpdateSelectedNode.handleNode (n : Node) (layer : Option Nat) (v : NodeVisitor MapRenderer) :
    Option (NodeVisitor MapRenderer) :=
  match layer with
  | none => none
  | some l =>
    match MapUtils.find v.state.layerRenderers l with
    | none => none
    | some _ =>
      let selectionRenderer :=
        if n.selected || n.descendantSelected then v.state.selectionRenderer.updateObject n.id
        else v.state.selectionRenderer
      let layerRenderers :=
        if !n.selected then MapUtils.update v.state.layerRenderers l fun r => r.updateObject n.id
        else v.state.layerRenderers
      some { v with state :=
        { layerRenderers := layerRenderers, selectionRenderer := selectionRenderer } }

/-- The handlers `MapRenderer::UpdateSelectedNode::doVisit`. -/
def UpdateSelectedNode.doVisit (n : Node) (v : NodeVisitor MapRenderer) :
    Option (NodeVisitor MapRenderer) :=
  match n.kind with
  | NodeKind.World => some v
  | NodeKind.Layer => some v
  | NodeKind.Group => UpdateSelectedNode.handleNode n n.layer v
  | NodeKind.Entity => UpdateSelectedNode.handleNode n n.layer v
  | NodeKind.Brush => UpdateSelectedNode.handleNode n n.layer v

/-- The function `MapRenderer::collectBrushes`: the set of the brushes of the given
faces.  A `Model::BrushSet` holds each brush pointer once; the list keeps the
brushes in order of first insertion. -/
def collectBrushes (faces : List BrushFace) : List Node :=
  faces.foldl
    (fun result face =>
      if result.any (fun b => b.id == face.brush.id) then result else result ++ [face.brush])
    []

/-- The function `MapRenderer::selectionDidChange`: one `HandleSelectedNode` visitor
accepts the four node lists in turn, then one `UpdateSelectedNode` visitor accepts
the parents of the selected and of the deselected faces. -/
def selectionDidChange (selection : Selection) (r : MapRenderer) : Option MapRenderer := do
  let handleSelectedNode := NodeVisitor.new r
  let h1 ← Node.acceptList (NodeVisitor.visit HandleSelectedNode.doVisit)
    selection.partiallySelectedNodes handleSelectedNode
  let h2 ← Node.acceptList (NodeVisitor.visit HandleSelectedNode.doVisit)
    selection.partiallyDeselectedNodes h1
  let h3 ← Node.acceptList (NodeVisitor.visit HandleSelectedNode.doVisit)
    selection.selectedNodes h2
  let h4 ← Node.acceptList (NodeVisitor.visit HandleSelectedNode.doVisit)
    selection.deselectedNodes h3
  let updateNode := NodeVisitor.new h4.state
  let parentsOfSelectedFaces := collectBrushes selection.selectedBrushFaces
  let u1 ← Node.acceptList (NodeVisitor.visit UpdateSelectedNode.doVisit)
    parentsOfSelectedFaces updateNode
  let parentsOfDeselectedFaces := collectBrushes selection.deselectedBrushFaces
  let u2 ← Node.acceptList (NodeVisitor.visit UpdateSelectedNode.doVisit)
    parentsOfDeselectedFaces u1
  some u2.state

/-- The function `MapRenderer::preferenceDidChange`. -/
def preferenceDidChange (prefs : Preferences) (r : MapRenderer) : MapRenderer :=
  setupRenderers prefs r

end MapRenderer

/-! ## Model: queries, the find-container visitor and matching visitors -/

/-- The members of `Model::NodeQuery<T>` of `NodeVisitor.h`: `m_hasResult` and
`m_result`. -/
structure NodeQuery (T : Type) where
  hasResult : Bool
  result : T

/-- The constructor of `NodeQuery<T>`: no result yet, `m_result` holds the default. -/
def NodeQuery.new {T : Type} (defaultResult : T) : NodeQuery T :=
  { hasResult := false, result := defaultResult }

/-- The function `NodeQuery<T>::result`: `assert(hasResult())`, then `m_result`. -/
def NodeQuery.getResult {T : Type} (q : NodeQuery T) : Option T :=
  if q.hasResult then some q.result else none

/-- The default `NodeQuery<T>::doCombineResults`: the new result replaces the old. -/
def NodeQuery.doCombineResults {T : Type} (_oldResult newResult : T) : T := newResult

/-- The function `NodeQuery<T>::setResult`; `combine` is the `doCombineResults` of
the class.  The first call stores the result, later calls combine old and new. -/
def NodeQuery.setResult {T : Type} (combine : T → T → T) (q : NodeQuery T) (result : T) :
    NodeQuery T :=
  if !q.hasResult then { hasResult := true, result := result }
  else { q with result := combine q.result result }

/-- The handlers `FindContainerVisitor::doVisit` of `FindContainerVisitor.cpp`.  The
visitor is a `NodeQuery<Node*>`: its result is a node address, `none` for the null
default.  World, Layer, Group and Entity nodes are recorded and cancel the
traversal; the Brush handler is empty. -/
def FindContainerVisitor.doVisit (n : Node) (v : NodeVisitor (NodeQuery (Option Nat))) :
    Option (NodeVisitor (NodeQuery (Option Nat))) :=
  match n.kind with
  | NodeKind.World =>
    some ({ v with state := v.state.setResult NodeQuery.doCombineResults (some n.id) }).cancel
  | NodeKind.Layer =>
    some ({ v with state := v.state.setResult NodeQuery.doCombineResults (some n.id) }).cancel
  | NodeKind.Group =>
    some ({ v with state := v.state.setResult NodeQuery.doCombineResults (some n.id) }).cancel
  | NodeKind.Entity =>
    some ({ v with state := v.state.setResult NodeQuery.doCombineResults (some n.id) }).cancel
  | NodeKind.Brush => some v

/-- A newly constructed `FindContainerVisitor`. -/
def FindContainerVisitor.new : NodeVisitor (NodeQuery (Option Nat)) :=
  NodeVisitor.new (NodeQuery.new none)

/-- Modelled from the spec: `NeverStopRecursion::operator()` (declared in
`NodeVisitor.h`, defined in NodeVisitor.cpp, which is not among the sources), the
"never-stop" policy. -/
def NeverStopRecursion (_node : Node) (_matched : Bool) : Bool := false

/-- Modelled from the spec: `StopRecursionIfMatched::operator()` (declared in
`NodeVisitor.h`, defined in NodeVisitor.cpp, which is not among the sources), the
"stop-if-matched" policy: "recursion into descendants of a matched node is pruned". -/
def StopRecursionIfMatched (_node : Node) (matched : Bool) : Bool := matched

/-- The members of a visitor derived from `MatchingNodeVisitor<P, S>`: those of the
derived class, and a log `evaluated` of the nodes on which the predicate `m_p` was
evaluated (the log is not in the C++ class). -/
structure MatchingNodeVisitor (σ : Type) where
  evaluated : List Nat
  members : σ

/-- The five overrides `MatchingNodeVisitor<P, S>::visit` of `NodeVisitor.h`, which
have the same body for every kind: the predicate `p` is evaluated on the node, the
inherited `NodeVisitor::visit` runs if it matched, and the recursion is stopped if
the policy `s` says so. -/
def MatchingNodeVisitor.visit {σ : Type} (p : Node → Bool) (s : Node → Bool → Bool)
    (doVisit : Node → NodeVisitor (MatchingNodeVisitor σ) →
      Option (NodeVisitor (MatchingNodeVisitor σ)))
    (n : Node) (v : NodeVisitor (MatchingNodeVisitor σ)) :
    Option (NodeVisitor (MatchingNodeVisitor σ)) :=
  let isMatch := p n
  let v0 := { v with state := { v.state with evaluated := v.state.evaluated ++ [n.id] } }
  match (if isMatch then NodeVisitor.visit doVisit n v0 else some v0) with
  | none => none
  | some v1 => some (if s n isMatch then v1.stopRecursion else v1)

/-! ## Model: lambda visitors -/

/-- The four forms the call operator of a callable of type `L` can have for
`NodeLambdaVisitor<L>`, one per branch of `_doVisit`: invocable with the callable
itself as first argument (`std::is_invocable_v<L, const L&, N*>`) or with the node
alone, and returning a value (`NodeLambdaHasResult_v<L>`) or void.  The first
argument of `call` is the callable that is invoked; `ε` is the state the callable
acts on (what it captured by reference) and `R` its result type. -/
inductive NodeLambda (L ε R : Type) where
  | withSelf (call : L → L → Node → ε → R × ε)
  | withSelfVoid (call : L → L → Node → ε → ε)
  | unary (call : L → Node → ε → R × ε)
  | unaryVoid (call : L → Node → ε → ε)

/-- The state of a `NodeLambdaVisitor<L>`: the state `env` its callable acts on and
the member `std::optional<R> m_result` of `NodeLambdaVisitorResult<L>`, which is
never written when the base class is `NodeLambdaVisitorNoResult`. -/
structure NodeLambdaVisitor (ε R : Type) where
  env : ε
  result : Option R

/-- The function `NodeLambdaVisitorResult<L>::setResult`. -/
def NodeLambdaVisitorResult.setResult {ε R : Type} (s : NodeLambdaVisitor ε R) (result : R) :
    NodeLambdaVisitor ε R :=
  { s with result := some result }

/-- The function `NodeLambdaVisitorResult<L>::result`: the value of the optional,
`none` where `value()` throws. -/
def NodeLambdaVisitorResult.result {ε R : Type} (s : NodeLambdaVisitor ε R) : Option R :=
  s.result

/-- A newly constructed `NodeLambdaVisitor<L>`: the optional is empty. -/
def NodeLambdaVisitor.new {ε R : Type} (env : ε) : NodeLambdaVisitor ε R :=
  { env := env, result := none }

/-- The function template `NodeLambdaVisitor<L>::_doVisit`, one branch per form of
the callable `m_lambda`. -/
def NodeLambdaVisitor._doVisit {L ε R : Type} (form : NodeLambda L ε R) (m_lambda : L)
    (node : Node) (s : NodeLambdaVisitor ε R) : NodeLambdaVisitor ε R :=
  match form with
  | NodeLambda.withSelf call =>
    let r := call m_lambda m_lambda node s.env
    NodeLambdaVisitorResult.setResult { s with env := r.2 } r.1
  | NodeLambda.withSelfVoid call => { s with env := call m_lambda m_lambda node s.env }
  | NodeLambda.unary call =>
    let r := call m_lambda node s.env
    NodeLambdaVisitorResult.setResult { s with env := r.2 } r.1
  | NodeLambda.unaryVoid call => { s with env := call m_lambda node s.env }

/-- The handlers `NodeLambdaVisitor<L>::doVisit`: each calls `_doVisit`. -/
def NodeLambdaVisitor.doVisit {L ε R : Type} (form : NodeLambda L ε R) (m_lambda : L)
    (n : Node) (v : NodeVisitor (NodeLambdaVisitor ε R)) :
    Option (NodeVisitor (NodeLambdaVisitor ε R)) :=
  match n.kind with
  | NodeKind.World => some { v with state := NodeLambdaVisitor._doVisit form m_lambda n v.state }
  | NodeKind.Layer => some { v with state := NodeLambdaVisitor._doVisit form m_lambda n v.state }
  | NodeKind.Group => some { v with state := NodeLambdaVisitor._doVisit form m_lambda n v.state }
  | NodeKind.Entity => some { v with state := NodeLambdaVisitor._doVisit form m_lambda n v.state }
  | NodeKind.Brush => some { v with state := NodeLambdaVisitor._doVisit form m_lambda n v.state }

/-- The function template `ConstNodeLambdaVisitor<L>::_doVisit`: the same four
branches, on a `const` node. -/
def ConstNodeLambdaVisitor._doVisit {L ε R : Type} (form : NodeLambda L ε R) (m_lambda : L)
    (node : Node) (s : NodeLambdaVisitor ε R) : NodeLambdaVisitor ε R :=
  match form with
  | NodeLambda.withSelf call =>
    let r := call m_lambda m_lambda node s.env
    NodeLambdaVisitorResult.setResult { s with env := r.2 } r.1
  | NodeLambda.withSelfVoid call => { s with env := call m_lambda m_lambda node s.env }
  | NodeLambda.unary call =>
    let r := call m_lambda node s.env
    NodeLambdaVisitorResult.setResult { s with env := r.2 } r.1
  | NodeLambda.unaryVoid call => { s with env := call m_lambda node s.env }

/-- The handlers `ConstNodeLambdaVisitor<L>::doVisit`: each calls `_doVisit`. -/
def ConstNodeLambdaVisitor.doVisit {L ε R : Type} (form : NodeLambda L ε R) (m_lambda : L)
    (n : Node) (v : NodeVisitor (NodeLambdaVisitor ε R)) :
    Option (NodeVisitor (NodeLambdaVisitor ε R)) :=
  match n.kind with
  | NodeKind.World =>
    some { v with state := ConstNodeLambdaVisitor._doVisit form m_lambda n v.state }
  | NodeKind.Layer =>
    some { v with state := ConstNodeLambdaVisitor._doVisit form m_lambda n v.state }
  | NodeKind.Group =>
    some { v with state := ConstNodeLambdaVisitor._doVisit form m_lambda n v.state }
  | NodeKind.Entity =>
    some { v with state := ConstNodeLambdaVisitor._doVisit form m_lambda n v.state }
  | NodeKind.Brush =>
    some { v with state := ConstNodeLambdaVisitor._doVisit form m_lambda n v.state }

/-! ## Renderer: the brush filters and the selection colors -/

/-- A brush edge, by its address. -/
structure BrushEdge where
  id : Nat

/-- The predicates that the two brush filters of `MapRenderer.cpp` inherit from
`BrushRenderer::DefaultFilter` (`locked`, `selected`, `hasSelectedFaces` and `visible`
on brushes, faces and edges; BrushRenderer.h is not among the sources): they are
parameters of the filters. -/
structure DefaultFilter where
  lockedBrush : Node → Bool
  selectedBrush : Node → Bool
  hasSelectedFaces : Node → Bool
  visibleBrush : Node → Bool
  lockedFace : BrushFace → Bool
  selectedFace : BrushFace → Bool
  visibleFace : BrushFace → Bool
  selectedEdge : BrushEdge → Bool

/-- The operator `SelectedBrushRendererFilter::operator()(const Model::Brush*)`. -/
def SelectedBrushRendererFilter.brush (d : DefaultFilter) (brush : Node) : Bool :=
  !d.lockedBrush brush && (d.selectedBrush brush || d.hasSelectedFaces brush) &&
    d.visibleBrush brush

/-- The operator `SelectedBrushRendererFilter::operator()(const Model::BrushFace*)`. -/
def SelectedBrushRendererFilter.face (d : DefaultFilter) (face : BrushFace) : Bool :=
  !d.lockedFace face && (d.selectedFace face || d.selectedBrush face.brush) &&
    d.visibleFace face

/-- The operator `SelectedBrushRendererFilter::operator()(const Model::BrushEdge*)`. -/
def SelectedBrushRendererFilter.edge (d : DefaultFilter) (edge : BrushEdge) : Bool :=
  d.selectedEdge edge

/-- The operator `UnselectedBrushRendererFilter::operator()(const Model::Brush*)`. -/
def UnselectedBrushRendererFilter.brush (d : DefaultFilter) (brush : Node) : Bool :=
  !d.lockedBrush brush && !d.selectedBrush brush && d.visibleBrush brush

/-- The operator `UnselectedBrushRendererFilter::operator()(const Model::BrushFace*)`. -/
def UnselectedBrushRendererFilter.face (d : DefaultFilter) (face : BrushFace) : Bool :=
  !d.lockedFace face && !d.selectedFace face && d.visibleFace face

/-- The operator `UnselectedBrushRendererFilter::operator()(const Model::BrushEdge*)`. -/
def UnselectedBrushRendererFilter.edge (d : DefaultFilter) (edge : BrushEdge) : Bool :=
  !d.selectedEdge edge

/-- The brush operator of the filter an object renderer was constructed with. -/
def BrushFilter.brush : BrushFilter → DefaultFilter → Node → Bool
  | BrushFilter.SelectedBrushRendererFilter, d, b => SelectedBrushRendererFilter.brush d b
  | BrushFilter.UnselectedBrushRendererFilter, d, b => UnselectedBrushRendererFilter.brush d b

/-- The edge operator of the filter an object renderer was constructed with. -/
def BrushFilter.edge : BrushFilter → DefaultFilter → BrushEdge → Bool
  | BrushFilter.SelectedBrushRendererFilter, d, e => SelectedBrushRendererFilter.edge d e
  | BrushFilter.UnselectedBrushRendererFilter, d, e => UnselectedBrushRendererFilter.edge d e

/-- The function `MapRenderer::overrideSelectionColors`.  `Color::mixed` is not among
the sources: it is the parameter `mixed`, called as `mixed base color mix`. -/
def MapRenderer.overrideSelectionColors (mixed : Nat → Nat → Nat → Nat) (prefs : Preferences)
    (color : Nat) (mix : Nat) (r : MapRenderer) : MapRenderer :=
  let edgeColor := mixed prefs.SelectedEdgeColor color mix
  let occludedEdgeColor := mixed prefs.SelectedFaceColor color mix
  let tintColor := mixed prefs.SelectedFaceColor color mix
  { r with selectionRenderer :=
      { r.selectionRenderer with style :=
          { r.selectionRenderer.style with
            entityBoundsColor := edgeColor
            brushEdgeColor := edgeColor
            occludedEdgeColor := occludedEdgeColor
            tintColor := tintColor } } }

/-- The function `MapRenderer::restoreSelectionColors`. -/
def MapRenderer.restoreSelectionColors (prefs : Preferences) (r : MapRenderer) : MapRenderer :=
  { r with selectionRenderer := MapRenderer.setupSelectionRenderer prefs r.selectionRenderer }

/-! ## Vocabulary for the statements -/

/-- Keys of a renderer map. -/
def MapUtils.keys (m : RendererMap) : List Nat := m.map Prod.fst

/-- Layers that currently have a renderer. -/
def MapRenderer.layers (r : MapRenderer) : List Nat := MapUtils.keys r.layerRenderers

/-- Membership of the batch of a layer (empty when the layer has no batch). -/
def MapUtils.objectsAt (m : RendererMap) (layer : Nat) : Finset Nat :=
  match MapUtils.find m layer with
  | some b => b.objects
  | none => ∅

/-- Membership of the batch of a layer of the map renderer. -/
def MapRenderer.layerObjects (r : MapRenderer) (layer : Nat) : Finset Nat :=
  MapUtils.objectsAt r.layerRenderers layer

/-- Membership of the selection batch. -/
def MapRenderer.selectionObjects (r : MapRenderer) : Finset Nat := r.selectionRenderer.objects

/-- Fold of a fallible step over a list of nodes: the first failure aborts. -/
def foldOpt {σ : Type} (f : Node → σ → Option σ) : List Node → σ → Option σ
  | [], s => some s
  | n :: ns, s =>
    match f n s with
    | none => none
    | some s1 => foldOpt f ns s1

/-- A handler that only acts on the members of the visitor, through `f`, and
leaves the two flags alone. -/
def IsLift {σ : Type} (h : Node → NodeVisitor σ → Option (NodeVisitor σ)) (f : Node → σ → Option σ) : Prop :=
  ∀ n v, h n v = (f n v.state).map fun s => { v with state := s }

/-- An elementary change of a batch: `(id, true)` adds `id`, `(id, false)` removes it. -/
def applyOp (S : Finset Nat) (o : Nat × Bool) : Finset Nat :=
  if o.2 then insert o.1 S else S.erase o.1

/-- A sequence of elementary changes, applied left to right. -/
def applyOps (os : List (Nat × Bool)) (S : Finset Nat) : Finset Nat :=
  os.foldl applyOp S

/-- The node belongs in its layer's batch: the rule of `HandleSelectedNode`. -/
def Node.inLayerRule (n : Node) : Bool :=
  match n.kind with
  | NodeKind.Brush => !n.selected
  | _ => !(n.selected || n.descendantSelected)

/-- The node belongs in the selection batch: the rule of `HandleSelectedNode`. -/
def Node.inSelectionRule (n : Node) : Bool := n.selected || n.descendantSelected

/-- Changes made to the selection batch by handling the nodes `ns`. -/
def selectionOps (ns : List Node) : List (Nat × Bool) :=
  (ns.filter Node.isObject).map fun n => (n.id, n.inSelectionRule)

/-- Changes made to the batch of `layer` by handling the nodes `ns`. -/
def layerOps (layer : Nat) (ns : List Node) : List (Nat × Bool) :=
  (ns.filter fun n => n.isObject && decide (n.layer = some layer)).map
    fun n => (n.id, n.inLayerRule)

/-- The effect of a handler on the members of a fresh visitor. -/
def stateStep {σ : Type} (h : Node → NodeVisitor σ → Option (NodeVisitor σ)) (n : Node) (s : σ) : Option σ :=
  (h n (NodeVisitor.new s)).map fun v => v.state

/-- The owning layer of an object node is known and has a renderer among `keys`. -/
def Node.hasBatchIn (keys : List Nat) (n : Node) : Prop :=
  n.isObject = true → ∃ l, n.layer = some l ∧ l ∈ keys

/-- The nodes handled by the first pass of `selectionDidChange`, in order. -/
def Selection.nodes (sel : Selection) : List Node :=
  sel.partiallySelectedNodes ++ sel.partiallyDeselectedNodes ++ sel.selectedNodes ++
    sel.deselectedNodes

/-- The brushes handled by the second pass of `selectionDidChange`, in order. -/
def Selection.faceParents (sel : Selection) : List Node :=
  MapRenderer.collectBrushes sel.selectedBrushFaces ++
    MapRenderer.collectBrushes sel.deselectedBrushFaces

/-! ## A small document used for concrete runs -/

namespace Example

/-- Preference values, pairwise different. -/
def prefs : Preferences :=
  { InfoOverlayTextColor := 1, InfoOverlayBackgroundColor := 2, TransparentFaceAlpha := 3,
    UndefinedEntityColor := 4, FaceColor := 5, EdgeColor := 6, SelectedInfoOverlayTextColor := 7,
    SelectedInfoOverlayBackgroundColor := 8, OccludedSelectedEdgeColor := 9,
    SelectedFaceColor := 10, SelectedEdgeColor := 11, AngleIndicatorColor := 12 }

/-- Brush #1 of layer 1, unselected. -/
def brush1 : Node := Node.mk 11 NodeKind.Brush false false (some 1) []

/-- Brush #2 of layer 1, unselected. -/
def brush2 : Node := Node.mk 12 NodeKind.Brush false false (some 1) []

/-- Brush #1 once it is selected. -/
def brush1Selected : Node := Node.mk 11 NodeKind.Brush true false (some 1) []

/-- Brush #1 once one of its faces is selected, the brush itself being unselected. -/
def brush1FaceSelected : Node := Node.mk 11 NodeKind.Brush false true (some 1) []

/-- The single layer, holding the two brushes. -/
def layer1 : Node := Node.mk 1 NodeKind.Layer false false (some 1) [brush1, brush2]

/-- The world of the document. -/
def world : Node := Node.mk 0 NodeKind.World false false none [layer1]

/-- The map renderer right after construction. -/
def fresh : MapRenderer := MapRenderer.new prefs

/-- The map renderer after the document was loaded. -/
def loaded : MapRenderer :=
  (MapRenderer.documentWasNewedOrLoaded prefs world fresh).getD fresh

/-- The selection delta of selecting brush #1. -/
def selectBrush1 : Selection :=
  { partiallySelectedNodes := [], partiallyDeselectedNodes := [], selectedNodes := [brush1Selected],
    deselectedNodes := [], selectedBrushFaces := [], deselectedBrushFaces := [] }

/-- The selection delta of deselecting brush #1. -/
def deselectBrush1 : Selection :=
  { partiallySelectedNodes := [], partiallyDeselectedNodes := [], selectedNodes := [],
    deselectedNodes := [brush1], selectedBrushFaces := [], deselectedBrushFaces := [] }

/-- The selection delta of selecting a face of brush #1. -/
def selectFaceOfBrush1 : Selection :=
  { partiallySelectedNodes := [brush1FaceSelected], partiallyDeselectedNodes := [],
    selectedNodes := [], deselectedNodes := [],
    selectedBrushFaces := [{ id := 111, brush := brush1FaceSelected }],
    deselectedBrushFaces := [] }

/-- The map renderer after brush #1 was selected in the loaded document. -/
def afterSelect : MapRenderer :=
  (MapRenderer.selectionDidChange selectBrush1 loaded).getD loaded

/-- The map renderer after a face of brush #1 was selected in the loaded document. -/
def afterFaceSelect : MapRenderer :=
  (MapRenderer.selectionDidChange selectFaceOfBrush1 loaded).getD loaded

/-- A brush nested in group 21 of layer 2, unselected. -/
def brush22 : Node := Node.mk 22 NodeKind.Brush false false (some 2) []

/-- A group of layer 2 holding brush 22. -/
def group21 : Node := Node.mk 21 NodeKind.Group false false (some 2) [brush22]

/-- A brush nested in entity 23 of layer 2, unselected. -/
def brush24 : Node := Node.mk 24 NodeKind.Brush false false (some 2) []

/-- A brush entity of layer 2 holding brush 24. -/
def entity23 : Node := Node.mk 23 NodeKind.Entity false false (some 2) [brush24]

/-- A second layer, holding a group and a brush entity. -/
def layer2 : Node := Node.mk 2 NodeKind.Layer false false (some 2) [group21, entity23]

/-- A world with two layers and nested objects. -/
def world2 : Node := Node.mk 0 NodeKind.World false false none [layer1, layer2]

/-- The map renderer after the two-layer document was loaded. -/
def loaded2 : MapRenderer :=
  (MapRenderer.documentWasNewedOrLoaded prefs world2 fresh).getD fresh

/-- Brush 22 once it is selected. -/
def brush22Selected : Node := Node.mk 22 NodeKind.Brush true false (some 2) []

/-- Group 21 once its child brush 22 is selected. -/
def group21Partial : Node := Node.mk 21 NodeKind.Group false true (some 2) [brush22Selected]

/-- The selection delta of selecting brush 22: its group becomes partially selected. -/
def selectBrush22 : Selection :=
  { partiallySelectedNodes := [group21Partial], partiallyDeselectedNodes := [],
    selectedNodes := [brush22Selected], deselectedNodes := [],
    selectedBrushFaces := [], deselectedBrushFaces := [] }

/-- The map renderer after brush 22 was selected in the two-layer document. -/
def afterSelect22 : MapRenderer :=
  (MapRenderer.selectionDidChange selectBrush22 loaded2).getD loaded2

/-- The map renderer after brush #1 was selected and deselected again. -/
def afterDeselect : MapRenderer :=
  (MapRenderer.selectionDidChange deselectBrush1 afterSelect).getD afterSelect

/-- Newly added nodes: a group of layer 1 with a nested brush, and an entity of
layer 2. -/
def addedNodes : List Node :=
  [Node.mk 31 NodeKind.Group false false (some 1)
      [Node.mk 32 NodeKind.Brush false false (some 1) []],
    Node.mk 33 NodeKind.Entity false false (some 2) []]

/-- A newly added brush whose owning layer 9 has no renderer. -/
def strayNodes : List Node :=
  [Node.mk 41 NodeKind.Brush false false (some 9) []]

end Example

/-- The node with its `selected()` flag replaced. -/
def Node.setSelected : Node → Bool → Node
  | Node.mk i k _ d l cs, b => Node.mk i k b d l cs

/-- The node with its `descendantSelected()` flag replaced. -/
def Node.setDescendantSelected : Node → Bool → Node
  | Node.mk i k s _ l cs, b => Node.mk i k s b l cs

/-- The selection delta of selecting `nodes`: they become selected, and the
`ancestors` whose flag changes become partially selected. -/
def Selection.ofSelect (ancestors nodes : List Node) : Selection :=
  { partiallySelectedNodes := ancestors.map fun n => n.setDescendantSelected true,
    partiallyDeselectedNodes := [],
    selectedNodes := nodes.map fun n => n.setSelected true,
    deselectedNodes := [], selectedBrushFaces := [], deselectedBrushFaces := [] }

/-- The selection delta of deselecting `nodes` again: the nodes and the `ancestors`
are reported with the flags they had before the selection. -/
def Selection.ofDeselect (ancestors nodes : List Node) : Selection :=
  { partiallySelectedNodes := [], partiallyDeselectedNodes := ancestors, selectedNodes := [],
    deselectedNodes := nodes, selectedBrushFaces := [], deselectedBrushFaces := [] }

/-- The object node `n` is in exactly the batches that the membership rules of
`HandleSelectedNode` assign to its flags: the partition invariant at `n`. -/
def MapRenderer.PlacedByRule (r : MapRenderer) (n : Node) : Prop :=
  n.isObject = true → ∀ l, n.layer = some l →
    (n.id ∈ r.layerObjects l ↔ n.inLayerRule = true) ∧
    (n.id ∈ r.selectionObjects ↔ n.inSelectionRule = true)

/-- Addresses of the object nodes among `ns` whose owning layer is `layer`. -/
def objectIdsOf (layer : Nat) (ns : List Node) : List Nat :=
  (ns.filter fun n => n.isObject && decide (n.layer = some layer)).map Node.id

/-- The effect of visiting a layer with the `AddLayer` visitor on the renderer map:
a new renderer holding the objects of the layer's tree is inserted under the layer,
unless the layer is already a key. -/
def addLayerStep (c : Node) (m : RendererMap) : Option RendererMap :=
  (MapUtils.insertOrFail m c.id
      (ObjectRenderer.new BrushFilter.UnselectedBrushRendererFilter)).map
    fun m1 => MapUtils.update m1 c.id fun r => r.addObjects c.children

/-- The renderer created for a layer by a load, before the style setup. -/
def loadedLayerRenderer (c : Node) : ObjectRenderer :=
  (ObjectRenderer.new BrushFilter.UnselectedBrushRendererFilter).addObjects c.children

/-! ## The document side of the notifications -/

/-- What the document knows about a Group, Entity or Brush node: its address, kind,
owning layer and current selection flags. -/
structure DocNode where
  id : Nat
  kind : NodeKind
  layer : Option Nat
  selected : Bool
  descendantSelected : Bool
  deriving DecidableEq, Repr

/-- The document's record of a node. -/
def Node.entry (n : Node) : DocNode :=
  { id := n.id, kind := n.kind, layer := n.layer, selected := n.selected,
    descendantSelected := n.descendantSelected }

/-- The records of the Group, Entity and Brush nodes among `ns`. -/
def docNodes (ns : List Node) : List DocNode :=
  (ns.filter Node.isObject).map Node.entry

/-- The membership rule of `HandleSelectedNode` for the layer batch, on a record. -/
def DocNode.inLayerRule (e : DocNode) : Bool :=
  match e.kind with
  | NodeKind.Brush => !e.selected
  | _ => !(e.selected || e.descendantSelected)

/-- The membership rule of `HandleSelectedNode` for the selection batch, on a record. -/
def DocNode.inSelectionRule (e : DocNode) : Bool := e.selected || e.descendantSelected

/-- The record of a node after a selection change that reported the nodes `ns`: a
reported node carries its new flags. -/
def DocNode.updated (ns : List Node) (e : DocNode) : DocNode :=
  match ns.find? fun n => n.isObject && n.id == e.id with
  | some n => { e with selected := n.selected, descendantSelected := n.descendantSelected }
  | none => e

/-- Modelled from the spec: the states of document and map renderer that are
reachable from a freshly loaded document through the four notifications.  The
document (`View::MapDocument`) is not among the sources; the list is its current
set of Group, Entity and Brush nodes with their flags.

* load: the world's children are its layers, all nodes are different objects, every
  object below a layer has that layer as owning layer and nothing is selected;
* `nodesWereAdded`: the added nodes are new objects and unselected ("newly added nodes
  are assumed initially unselected");
* `nodesWillBeRemoved`: the removed nodes are nodes of the document and unselected
  (the mirror of adding: `RemoveNode` only touches the layer batch, so a node removed
  while selected would stay in the selection batch);
* `nodesDidChange`: no change of the node set or of the flags;
* `selectionDidChange`: the reported nodes are nodes of the document, reported with
  their new flags (one object, one pair of flags); flags change in no other way. -/
inductive Reachable (prefs : Preferences) : List DocNode → MapRenderer → Prop where
  | loaded (world : Node) (r : MapRenderer) :
      world.kind = NodeKind.World →
      (∀ c ∈ world.children, c.kind = NodeKind.Layer) →
      ((Node.subtree world).map Node.id).Nodup →
      (∀ c ∈ world.children, ∀ n ∈ Node.subtrees c.children, n.isObject = true →
        n.layer = some c.id ∧ n.selected = false ∧ n.descendantSelected = false) →
      MapRenderer.documentWasNewedOrLoaded prefs world (MapRenderer.new prefs) = some r →
      Reachable prefs (docNodes (Node.subtree world)) r
  | nodesAdded (d : List DocNode) (r : MapRenderer) (nodes : List Node) (r' : MapRenderer) :
      Reachable prefs d r →
      (∀ n ∈ Node.subtrees nodes, n.isObject = true →
        n.selected = false ∧ n.descendantSelected = false ∧ n.id ∉ d.map DocNode.id) →
      ((docNodes (Node.subtrees nodes)).map DocNode.id).Nodup →
      MapRenderer.nodesWereAdded nodes r = some r' →
      Reachable prefs (d ++ docNodes (Node.subtrees nodes)) r'
  | nodesRemoved (d : List DocNode) (r : MapRenderer) (nodes : List Node) (r' : MapRenderer) :
      Reachable prefs d r →
      (∀ n ∈ Node.subtrees nodes, n.isObject = true →
        n.entry ∈ d ∧ n.selected = false ∧ n.descendantSelected = false) →
      MapRenderer.nodesWillBeRemoved nodes r = some r' →
      Reachable prefs
        (d.filter fun e => decide (e.id ∉ (docNodes (Node.subtrees nodes)).map DocNode.id)) r'
  | nodesChanged (d : List DocNode) (r : MapRenderer) (nodes : List Node) (r' : MapRenderer) :
      Reachable prefs d r →
      MapRenderer.nodesDidChange nodes r = some r' →
      Reachable prefs d r'
  | selectionChanged (d : List DocNode) (r : MapRenderer) (selection : Selection)
      (r' : MapRenderer) :
      Reachable prefs d r →
      (∀ n ∈ selection.nodes, n.isObject = true →
        ∃ e ∈ d, e.id = n.id ∧ e.kind = n.kind ∧ e.layer = n.layer) →
      (∀ n ∈ selection.nodes, ∀ m ∈ selection.nodes, n.isObject = true → m.isObject = true →
        n.id = m.id → n.selected = m.selected ∧ n.descendantSelected = m.descendantSelected) →
      MapRenderer.selectionDidChange selection r = some r' →
      Reachable prefs (d.map (DocNode.updated selection.nodes)) r'

/-- The partition invariant: the records are of different objects, every record is
in the batches the membership rules assign to its flags, and the selection batch
holds nodes of the document only. -/
def PartitionInv (d : List DocNode) (r : MapRenderer) : Prop :=
  (d.map DocNode.id).Nodup ∧
  (∀ e ∈ d, ∃ l, e.layer = some l ∧
    (e.id ∈ r.layerObjects l ↔ e.inLayerRule = true) ∧
    (e.id ∈ r.selectionObjects ↔ e.inSelectionRule = true)) ∧
  (∀ id ∈ r.selectionObjects, id ∈ d.map DocNode.id)


/-- Calls received by the batch of a layer (none when the layer has no batch). -/
def MapUtils.callsAt (m : RendererMap) (layer : Nat) : List RendererCall :=
  match MapUtils.find m layer with
  | some b => b.calls
  | none => []

/-- Calls received by the batch of a layer of the map renderer. -/
def MapRenderer.layerCalls (r : MapRenderer) (layer : Nat) : List RendererCall :=
  MapUtils.callsAt r.layerRenderers layer

/-- The selection delta without its two face lists. -/
def Selection.withoutFaces (sel : Selection) : Selection :=
  { partiallySelectedNodes := sel.partiallySelectedNodes,
    partiallyDeselectedNodes := sel.partiallyDeselectedNodes,
    selectedNodes := sel.selectedNodes, deselectedNodes := sel.deselectedNodes,
    selectedBrushFaces := [], deselectedBrushFaces := [] }

/-- The selection delta of selecting two faces of brush #1. -/
def Example.selectTwoFacesOfBrush1 : Selection :=
  { partiallySelectedNodes := [Example.brush1FaceSelected], partiallyDeselectedNodes := [],
    selectedNodes := [], deselectedNodes := [],
    selectedBrushFaces :=
      [{ id := 111, brush := Example.brush1FaceSelected },
        { id := 112, brush := Example.brush1FaceSelected }],
    deselectedBrushFaces := [] }

/-- A handler that counts its invocations and touches no flag. -/
def Example.countVisit (_n : Node) (w : NodeVisitor Nat) : Option (NodeVisitor Nat) :=
  some { w with state := w.state + 1 }

/-- The node can contain other nodes: it is not a Brush. -/
def Node.isContainer (n : Node) : Bool :=
  match n.kind with
  | NodeKind.Brush => false
  | _ => true

/-- The visit function that fails when it is invoked on a cancelled visitor, and is
`visit` otherwise. -/
def failIfCancelled {σ : Type} (visit : Node → NodeVisitor σ → Option (NodeVisitor σ))
    (n : Node) (w : NodeVisitor σ) : Option (NodeVisitor σ) :=
  if w.cancelled then none else visit n w

/-- The brush below the selected group of the cancellation scenario. -/
def Example.containedBrush : Node := Node.mk 52 NodeKind.Brush false false (some 50) []

/-- The selected group of the cancellation scenario. -/
def Example.selectedGroup : Node :=
  Node.mk 51 NodeKind.Group true false (some 50) [Example.containedBrush]

/-- The layer of the cancellation scenario. -/
def Example.groupLayer : Node :=
  Node.mk 50 NodeKind.Layer false true (some 50) [Example.selectedGroup]

/-- The world of the cancellation scenario: World, Layer, Group (selected), Brush. -/
def Example.groupWorld : Node :=
  Node.mk 0 NodeKind.World false true none [Example.groupLayer]

mutual
/-- The nodes of the tree rooted at a node in depth-first pre-order, without the
descendants of the nodes at which `stop` holds. -/
def Node.prune (stop : Node → Bool) : Node → List Node
  | Node.mk i k s d l cs =>
    Node.mk i k s d l cs :: (if stop (Node.mk i k s d l cs) then [] else Node.prunes stop cs)
/-- The pruned pre-order lists of the trees rooted at the nodes of a list, one after
the other. -/
def Node.prunes (stop : Node → Bool) : List Node → List Node
  | [] => []
  | c :: cs => Node.prune stop c ++ Node.prunes stop cs
end

/-- A handler that appends the visited node to the members and touches nothing else. -/
def Example.collectMatch (n : Node) (w : NodeVisitor (MatchingNodeVisitor (List Nat))) :
    Option (NodeVisitor (MatchingNodeVisitor (List Nat))) :=
  some { w with state := { w.state with members := w.state.members ++ [n.id] } }

/-- The brush below the first group of the two-group scenario. -/
def Example.firstGroupBrush : Node := Node.mk 62 NodeKind.Brush false false (some 60) []

/-- The first group of the two-group scenario, selected. -/
def Example.firstGroup : Node :=
  Node.mk 61 NodeKind.Group true false (some 60) [Example.firstGroupBrush]

/-- The brush below the second group of the two-group scenario. -/
def Example.secondGroupBrush : Node := Node.mk 64 NodeKind.Brush false false (some 60) []

/-- The second group of the two-group scenario, not selected. -/
def Example.secondGroup : Node :=
  Node.mk 63 NodeKind.Group false false (some 60) [Example.secondGroupBrush]

/-- The layer of the two-group scenario: two sibling groups, each with one brush. -/
def Example.twoGroupLayer : Node :=
  Node.mk 60 NodeKind.Layer false true (some 60) [Example.firstGroup, Example.secondGroup]

/-- A newly constructed matching visitor that collects addresses. -/
def Example.newMatching : NodeVisitor (MatchingNodeVisitor (List Nat)) :=
  NodeVisitor.new { evaluated := [], members := [] }

/-- The visitor once the predicate was evaluated on the node: the node is logged. -/
def MatchingNodeVisitor.logged {σ : Type} (n : Node) (v : NodeVisitor (MatchingNodeVisitor σ)) :
    NodeVisitor (MatchingNodeVisitor σ) :=
  { v with state := { v.state with evaluated := v.state.evaluated ++ [n.id] } }


/-- One invocation of the callable on a node, in the form its type has: the value it
returns (`none` for a void callable) and the state it leaves. -/
def NodeLambda.invoke {L ε R : Type} (form : NodeLambda L ε R) (lam : L) (n : Node) (e : ε) :
    Option R × ε :=
  match form with
  | NodeLambda.withSelf call => (some (call lam lam n e).1, (call lam lam n e).2)
  | NodeLambda.withSelfVoid call => (none, call lam lam n e)
  | NodeLambda.unary call => (some (call lam n e).1, (call lam n e).2)
  | NodeLambda.unaryVoid call => (none, call lam n e)

/-- The return type of the callable is not void (`NodeLambdaHasResult_v<L>`). -/
def NodeLambda.hasResult {L ε R : Type} : NodeLambda L ε R → Bool
  | NodeLambda.withSelf _ => true
  | NodeLambda.withSelfVoid _ => false
  | NodeLambda.unary _ => true
  | NodeLambda.unaryVoid _ => false

/-- The state left by invoking the callable once on each node of a list, in order. -/
def NodeLambda.run {L ε R : Type} (form : NodeLambda L ε R) (lam : L) (ns : List Node) (e : ε) :
    ε :=
  ns.foldl (fun acc n => (form.invoke lam n acc).2) e

/-- The selection delta of selecting brush 22 with its node sets filled in another
order and the brush listed twice. -/
def Example.selectBrush22Reordered : Selection :=
  { partiallySelectedNodes := [Example.brush22Selected], partiallyDeselectedNodes := [],
    selectedNodes := [], deselectedNodes := [Example.group21Partial, Example.brush22Selected],
    selectedBrushFaces := [], deselectedBrushFaces := [] }

/-- A default filter under which nothing is locked or hidden and the selection
predicates read the flags of the brush. -/
def Example.flagFilter : DefaultFilter :=
  { lockedBrush := fun _ => false, selectedBrush := fun b => b.selected,
    hasSelectedFaces := fun b => b.descendantSelected, visibleBrush := fun _ => true,
    lockedFace := fun _ => false, selectedFace := fun _ => false,
    visibleFace := fun _ => true, selectedEdge := fun _ => false }
/-- The map renderer after the selected brush #1 was removed from the document. -/
def Example.afterRemoveSelected : MapRenderer :=
  (MapRenderer.nodesWillBeRemoved [Example.brush1Selected] Example.afterSelect).getD
    Example.afterSelect

/-- The map renderer after brush #1 was then added again, unselected. -/
def Example.afterAddAgain : MapRenderer :=
  (MapRenderer.nodesWereAdded [Example.brush1] Example.afterRemoveSelected).getD
    Example.afterRemoveSelected

/-! ## Auxiliary lemmas -/

section Lemmas

variable {σ : Type}

theorem MapUtils.find_eq_none_iff (m : RendererMap) (key : Nat) : find m key = none ↔ key ∉ keys m := by
  induction m with
  | nil => simp [find, keys]
  | cons p m ih =>
    obtain ⟨k, r⟩ := p
    by_cases h : k = key
    · simp [find, keys, h]
    · simp only [find, h, if_false, ih]
      simp [keys, Ne.symm h]

theorem MapUtils.find_isSome_iff (m : RendererMap) (key : Nat) : (find m key).isSome ↔ key ∈ keys m := by
  rw [← not_iff_not, ← find_eq_none_iff]
  cases find m key <;> simp

theorem MapUtils.keys_update (m : RendererMap) (key : Nat) (f : ObjectRenderer → ObjectRenderer) :
    keys (update m key f) = keys m := by
  induction m with
  | nil => rfl
  | cons p m ih =>
    obtain ⟨k0, r⟩ := p
    simp only [keys, List.map_cons] at ih ⊢
    by_cases h : k0 = key <;> simp [update, h, ih]

theorem MapUtils.find_update (m : RendererMap) (key k : Nat) (f : ObjectRenderer → ObjectRenderer) :
    find (update m key f) k = if k = key then (find m key).map f else find m k := by
  induction m with
  | nil => simp [find, update]
  | cons p m ih =>
    obtain ⟨k0, r⟩ := p
    by_cases h0 : k0 = key
    · subst h0
      by_cases hk : k = k0
      · subst hk; simp [find, update]
      · simp [find, update, hk, Ne.symm hk, ih]
    · by_cases hk : k = key
      · subst hk
        simp [find, update, h0, ih]
      · by_cases h1 : k0 = k
        · simp [find, update, h0, hk, h1]
        · simp [find, update, h0, hk, h1, ih]

theorem MapUtils.objectsAt_update (m : RendererMap) (key k : Nat) (f : ObjectRenderer → ObjectRenderer) :
    objectsAt (update m key f) k =
      if k = key then (match find m key with | some b => (f b).objects | none => ∅)
      else objectsAt m k := by
  unfold objectsAt
  rw [find_update]
  by_cases h : k = key
  · subst h; cases find m k <;> simp
  · simp [h]

theorem MapUtils.find_append (m m2 : RendererMap) (k : Nat) :
    find (m ++ m2) k = (find m k).orElse fun _ => find m2 k := by
  induction m with
  | nil => simp [find]
  | cons p m ih =>
    obtain ⟨k0, r⟩ := p
    by_cases h : k0 = k <;> simp [find, h, ih]

theorem foldOpt_append (f : Node → σ → Option σ) (xs ys : List Node) (s : σ) :
    foldOpt f (xs ++ ys) s = (foldOpt f xs s).bind (foldOpt f ys) := by
  induction xs generalizing s with
  | nil => simp [foldOpt]
  | cons x xs ih =>
    simp only [List.cons_append, foldOpt]
    cases f x s with
    | none => simp
    | some s1 => simpa using ih s1

theorem acceptList_lift {h : Node → NodeVisitor σ → Option (NodeVisitor σ)}
    {f : Node → σ → Option σ} (hl : IsLift h f) (ns : List Node) (v : NodeVisitor σ)
    (hc : v.cancelled = false) :
    Node.acceptList (NodeVisitor.visit h) ns v =
      (foldOpt f ns v.state).map fun s =>
        { v with visited := v.visited ++ ns.map Node.id, state := s } := by
  induction ns generalizing v with
  | nil => simp [Node.acceptList, foldOpt]
  | cons n ns ih =>
    simp only [Node.acceptList, hc, Node.accept, NodeVisitor.visit, hl n, foldOpt]
    cases hf : f n v.state with
    | none => simp
    | some s1 =>
      simp only [Option.map_some', Bool.false_eq_true, if_false]
      rw [ih]
      · simp
      · exact rfl

mutual
theorem acceptAndRecurse_lift {h : Node → NodeVisitor σ → Option (NodeVisitor σ)}
    {f : Node → σ → Option σ} (hl : IsLift h f) :
    ∀ (n : Node) (v : NodeVisitor σ), v.cancelled = false → v.recursionStopped = false →
      Node.acceptAndRecurse (NodeVisitor.visit h) n v =
        (foldOpt f (Node.subtree n) v.state).map fun s =>
          { v with visited := v.visited ++ (Node.subtree n).map Node.id, state := s }
  | Node.mk i k s d l cs, v, hc, hr => by
    simp only [Node.acceptAndRecurse, NodeVisitor.visit, hl _, Node.subtree, foldOpt]
    cases hf : f (Node.mk i k s d l cs) v.state with
    | none => simp
    | some s1 =>
      simp only [Option.map_some', hr, Bool.false_eq_true, if_false]
      rw [recurse_lift hl cs]
      · simp [Node.id]
      · exact hc
      · exact rfl
theorem recurse_lift {h : Node → NodeVisitor σ → Option (NodeVisitor σ)}
    {f : Node → σ → Option σ} (hl : IsLift h f) :
    ∀ (ns : List Node) (v : NodeVisitor σ), v.cancelled = false → v.recursionStopped = false →
      Node.recurse (NodeVisitor.visit h) ns v =
        (foldOpt f (Node.subtrees ns) v.state).map fun s =>
          { v with visited := v.visited ++ (Node.subtrees ns).map Node.id, state := s }
  | [], v, _, _ => by simp [Node.recurse, Node.subtrees, foldOpt]
  | c :: cs, v, hc, hr => by
    simp only [Node.recurse, hc, Bool.false_eq_true, if_false, Node.subtrees, foldOpt_append]
    rw [acceptAndRecurse_lift hl c v hc hr]
    cases hf : foldOpt f (Node.subtree c) v.state with
    | none => simp
    | some s1 =>
      simp only [Option.map_some', Option.some_bind]
      rw [recurse_lift hl cs]
      · simp [hc]
      · exact hc
      · exact hr
end

theorem applyOps_nil (S : Finset Nat) : applyOps [] S = S := rfl

theorem applyOps_cons (o : Nat × Bool) (os : List (Nat × Bool)) (S : Finset Nat) :
    applyOps (o :: os) S = applyOps os (applyOp S o) := rfl

theorem applyOps_append (xs ys : List (Nat × Bool)) (S : Finset Nat) :
    applyOps (xs ++ ys) S = applyOps ys (applyOps xs S) := by
  simp [applyOps, List.foldl_append]

theorem mem_applyOp (S : Finset Nat) (o : Nat × Bool) (id : Nat) :
    id ∈ applyOp S o ↔ (id = o.1 ∧ o.2 = true) ∨ (id ≠ o.1 ∧ id ∈ S) := by
  unfold applyOp
  by_cases h : o.2 = true
  · by_cases h1 : id = o.1 <;> simp [h, h1]
  · by_cases h1 : id = o.1 <;> simp [h, h1]

/-- An identifier no change mentions keeps its membership. -/
theorem mem_applyOps_of_untouched (os : List (Nat × Bool)) (S : Finset Nat) (id : Nat)
    (h : ∀ o ∈ os, o.1 ≠ id) : id ∈ applyOps os S ↔ id ∈ S := by
  induction os generalizing S with
  | nil => rfl
  | cons o os ih =>
    rw [applyOps_cons, ih _ (fun o ho => h o (List.mem_cons_of_mem _ ho)), mem_applyOp]
    have := h o (List.mem_cons_self _ _)
    constructor
    · rintro (⟨h1, _⟩ | ⟨_, h2⟩)
      · exact absurd h1.symm this
      · exact h2
    · intro h2; exact Or.inr ⟨fun e => this e.symm, h2⟩

/-- When all changes mentioning `id` agree on the flag `b`, and there is one, the
final membership of `id` is `b`. -/
theorem mem_applyOps_of_touched (os : List (Nat × Bool)) (S : Finset Nat) (id : Nat) (b : Bool)
    (hin : (id, b) ∈ os) (hall : ∀ o ∈ os, o.1 = id → o.2 = b) :
    id ∈ applyOps os S ↔ b = true := by
  induction os generalizing S with
  | nil => simp at hin
  | cons o os ih =>
    rw [applyOps_cons]
    by_cases hex : (id, b) ∈ os
    · exact ih _ hex (fun o ho => hall o (List.mem_cons_of_mem _ ho))
    · have ho : o = (id, b) := by
        rcases List.mem_cons.1 hin with h | h
        · exact h.symm
        · exact absurd h hex
      have hun : ∀ o' ∈ os, o'.1 ≠ id := by
        intro o' ho' e
        have := hall o' (List.mem_cons_of_mem _ ho') e
        apply hex
        have : o' = (id, b) := Prod.ext e this
        rwa [this] at ho'
      rw [mem_applyOps_of_untouched os _ id hun, mem_applyOp, ho]
      simp

theorem HandleSelectedNode_isLift :
    IsLift MapRenderer.HandleSelectedNode.doVisit (stateStep MapRenderer.HandleSelectedNode.doVisit) := by
  intro n v
  simp only [stateStep, MapRenderer.HandleSelectedNode.doVisit, NodeVisitor.new]
  cases n.kind <;> simp only [Option.map_some']
  all_goals
    cases n.layer with
    | none => rfl
    | some l =>
      simp only
      cases MapUtils.find v.state.layerRenderers l with
      | none => rfl
      | some b =>
        simp only
        split <;> rfl

theorem objectsAt_of_find {m : RendererMap} {l : Nat} {b : ObjectRenderer}
    (h : MapUtils.find m l = some b) : MapUtils.objectsAt m l = b.objects := by
  simp [MapUtils.objectsAt, h]

theorem HandleSelectedNode_step {n : Node} {r r' : MapRenderer}
    (h : stateStep MapRenderer.HandleSelectedNode.doVisit n r = some r') :
    r'.layers = r.layers ∧
    r'.selectionObjects = applyOps (selectionOps [n]) r.selectionObjects ∧
    ∀ l, r'.layerObjects l = applyOps (layerOps l [n]) (r.layerObjects l) := by
  obtain ⟨i, k, s, d, lay, cs⟩ := n
  simp only [stateStep, MapRenderer.HandleSelectedNode.doVisit, NodeVisitor.new, Node.kind,
    Node.layer, Node.selected, Node.descendantSelected, Node.id] at h
  cases k
  case World =>
    simp at h; subst h
    simp [selectionOps, layerOps, Node.isObject, Node.kind, NodeKind.isObject, applyOps]
  case Layer =>
    simp at h; subst h
    simp [selectionOps, layerOps, Node.isObject, Node.kind, NodeKind.isObject, applyOps]
  all_goals
    cases lay with
    | none => simp at h
    | some l0 =>
      simp only at h
      cases hf : MapUtils.find r.layerRenderers l0 with
      | none => simp [hf] at h
      | some b =>
        simp only [hf] at h
        have hb := objectsAt_of_find hf
        cases s <;> cases d <;> simp at h <;> subst h <;>
          exact ⟨by simp [MapRenderer.layers, MapUtils.keys_update],
            by simp [MapRenderer.selectionObjects, selectionOps, Node.isObject, Node.kind,
                NodeKind.isObject, applyOps, applyOp, Node.inSelectionRule, Node.selected,
                Node.descendantSelected, Node.id, ObjectRenderer.addObject,
                ObjectRenderer.removeObject],
            by
              intro l
              by_cases hl : l = l0
              · subst hl
                simp [MapRenderer.layerObjects, MapUtils.objectsAt_update, hf, hb, layerOps,
                   Node.isObject, Node.kind, NodeKind.isObject, applyOps, applyOp, Node.inLayerRule,
                   Node.selected, Node.descendantSelected, Node.id, Node.layer,
                   ObjectRenderer.addObject, ObjectRenderer.removeObject]
              · simp [MapRenderer.layerObjects, MapUtils.objectsAt_update, hl, layerOps,
                   Node.isObject, Node.kind, NodeKind.isObject, applyOps, Node.layer,
                   Ne.symm hl]⟩

theorem selectionOps_cons (n : Node) (ns : List Node) :
    selectionOps (n :: ns) = selectionOps [n] ++ selectionOps ns := by
  simp only [selectionOps, List.filter_cons]
  split <;> simp

theorem layerOps_cons (l : Nat) (n : Node) (ns : List Node) :
    layerOps l (n :: ns) = layerOps l [n] ++ layerOps l ns := by
  simp only [layerOps, List.filter_cons]
  split <;> simp

theorem selectionOps_append (xs ys : List Node) :
    selectionOps (xs ++ ys) = selectionOps xs ++ selectionOps ys := by
  simp [selectionOps]

theorem layerOps_append (l : Nat) (xs ys : List Node) :
    layerOps l (xs ++ ys) = layerOps l xs ++ layerOps l ys := by
  simp [layerOps]

theorem HandleSelectedNode_step_isSome (n : Node) (r : MapRenderer) :
    (stateStep MapRenderer.HandleSelectedNode.doVisit n r).isSome ↔ n.hasBatchIn r.layers := by
  obtain ⟨i, k, s, d, lay, cs⟩ := n
  simp only [stateStep, MapRenderer.HandleSelectedNode.doVisit, NodeVisitor.new, Node.kind,
    Node.layer, Node.hasBatchIn, Node.isObject, MapRenderer.layers]
  cases k <;> simp [NodeKind.isObject]
  all_goals
    cases lay with
    | none => simp
    | some l0 =>
      simp only [Option.some.injEq, exists_eq_left', ← MapUtils.find_isSome_iff]
      cases MapUtils.find r.layerRenderers l0 with
      | none => simp
      | some b =>
        simp only [Option.isSome_some, iff_true]
        try (first | (split <;> rfl) | rfl)

theorem foldOpt_HandleSelectedNode {ns : List Node} {r r' : MapRenderer}
    (h : foldOpt (stateStep MapRenderer.HandleSelectedNode.doVisit) ns r = some r') :
    r'.layers = r.layers ∧
    r'.selectionObjects = applyOps (selectionOps ns) r.selectionObjects ∧
    ∀ l, r'.layerObjects l = applyOps (layerOps l ns) (r.layerObjects l) := by
  induction ns generalizing r with
  | nil =>
    simp only [foldOpt, Option.some.injEq] at h
    subst h
    simp [selectionOps, layerOps, applyOps]
  | cons n ns ih =>
    simp only [foldOpt] at h
    cases h1 : stateStep MapRenderer.HandleSelectedNode.doVisit n r with
    | none => simp [h1] at h
    | some r1 =>
      simp only [h1] at h
      obtain ⟨a1, a2, a3⟩ := HandleSelectedNode_step h1
      obtain ⟨b1, b2, b3⟩ := ih h
      refine ⟨b1.trans a1, ?_, ?_⟩
      · rw [b2, a2, selectionOps_cons n ns, applyOps_append]
      · intro l
        rw [b3, a3, layerOps_cons l n ns, applyOps_append]

theorem foldOpt_HandleSelectedNode_isSome (ns : List Node) (r : MapRenderer)
    (h : ∀ n ∈ ns, n.hasBatchIn r.layers) :
    (foldOpt (stateStep MapRenderer.HandleSelectedNode.doVisit) ns r).isSome := by
  induction ns generalizing r with
  | nil => simp [foldOpt]
  | cons n ns ih =>
    simp only [foldOpt]
    have h0 := (HandleSelectedNode_step_isSome n r).2 (h n (List.mem_cons_self _ _))
    cases h1 : stateStep MapRenderer.HandleSelectedNode.doVisit n r with
    | none => simp [h1] at h0
    | some r1 =>
      simp only
      apply ih
      intro m hm
      rw [(HandleSelectedNode_step h1).1]
      exact h m (List.mem_cons_of_mem _ hm)

theorem UpdateSelectedNode_isLift :
    IsLift MapRenderer.UpdateSelectedNode.doVisit
      (stateStep MapRenderer.UpdateSelectedNode.doVisit) := by
  intro n v
  simp only [stateStep, MapRenderer.UpdateSelectedNode.doVisit,
    MapRenderer.UpdateSelectedNode.handleNode, NodeVisitor.new]
  cases n.kind <;> simp only [Option.map_some']
  all_goals
    cases n.layer with
    | none => rfl
    | some l =>
      simp only
      cases MapUtils.find v.state.layerRenderers l with
      | none => rfl
      | some b => rfl

theorem UpdateSelectedNode_step {n : Node} {r r' : MapRenderer}
    (h : stateStep MapRenderer.UpdateSelectedNode.doVisit n r = some r') :
    r'.layers = r.layers ∧ r'.selectionObjects = r.selectionObjects ∧
    ∀ l, r'.layerObjects l = r.layerObjects l := by
  obtain ⟨i, k, s, d, lay, cs⟩ := n
  simp only [stateStep, MapRenderer.UpdateSelectedNode.doVisit,
    MapRenderer.UpdateSelectedNode.handleNode, NodeVisitor.new, Node.kind,
    Node.layer, Node.selected, Node.descendantSelected, Node.id] at h
  cases k
  case World => simp at h; subst h; simp
  case Layer => simp at h; subst h; simp
  all_goals
    cases lay with
    | none => simp at h
    | some l0 =>
      simp only at h
      cases hf : MapUtils.find r.layerRenderers l0 with
      | none => simp [hf] at h
      | some b =>
        simp only [hf] at h
        have hb := objectsAt_of_find hf
        cases s <;> cases d <;> simp at h <;> subst h <;>
          exact ⟨by simp [MapRenderer.layers, MapUtils.keys_update],
            by simp [MapRenderer.selectionObjects, ObjectRenderer.updateObject],
            by
              intro l
              by_cases hl : l = l0
              · subst hl
                simp [MapRenderer.layerObjects, MapUtils.objectsAt_update, hf, hb,
                  ObjectRenderer.updateObject]
              · simp [MapRenderer.layerObjects, MapUtils.objectsAt_update, hl]⟩

theorem UpdateSelectedNode_step_isSome (n : Node) (r : MapRenderer) :
    (stateStep MapRenderer.UpdateSelectedNode.doVisit n r).isSome ↔ n.hasBatchIn r.layers := by
  obtain ⟨i, k, s, d, lay, cs⟩ := n
  simp only [stateStep, MapRenderer.UpdateSelectedNode.doVisit,
    MapRenderer.UpdateSelectedNode.handleNode, NodeVisitor.new, Node.kind,
    Node.layer, Node.hasBatchIn, Node.isObject, MapRenderer.layers]
  cases k <;> simp [NodeKind.isObject]
  all_goals
    cases lay with
    | none => simp
    | some l0 =>
      simp only [Option.some.injEq, exists_eq_left', ← MapUtils.find_isSome_iff]
      cases MapUtils.find r.layerRenderers l0 with
      | none => simp
      | some b => simp

theorem foldOpt_UpdateSelectedNode {ns : List Node} {r r' : MapRenderer}
    (h : foldOpt (stateStep MapRenderer.UpdateSelectedNode.doVisit) ns r = some r') :
    r'.layers = r.layers ∧ r'.selectionObjects = r.selectionObjects ∧
    ∀ l, r'.layerObjects l = r.layerObjects l := by
  induction ns generalizing r with
  | nil =>
    simp only [foldOpt, Option.some.injEq] at h
    subst h
    simp
  | cons n ns ih =>
    simp only [foldOpt] at h
    cases h1 : stateStep MapRenderer.UpdateSelectedNode.doVisit n r with
    | none => simp [h1] at h
    | some r1 =>
      simp only [h1] at h
      obtain ⟨a1, a2, a3⟩ := UpdateSelectedNode_step h1
      obtain ⟨b1, b2, b3⟩ := ih h
      exact ⟨b1.trans a1, b2.trans a2, fun l => (b3 l).trans (a3 l)⟩

theorem foldOpt_UpdateSelectedNode_isSome (ns : List Node) (r : MapRenderer)
    (h : ∀ n ∈ ns, n.hasBatchIn r.layers) :
    (foldOpt (stateStep MapRenderer.UpdateSelectedNode.doVisit) ns r).isSome := by
  induction ns generalizing r with
  | nil => simp [foldOpt]
  | cons n ns ih =>
    simp only [foldOpt]
    have h0 := (UpdateSelectedNode_step_isSome n r).2 (h n (List.mem_cons_self _ _))
    cases h1 : stateStep MapRenderer.UpdateSelectedNode.doVisit n r with
    | none => simp [h1] at h0
    | some r1 =>
      simp only
      apply ih
      intro m hm
      rw [(UpdateSelectedNode_step h1).1]
      exact h m (List.mem_cons_of_mem _ hm)

theorem selectionDidChange_eq (sel : Selection) (r : MapRenderer) :
    MapRenderer.selectionDidChange sel r =
      (foldOpt (stateStep MapRenderer.HandleSelectedNode.doVisit) sel.nodes r).bind
        (foldOpt (stateStep MapRenderer.UpdateSelectedNode.doVisit) sel.faceParents) := by
  simp only [MapRenderer.selectionDidChange, Selection.nodes, Selection.faceParents,
    foldOpt_append, Option.bind_eq_bind]
  rw [acceptList_lift HandleSelectedNode_isLift _ _ rfl]
  simp only [NodeVisitor.new]
  cases foldOpt (stateStep MapRenderer.HandleSelectedNode.doVisit) sel.partiallySelectedNodes r with
  | none => rfl
  | some r1 =>
    simp only [Option.map_some', Option.some_bind]
    rw [acceptList_lift HandleSelectedNode_isLift _ _ rfl]
    cases foldOpt (stateStep MapRenderer.HandleSelectedNode.doVisit)
        sel.partiallyDeselectedNodes r1 with
    | none => rfl
    | some r2 =>
      simp only [Option.map_some', Option.some_bind]
      rw [acceptList_lift HandleSelectedNode_isLift _ _ rfl]
      cases foldOpt (stateStep MapRenderer.HandleSelectedNode.doVisit) sel.selectedNodes r2 with
      | none => rfl
      | some r3 =>
        simp only [Option.map_some', Option.some_bind]
        rw [acceptList_lift HandleSelectedNode_isLift _ _ rfl]
        cases foldOpt (stateStep MapRenderer.HandleSelectedNode.doVisit) sel.deselectedNodes r3 with
        | none => rfl
        | some r4 =>
          simp only [Option.map_some', Option.some_bind]
          rw [acceptList_lift UpdateSelectedNode_isLift _ _ rfl]
          cases foldOpt (stateStep MapRenderer.UpdateSelectedNode.doVisit)
              (MapRenderer.collectBrushes sel.selectedBrushFaces) r4 with
          | none => rfl
          | some r5 =>
            simp only [Option.map_some', Option.some_bind]
            rw [acceptList_lift UpdateSelectedNode_isLift _ _ rfl]
            cases foldOpt (stateStep MapRenderer.UpdateSelectedNode.doVisit)
                (MapRenderer.collectBrushes sel.deselectedBrushFaces) r5 with
            | none => rfl
            | some r6 => rfl

theorem selectionDidChange_sem {sel : Selection} {r r' : MapRenderer}
    (h : MapRenderer.selectionDidChange sel r = some r') :
    r'.layers = r.layers ∧
    r'.selectionObjects = applyOps (selectionOps sel.nodes) r.selectionObjects ∧
    ∀ l, r'.layerObjects l = applyOps (layerOps l sel.nodes) (r.layerObjects l) := by
  rw [selectionDidChange_eq] at h
  cases h1 : foldOpt (stateStep MapRenderer.HandleSelectedNode.doVisit) sel.nodes r with
  | none => simp [h1] at h
  | some r1 =>
    simp only [h1, Option.some_bind] at h
    obtain ⟨a1, a2, a3⟩ := foldOpt_HandleSelectedNode h1
    obtain ⟨b1, b2, b3⟩ := foldOpt_UpdateSelectedNode h
    exact ⟨b1.trans a1, b2.trans a2, fun l => (b3 l).trans (a3 l)⟩

theorem selectionDidChange_isSome (sel : Selection) (r : MapRenderer)
    (h1 : ∀ n ∈ sel.nodes, n.hasBatchIn r.layers)
    (h2 : ∀ n ∈ sel.faceParents, n.hasBatchIn r.layers) :
    (MapRenderer.selectionDidChange sel r).isSome := by
  rw [selectionDidChange_eq]
  have a := foldOpt_HandleSelectedNode_isSome sel.nodes r h1
  cases hr : foldOpt (stateStep MapRenderer.HandleSelectedNode.doVisit) sel.nodes r with
  | none => simp [hr] at a
  | some r1 =>
    simp only [Option.some_bind]
    apply foldOpt_UpdateSelectedNode_isSome
    rw [(foldOpt_HandleSelectedNode hr).1]
    exact h2

theorem mem_selectionOps {ns : List Node} {o : Nat × Bool} :
    o ∈ selectionOps ns ↔ ∃ n ∈ ns, n.isObject = true ∧ o = (n.id, n.inSelectionRule) := by
  simp only [selectionOps, List.mem_map, List.mem_filter]
  constructor
  · rintro ⟨n, ⟨h1, h2⟩, rfl⟩; exact ⟨n, h1, h2, rfl⟩
  · rintro ⟨n, h1, h2, rfl⟩; exact ⟨n, ⟨h1, h2⟩, rfl⟩

theorem mem_layerOps {l : Nat} {ns : List Node} {o : Nat × Bool} :
    o ∈ layerOps l ns ↔
      ∃ n ∈ ns, n.isObject = true ∧ n.layer = some l ∧ o = (n.id, n.inLayerRule) := by
  simp only [layerOps, List.mem_map, List.mem_filter, Bool.and_eq_true, decide_eq_true_eq]
  constructor
  · rintro ⟨n, ⟨h1, h2, h3⟩, rfl⟩; exact ⟨n, h1, h2, h3, rfl⟩
  · rintro ⟨n, h1, h2, h3, rfl⟩; exact ⟨n, ⟨h1, h2, h3⟩, rfl⟩

/-- Membership of a handled object node after `selectionDidChange`, when every
handled node at the same address carries the same flags, kind and layer. -/
theorem selectionDidChange_handled {sel : Selection} {r r' : MapRenderer} {n : Node} {layer : Nat}
    (h : MapRenderer.selectionDidChange sel r = some r')
    (hn : n ∈ sel.nodes) (ho : n.isObject = true) (hl : n.layer = some layer)
    (hid : ∀ m ∈ sel.nodes, m.isObject = true → m.id = n.id →
      m.kind = n.kind ∧ m.selected = n.selected ∧ m.descendantSelected = n.descendantSelected) :
    (n.id ∈ r'.layerObjects layer ↔ n.inLayerRule = true) ∧
    (n.id ∈ r'.selectionObjects ↔ n.inSelectionRule = true) := by
  obtain ⟨_, a2, a3⟩ := selectionDidChange_sem h
  constructor
  · rw [a3]
    apply mem_applyOps_of_touched
    · exact mem_layerOps.2 ⟨n, hn, ho, hl, rfl⟩
    · intro o ho' e
      obtain ⟨m, hm, hmo, _, rfl⟩ := mem_layerOps.1 ho'
      obtain ⟨c1, c2, c3⟩ := hid m hm hmo e
      simp [Node.inLayerRule, c1, c2, c3]
  · rw [a2]
    apply mem_applyOps_of_touched
    · exact mem_selectionOps.2 ⟨n, hn, ho, rfl⟩
    · intro o ho' e
      obtain ⟨m, hm, hmo, rfl⟩ := mem_selectionOps.1 ho'
      obtain ⟨c1, c2, c3⟩ := hid m hm hmo e
      simp [Node.inSelectionRule, c2, c3]

/-- When there is a change mentioning `id` and every such change sets the membership
of `id` to the truth value of `P`, the final membership of `id` is `P`. -/
theorem mem_applyOps_of_forall_touched (os : List (Nat × Bool)) (S : Finset Nat) (id : Nat)
    (P : Prop) (hex : ∃ o ∈ os, o.1 = id) (hall : ∀ o ∈ os, o.1 = id → (o.2 = true ↔ P)) :
    id ∈ applyOps os S ↔ P := by
  induction os generalizing S with
  | nil => simp at hex
  | cons o os ih =>
    rw [applyOps_cons]
    by_cases hex2 : ∃ o' ∈ os, o'.1 = id
    · exact ih _ hex2 (fun o' ho' => hall o' (List.mem_cons_of_mem _ ho'))
    · have ho : o.1 = id := by
        obtain ⟨o', ho', e⟩ := hex
        rcases List.mem_cons.1 ho' with h | h
        · rw [← h]; exact e
        · exact absurd ⟨o', h, e⟩ hex2
      have hun : ∀ o' ∈ os, o'.1 ≠ id := fun o' ho' e => hex2 ⟨o', ho', e⟩
      rw [mem_applyOps_of_untouched os _ id hun, mem_applyOp]
      have := hall o (List.mem_cons_self _ _) ho
      constructor
      · rintro (⟨_, h2⟩ | ⟨h1, _⟩)
        · exact this.1 h2
        · exact absurd ho.symm h1
      · intro hp; exact Or.inl ⟨ho.symm, this.2 hp⟩

/-- Two rounds of changes restore a batch when the second round mentions every
identifier of the first and sets each one back to its membership in `S`. -/
theorem applyOps_round_trip (os1 os2 : List (Nat × Bool)) (S : Finset Nat)
    (hsub : ∀ o ∈ os1, ∃ o' ∈ os2, o'.1 = o.1)
    (hback : ∀ o ∈ os2, (o.2 = true ↔ o.1 ∈ S)) :
    applyOps os2 (applyOps os1 S) = S := by
  ext id
  by_cases hex : ∃ o ∈ os2, o.1 = id
  · apply mem_applyOps_of_forall_touched os2 _ id (id ∈ S) hex
    intro o ho e
    rw [← e]; exact hback o ho
  · have hun2 : ∀ o ∈ os2, o.1 ≠ id := fun o ho e => hex ⟨o, ho, e⟩
    have hun1 : ∀ o ∈ os1, o.1 ≠ id := by
      intro o ho e
      obtain ⟨o', ho', e'⟩ := hsub o ho
      exact hex ⟨o', ho', e'.trans e⟩
    rw [mem_applyOps_of_untouched os2 _ id hun2, mem_applyOps_of_untouched os1 _ id hun1]

theorem Node.setSelected_id (n : Node) (b : Bool) : (n.setSelected b).id = n.id := by
  cases n; rfl

theorem Node.setSelected_layer (n : Node) (b : Bool) : (n.setSelected b).layer = n.layer := by
  cases n; rfl

theorem Node.setSelected_isObject (n : Node) (b : Bool) :
    (n.setSelected b).isObject = n.isObject := by
  cases n; rfl

theorem Node.setDescendantSelected_id (n : Node) (b : Bool) :
    (n.setDescendantSelected b).id = n.id := by
  cases n; rfl

theorem Node.setDescendantSelected_layer (n : Node) (b : Bool) :
    (n.setDescendantSelected b).layer = n.layer := by
  cases n; rfl

theorem Node.setDescendantSelected_isObject (n : Node) (b : Bool) :
    (n.setDescendantSelected b).isObject = n.isObject := by
  cases n; rfl

theorem Node.hasBatchIn_setSelected {keys : List Nat} {n : Node} (b : Bool)
    (h : n.hasBatchIn keys) : (n.setSelected b).hasBatchIn keys := by
  simpa [Node.hasBatchIn, Node.setSelected_isObject, Node.setSelected_layer] using h

theorem Node.hasBatchIn_setDescendantSelected {keys : List Nat} {n : Node} (b : Bool)
    (h : n.hasBatchIn keys) : (n.setDescendantSelected b).hasBatchIn keys := by
  simpa [Node.hasBatchIn, Node.setDescendantSelected_isObject,
    Node.setDescendantSelected_layer] using h

/-- Selecting and then deselecting restores every batch, in a state that satisfies
the partition invariant at the nodes concerned. -/
theorem select_deselect_restores (r : MapRenderer) (ancestors nodes : List Node)
    (hbatch : ∀ n ∈ ancestors ++ nodes, n.hasBatchIn r.layers)
    (hplaced : ∀ n ∈ ancestors ++ nodes, r.PlacedByRule n) :
    ∃ r1 r2,
      MapRenderer.selectionDidChange (Selection.ofSelect ancestors nodes) r = some r1 ∧
      MapRenderer.selectionDidChange (Selection.ofDeselect ancestors nodes) r1 = some r2 ∧
      r2.layers = r.layers ∧ r2.selectionObjects = r.selectionObjects ∧
      ∀ l, r2.layerObjects l = r.layerObjects l := by
  have hn1 : (Selection.ofSelect ancestors nodes).nodes =
      (ancestors.map fun n => n.setDescendantSelected true) ++
        nodes.map fun n => n.setSelected true := by
    simp [Selection.nodes, Selection.ofSelect]
  have hn2 : (Selection.ofDeselect ancestors nodes).nodes = ancestors ++ nodes := by
    simp [Selection.nodes, Selection.ofDeselect]
  have hs1 := selectionDidChange_isSome (Selection.ofSelect ancestors nodes) r
    (by
      rw [hn1]
      intro n hn
      rcases List.mem_append.1 hn with h | h
      · obtain ⟨m, hm, rfl⟩ := List.mem_map.1 h
        exact Node.hasBatchIn_setDescendantSelected _
          (hbatch m (List.mem_append_left _ hm))
      · obtain ⟨m, hm, rfl⟩ := List.mem_map.1 h
        exact Node.hasBatchIn_setSelected _ (hbatch m (List.mem_append_right _ hm)))
    (by simp [Selection.faceParents, Selection.ofSelect, MapRenderer.collectBrushes])
  obtain ⟨r1, hr1⟩ := Option.isSome_iff_exists.1 hs1
  obtain ⟨a1, a2, a3⟩ := selectionDidChange_sem hr1
  have hs2 := selectionDidChange_isSome (Selection.ofDeselect ancestors nodes) r1
    (by rw [hn2, a1]; exact hbatch)
    (by simp [Selection.faceParents, Selection.ofDeselect, MapRenderer.collectBrushes])
  obtain ⟨r2, hr2⟩ := Option.isSome_iff_exists.1 hs2
  obtain ⟨b1, b2, b3⟩ := selectionDidChange_sem hr2
  refine ⟨r1, r2, hr1, hr2, b1.trans a1, ?_, ?_⟩
  · rw [b2, a2, hn1, hn2]
    apply applyOps_round_trip
    · intro o ho
      obtain ⟨n, hn, hobj, rfl⟩ := mem_selectionOps.1 ho
      rcases List.mem_append.1 hn with h | h
      · obtain ⟨m, hm, rfl⟩ := List.mem_map.1 h
        rw [Node.setDescendantSelected_isObject] at hobj
        exact ⟨_, mem_selectionOps.2 ⟨m, List.mem_append_left _ hm, hobj, rfl⟩,
          (Node.setDescendantSelected_id m true).symm⟩
      · obtain ⟨m, hm, rfl⟩ := List.mem_map.1 h
        rw [Node.setSelected_isObject] at hobj
        exact ⟨_, mem_selectionOps.2 ⟨m, List.mem_append_right _ hm, hobj, rfl⟩,
          (Node.setSelected_id m true).symm⟩
    · intro o ho
      obtain ⟨n, hn, hobj, rfl⟩ := mem_selectionOps.1 ho
      have hh := hbatch n hn hobj
      obtain ⟨l, hl, _⟩ := hh
      exact ((hplaced n hn hobj l hl).2).symm
  · intro l
    rw [b3, a3, hn1, hn2]
    apply applyOps_round_trip
    · intro o ho
      obtain ⟨n, hn, hobj, hlay, rfl⟩ := mem_layerOps.1 ho
      rcases List.mem_append.1 hn with h | h
      · obtain ⟨m, hm, rfl⟩ := List.mem_map.1 h
        rw [Node.setDescendantSelected_isObject] at hobj
        rw [Node.setDescendantSelected_layer] at hlay
        exact ⟨_, mem_layerOps.2 ⟨m, List.mem_append_left _ hm, hobj, hlay, rfl⟩,
          (Node.setDescendantSelected_id m true).symm⟩
      · obtain ⟨m, hm, rfl⟩ := List.mem_map.1 h
        rw [Node.setSelected_isObject] at hobj
        rw [Node.setSelected_layer] at hlay
        exact ⟨_, mem_layerOps.2 ⟨m, List.mem_append_right _ hm, hobj, hlay, rfl⟩,
          (Node.setSelected_id m true).symm⟩
    · intro o ho
      obtain ⟨n, hn, hobj, hlay, rfl⟩ := mem_layerOps.1 ho
      exact ((hplaced n hn hobj l hlay).1).symm

theorem foldOpt_isSome_iff {f : Node → σ → Option σ} {keyf : σ → List Nat}
    (hk : ∀ n s s', f n s = some s' → keyf s' = keyf s)
    (hs : ∀ n s, (f n s).isSome ↔ n.hasBatchIn (keyf s)) (ns : List Node) (s : σ) :
    (foldOpt f ns s).isSome ↔ ∀ n ∈ ns, n.hasBatchIn (keyf s) := by
  induction ns generalizing s with
  | nil => simp [foldOpt]
  | cons n ns ih =>
    simp only [foldOpt, List.mem_cons, forall_eq_or_imp]
    cases h1 : f n s with
    | none =>
      have := (hs n s).not
      simp only [h1, Option.isSome_none, Bool.false_eq_true, not_false_eq_true, true_iff] at this
      simp [this]
    | some s1 =>
      have := (hs n s).1 (by simp [h1])
      simp only [this, true_and]
      rw [ih s1, hk n s s1 h1]

theorem mem_objectIdsOf {l : Nat} {ns : List Node} {id : Nat} :
    id ∈ objectIdsOf l ns ↔ ∃ n ∈ ns, n.isObject = true ∧ n.layer = some l ∧ n.id = id := by
  simp only [objectIdsOf, List.mem_map, List.mem_filter, Bool.and_eq_true, decide_eq_true_eq]
  constructor
  · rintro ⟨n, ⟨h1, h2, h3⟩, rfl⟩; exact ⟨n, h1, h2, h3, rfl⟩
  · rintro ⟨n, h1, h2, h3, rfl⟩; exact ⟨n, ⟨h1, h2, h3⟩, rfl⟩

theorem objectIdsOf_cons (l : Nat) (n : Node) (ns : List Node) :
    objectIdsOf l (n :: ns) = objectIdsOf l [n] ++ objectIdsOf l ns := by
  simp only [objectIdsOf, List.filter_cons]
  split <;> simp

theorem AddNode_isLift :
    IsLift MapRenderer.AddNode.doVisit (stateStep MapRenderer.AddNode.doVisit) := by
  intro n v
  simp only [stateStep, MapRenderer.AddNode.doVisit, MapRenderer.AddNode.handleNode,
    NodeVisitor.new]
  cases n.kind <;> simp only [Option.map_some']
  all_goals
    cases n.layer with
    | none => rfl
    | some l =>
      simp only
      cases MapUtils.find v.state l with
      | none => rfl
      | some b => rfl

theorem RemoveNode_isLift :
    IsLift MapRenderer.RemoveNode.doVisit (stateStep MapRenderer.RemoveNode.doVisit) := by
  intro n v
  simp only [stateStep, MapRenderer.RemoveNode.doVisit, MapRenderer.RemoveNode.handleNode,
    NodeVisitor.new]
  cases n.kind <;> simp only [Option.map_some']
  all_goals
    cases n.layer with
    | none => rfl
    | some l =>
      simp only
      cases MapUtils.find v.state l with
      | none => rfl
      | some b => rfl

theorem AddNode_step {n : Node} {m m' : RendererMap}
    (h : stateStep MapRenderer.AddNode.doVisit n m = some m') :
    MapUtils.keys m' = MapUtils.keys m ∧
    ∀ l, MapUtils.objectsAt m' l = MapUtils.objectsAt m l ∪ (objectIdsOf l [n]).toFinset := by
  obtain ⟨i, k, s, d, lay, cs⟩ := n
  simp only [stateStep, MapRenderer.AddNode.doVisit, MapRenderer.AddNode.handleNode,
    NodeVisitor.new, Node.kind, Node.layer, Node.id] at h
  cases k
  case World => simp at h; subst h; simp [objectIdsOf, Node.isObject, Node.kind, NodeKind.isObject]
  case Layer => simp at h; subst h; simp [objectIdsOf, Node.isObject, Node.kind, NodeKind.isObject]
  all_goals
    cases lay with
    | none => simp at h
    | some l0 =>
      simp only at h
      cases hf : MapUtils.find m l0 with
      | none => simp [hf] at h
      | some b =>
        simp only [hf, Option.map_some', Option.some.injEq] at h
        subst h
        have hb := objectsAt_of_find hf
        refine ⟨MapUtils.keys_update _ _ _, fun l => ?_⟩
        by_cases hl : l = l0
        · subst hl
          simp [MapUtils.objectsAt_update, hf, hb, objectIdsOf, Node.isObject, Node.kind,
            NodeKind.isObject, Node.layer, Node.id, ObjectRenderer.addObject,
            Finset.union_comm, Finset.insert_eq]
        · simp [MapUtils.objectsAt_update, hl, objectIdsOf, Node.isObject, Node.kind,
            NodeKind.isObject, Node.layer, Ne.symm hl]

theorem RemoveNode_step {n : Node} {m m' : RendererMap}
    (h : stateStep MapRenderer.RemoveNode.doVisit n m = some m') :
    MapUtils.keys m' = MapUtils.keys m ∧
    ∀ l, MapUtils.objectsAt m' l = MapUtils.objectsAt m l \ (objectIdsOf l [n]).toFinset := by
  obtain ⟨i, k, s, d, lay, cs⟩ := n
  simp only [stateStep, MapRenderer.RemoveNode.doVisit, MapRenderer.RemoveNode.handleNode,
    NodeVisitor.new, Node.kind, Node.layer, Node.id] at h
  cases k
  case World => simp at h; subst h; simp [objectIdsOf, Node.isObject, Node.kind, NodeKind.isObject]
  case Layer => simp at h; subst h; simp [objectIdsOf, Node.isObject, Node.kind, NodeKind.isObject]
  all_goals
    cases lay with
    | none => simp at h
    | some l0 =>
      simp only at h
      cases hf : MapUtils.find m l0 with
      | none => simp [hf] at h
      | some b =>
        simp only [hf, Option.map_some', Option.some.injEq] at h
        subst h
        have hb := objectsAt_of_find hf
        refine ⟨MapUtils.keys_update _ _ _, fun l => ?_⟩
        by_cases hl : l = l0
        · subst hl
          simp [MapUtils.objectsAt_update, hf, hb, objectIdsOf, Node.isObject, Node.kind,
            NodeKind.isObject, Node.layer, Node.id, ObjectRenderer.removeObject,
            Finset.erase_eq]
        · simp [MapUtils.objectsAt_update, hl, objectIdsOf, Node.isObject, Node.kind,
            NodeKind.isObject, Node.layer, Ne.symm hl]

theorem AddNode_step_isSome (n : Node) (m : RendererMap) :
    (stateStep MapRenderer.AddNode.doVisit n m).isSome ↔ n.hasBatchIn (MapUtils.keys m) := by
  obtain ⟨i, k, s, d, lay, cs⟩ := n
  simp only [stateStep, MapRenderer.AddNode.doVisit, MapRenderer.AddNode.handleNode,
    NodeVisitor.new, Node.kind, Node.layer, Node.hasBatchIn, Node.isObject]
  cases k <;> simp [NodeKind.isObject]
  all_goals
    cases lay with
    | none => simp
    | some l0 =>
      simp only [Option.some.injEq, exists_eq_left', ← MapUtils.find_isSome_iff]
      cases MapUtils.find m l0 with
      | none => simp
      | some b => simp

theorem RemoveNode_step_isSome (n : Node) (m : RendererMap) :
    (stateStep MapRenderer.RemoveNode.doVisit n m).isSome ↔ n.hasBatchIn (MapUtils.keys m) := by
  obtain ⟨i, k, s, d, lay, cs⟩ := n
  simp only [stateStep, MapRenderer.RemoveNode.doVisit, MapRenderer.RemoveNode.handleNode,
    NodeVisitor.new, Node.kind, Node.layer, Node.hasBatchIn, Node.isObject]
  cases k <;> simp [NodeKind.isObject]
  all_goals
    cases lay with
    | none => simp
    | some l0 =>
      simp only [Option.some.injEq, exists_eq_left', ← MapUtils.find_isSome_iff]
      cases MapUtils.find m l0 with
      | none => simp
      | some b => simp

theorem foldOpt_AddNode {ns : List Node} {m m' : RendererMap}
    (h : foldOpt (stateStep MapRenderer.AddNode.doVisit) ns m = some m') :
    MapUtils.keys m' = MapUtils.keys m ∧
    ∀ l, MapUtils.objectsAt m' l = MapUtils.objectsAt m l ∪ (objectIdsOf l ns).toFinset := by
  induction ns generalizing m with
  | nil =>
    simp only [foldOpt, Option.some.injEq] at h
    subst h
    simp [objectIdsOf]
  | cons n ns ih =>
    simp only [foldOpt] at h
    cases h1 : stateStep MapRenderer.AddNode.doVisit n m with
    | none => simp [h1] at h
    | some m1 =>
      simp only [h1] at h
      obtain ⟨a1, a2⟩ := AddNode_step h1
      obtain ⟨b1, b2⟩ := ih h
      refine ⟨b1.trans a1, fun l => ?_⟩
      rw [b2, a2, objectIdsOf_cons l n ns, List.toFinset_append, Finset.union_assoc]

theorem foldOpt_RemoveNode {ns : List Node} {m m' : RendererMap}
    (h : foldOpt (stateStep MapRenderer.RemoveNode.doVisit) ns m = some m') :
    MapUtils.keys m' = MapUtils.keys m ∧
    ∀ l, MapUtils.objectsAt m' l = MapUtils.objectsAt m l \ (objectIdsOf l ns).toFinset := by
  induction ns generalizing m with
  | nil =>
    simp only [foldOpt, Option.some.injEq] at h
    subst h
    simp [objectIdsOf]
  | cons n ns ih =>
    simp only [foldOpt] at h
    cases h1 : stateStep MapRenderer.RemoveNode.doVisit n m with
    | none => simp [h1] at h
    | some m1 =>
      simp only [h1] at h
      obtain ⟨a1, a2⟩ := RemoveNode_step h1
      obtain ⟨b1, b2⟩ := ih h
      refine ⟨b1.trans a1, fun l => ?_⟩
      rw [b2, a2, objectIdsOf_cons l n ns, List.toFinset_append]
      ext x
      simp only [Finset.mem_sdiff, Finset.mem_union, not_or]
      tauto

theorem nodesWereAdded_eq (nodes : List Node) (r : MapRenderer) :
    MapRenderer.nodesWereAdded nodes r =
      (foldOpt (stateStep MapRenderer.AddNode.doVisit) (Node.subtrees nodes) r.layerRenderers).map
        fun m => { r with layerRenderers := m } := by
  simp only [MapRenderer.nodesWereAdded]
  rw [recurse_lift AddNode_isLift _ _ rfl rfl]
  simp only [NodeVisitor.new]
  cases foldOpt (stateStep MapRenderer.AddNode.doVisit) (Node.subtrees nodes) r.layerRenderers <;>
    rfl

theorem nodesWillBeRemoved_eq (nodes : List Node) (r : MapRenderer) :
    MapRenderer.nodesWillBeRemoved nodes r =
      (foldOpt (stateStep MapRenderer.RemoveNode.doVisit) (Node.subtrees nodes)
        r.layerRenderers).map fun m => { r with layerRenderers := m } := by
  simp only [MapRenderer.nodesWillBeRemoved]
  rw [recurse_lift RemoveNode_isLift _ _ rfl rfl]
  simp only [NodeVisitor.new]
  cases foldOpt (stateStep MapRenderer.RemoveNode.doVisit) (Node.subtrees nodes)
    r.layerRenderers <;> rfl

theorem nodesWereAdded_isSome_iff (nodes : List Node) (r : MapRenderer) :
    (MapRenderer.nodesWereAdded nodes r).isSome ↔
      ∀ n ∈ Node.subtrees nodes, n.hasBatchIn r.layers := by
  rw [nodesWereAdded_eq, Option.isSome_map']
  exact foldOpt_isSome_iff (fun n s s' h => (AddNode_step h).1) AddNode_step_isSome _ _

theorem nodesWillBeRemoved_isSome_iff (nodes : List Node) (r : MapRenderer) :
    (MapRenderer.nodesWillBeRemoved nodes r).isSome ↔
      ∀ n ∈ Node.subtrees nodes, n.hasBatchIn r.layers := by
  rw [nodesWillBeRemoved_eq, Option.isSome_map']
  exact foldOpt_isSome_iff (fun n s s' h => (RemoveNode_step h).1) RemoveNode_step_isSome _ _

theorem nodesWereAdded_sem {nodes : List Node} {r r' : MapRenderer}
    (h : MapRenderer.nodesWereAdded nodes r = some r') :
    r'.layers = r.layers ∧ r'.selectionRenderer = r.selectionRenderer ∧
    ∀ l, r'.layerObjects l = r.layerObjects l ∪ (objectIdsOf l (Node.subtrees nodes)).toFinset := by
  rw [nodesWereAdded_eq] at h
  cases h1 : foldOpt (stateStep MapRenderer.AddNode.doVisit) (Node.subtrees nodes)
      r.layerRenderers with
  | none => simp [h1] at h
  | some m =>
    simp only [h1, Option.map_some', Option.some.injEq] at h
    subst h
    obtain ⟨a1, a2⟩ := foldOpt_AddNode h1
    exact ⟨a1, rfl, a2⟩

theorem nodesWillBeRemoved_sem {nodes : List Node} {r r' : MapRenderer}
    (h : MapRenderer.nodesWillBeRemoved nodes r = some r') :
    r'.layers = r.layers ∧ r'.selectionRenderer = r.selectionRenderer ∧
    ∀ l, r'.layerObjects l = r.layerObjects l \ (objectIdsOf l (Node.subtrees nodes)).toFinset := by
  rw [nodesWillBeRemoved_eq] at h
  cases h1 : foldOpt (stateStep MapRenderer.RemoveNode.doVisit) (Node.subtrees nodes)
      r.layerRenderers with
  | none => simp [h1] at h
  | some m =>
    simp only [h1, Option.map_some', Option.some.injEq] at h
    subst h
    obtain ⟨a1, a2⟩ := foldOpt_RemoveNode h1
    exact ⟨a1, rfl, a2⟩

theorem Node.hasBatchIn_iff_find (r : MapRenderer) (n : Node) :
    n.hasBatchIn r.layers ↔
      (n.isObject = true → ∃ l, n.layer = some l ∧ MapUtils.find r.layerRenderers l ≠ none) := by
  simp only [Node.hasBatchIn, MapRenderer.layers, ne_eq, MapUtils.find_eq_none_iff, not_not]

theorem MapUtils.keys_append (m m2 : RendererMap) : keys (m ++ m2) = keys m ++ keys m2 := by
  simp [keys]

theorem MapUtils.update_of_not_mem (m : RendererMap) (key : Nat)
    (f : ObjectRenderer → ObjectRenderer) (h : key ∉ keys m) : update m key f = m := by
  induction m with
  | nil => rfl
  | cons p m ih =>
    obtain ⟨k0, r⟩ := p
    simp only [keys, List.map_cons, List.mem_cons, not_or] at h
    have h0 : ¬ k0 = key := fun e => h.1 e.symm
    simp only [update, h0, if_false]
    rw [ih (by simpa [keys] using h.2)]

theorem MapUtils.update_append (m m2 : RendererMap) (key : Nat)
    (f : ObjectRenderer → ObjectRenderer) :
    update (m ++ m2) key f = update m key f ++ update m2 key f := by
  induction m with
  | nil => rfl
  | cons p m ih =>
    obtain ⟨k0, r⟩ := p
    by_cases h0 : k0 = key <;> simp [update, h0, ih]

theorem addLayerStep_eq (c : Node) (m : RendererMap) :
    addLayerStep c m =
      if c.id ∈ MapUtils.keys m then none else some (m ++ [(c.id, loadedLayerRenderer c)]) := by
  unfold addLayerStep MapUtils.insertOrFail
  by_cases h : c.id ∈ MapUtils.keys m
  · have := (MapUtils.find_isSome_iff m c.id).2 h
    cases hf : MapUtils.find m c.id with
    | none => simp [hf] at this
    | some b => simp [h]
  · have := (MapUtils.find_eq_none_iff m c.id).2 h
    simp only [this, Option.map_some', h, if_false, Option.some.injEq]
    rw [MapUtils.update_append, MapUtils.update_of_not_mem m _ _ h]
    simp [MapUtils.update, loadedLayerRenderer]

theorem foldOpt_addLayerStep (cs : List Node) (m : RendererMap) :
    foldOpt addLayerStep cs m =
      if (cs.map Node.id).Nodup ∧ ∀ c ∈ cs, c.id ∉ MapUtils.keys m then
        some (m ++ cs.map fun c => (c.id, loadedLayerRenderer c))
      else none := by
  induction cs generalizing m with
  | nil => simp [foldOpt]
  | cons c cs ih =>
    simp only [foldOpt, addLayerStep_eq]
    by_cases h : c.id ∈ MapUtils.keys m
    · simp [h]
    · simp only [h, if_false]
      rw [ih]
      have hk : MapUtils.keys (m ++ [(c.id, loadedLayerRenderer c)]) = MapUtils.keys m ++ [c.id] := by
        rw [MapUtils.keys_append]; rfl
      have hiff : ((cs.map Node.id).Nodup ∧
            ∀ c' ∈ cs, c'.id ∉ MapUtils.keys (m ++ [(c.id, loadedLayerRenderer c)])) ↔
          (((c :: cs).map Node.id).Nodup ∧ ∀ c' ∈ c :: cs, c'.id ∉ MapUtils.keys m) := by
        rw [hk, List.map_cons, List.nodup_cons]
        constructor
        · rintro ⟨h1, h2⟩
          refine ⟨⟨?_, h1⟩, ?_⟩
          · intro hmem
            obtain ⟨a, ha, e⟩ := List.mem_map.1 hmem
            exact h2 a ha (List.mem_append_right _ (by simp [e]))
          · intro c' hc'
            rcases List.mem_cons.1 hc' with e | hc'
            · rw [e]; exact h
            · exact fun hx => h2 c' hc' (List.mem_append_left _ hx)
        · rintro ⟨⟨h1, h2⟩, h3⟩
          refine ⟨h2, fun c' hc' hx => ?_⟩
          rcases List.mem_append.1 hx with hx | hx
          · exact h3 c' (List.mem_cons_of_mem _ hc') hx
          · apply h1
            rw [List.mem_singleton] at hx
            exact List.mem_map.2 ⟨c', hc', hx⟩
      by_cases hc : ((c :: cs).map Node.id).Nodup ∧ ∀ c' ∈ c :: cs, c'.id ∉ MapUtils.keys m
      · rw [if_pos (hiff.2 hc), if_pos hc]
        simp
      · rw [if_neg (fun hx => hc (hiff.1 hx)), if_neg hc]

theorem AddLayer_doVisit_layer (c : Node) (hk : c.kind = NodeKind.Layer)
    (v : NodeVisitor RendererMap) :
    MapRenderer.AddLayer.doVisit c v =
      (addLayerStep c v.state).map fun m => { v with recursionStopped := true, state := m } := by
  simp only [MapRenderer.AddLayer.doVisit, hk, addLayerStep]
  cases MapUtils.insertOrFail v.state c.id
    (ObjectRenderer.new BrushFilter.UnselectedBrushRendererFilter) <;> rfl

theorem acceptAndRecurse_AddLayer_layer (c : Node) (hk : c.kind = NodeKind.Layer)
    (v : NodeVisitor RendererMap) :
    Node.acceptAndRecurse (NodeVisitor.visit MapRenderer.AddLayer.doVisit) c v =
      (addLayerStep c v.state).map fun m =>
        { v with recursionStopped := false, visited := v.visited ++ [c.id], state := m } := by
  obtain ⟨i, k, s, d, l, cs⟩ := c
  simp only [Node.acceptAndRecurse, NodeVisitor.visit]
  rw [AddLayer_doVisit_layer _ hk]
  cases addLayerStep (Node.mk i k s d l cs) v.state <;> rfl

theorem recurse_AddLayer_layers (cs : List Node) (hall : ∀ c ∈ cs, c.kind = NodeKind.Layer)
    (v : NodeVisitor RendererMap) (hc : v.cancelled = false) (hr : v.recursionStopped = false) :
    Node.recurse (NodeVisitor.visit MapRenderer.AddLayer.doVisit) cs v =
      (foldOpt addLayerStep cs v.state).map fun m =>
        { v with visited := v.visited ++ cs.map Node.id, state := m } := by
  induction cs generalizing v with
  | nil => simp [Node.recurse, foldOpt]
  | cons c cs ih =>
    simp only [Node.recurse, hc, Bool.false_eq_true, if_false, foldOpt]
    rw [acceptAndRecurse_AddLayer_layer c (hall c (List.mem_cons_self _ _))]
    cases addLayerStep c v.state with
    | none => rfl
    | some m1 =>
      simp only [Option.map_some']
      rw [ih (fun c' hc' => hall c' (List.mem_cons_of_mem _ hc'))]
      · simp [hr, hc]
      · exact hc
      · rfl

theorem acceptAndRecurse_AddLayer_world (w : Node) (hw : w.kind = NodeKind.World)
    (hall : ∀ c ∈ w.children, c.kind = NodeKind.Layer) (m : RendererMap) :
    Node.acceptAndRecurse (NodeVisitor.visit MapRenderer.AddLayer.doVisit) w (NodeVisitor.new m) =
      (foldOpt addLayerStep w.children m).map fun m1 =>
        { cancelled := false, recursionStopped := false,
          visited := w.id :: w.children.map Node.id, state := m1 } := by
  obtain ⟨i, k, s, d, l, cs⟩ := w
  simp only [Node.kind] at hw
  subst hw
  simp only [Node.children] at hall
  simp only [Node.acceptAndRecurse, NodeVisitor.visit, MapRenderer.AddLayer.doVisit, Node.kind,
    NodeVisitor.new, Bool.false_eq_true, if_false]
  rw [recurse_AddLayer_layers cs hall _ rfl rfl]
  simp [Node.id, Node.children]

theorem documentWasNewedOrLoaded_eq (prefs : Preferences) (w : Node) (r : MapRenderer)
    (hw : w.kind = NodeKind.World) (hall : ∀ c ∈ w.children, c.kind = NodeKind.Layer) :
    MapRenderer.documentWasNewedOrLoaded prefs w r =
      (foldOpt addLayerStep w.children r.layerRenderers).map fun m1 =>
        MapRenderer.setupLayerRenderers prefs { r with layerRenderers := m1 } := by
  simp only [MapRenderer.documentWasNewedOrLoaded]
  rw [acceptAndRecurse_AddLayer_world w hw hall]
  cases foldOpt addLayerStep w.children r.layerRenderers <;> rfl

mutual
theorem acceptAndRecurse_inv {visit : Node → NodeVisitor σ → Option (NodeVisitor σ)}
    {P : NodeVisitor σ → Prop}
    (hreset : ∀ v, P v → P { v with recursionStopped := false })
    (hvisit : ∀ n v v', P v → visit n v = some v' → P v') :
    ∀ (n : Node) (v v' : NodeVisitor σ), P v → Node.acceptAndRecurse visit n v = some v' → P v'
  | Node.mk i k s d l cs, v, v', hp, h => by
    simp only [Node.acceptAndRecurse] at h
    cases h1 : visit (Node.mk i k s d l cs) v with
    | none => simp [h1] at h
    | some v1 =>
      simp only [h1] at h
      have hp1 := hvisit _ _ _ hp h1
      by_cases hs : v1.recursionStopped = true
      · simp only [hs, if_true, Option.some.injEq] at h
        rw [← h]; exact hreset _ hp1
      · simp only [hs, Bool.false_eq_true, if_false] at h
        exact recurse_inv hreset hvisit cs _ _ (hreset _ hp1) h
theorem recurse_inv {visit : Node → NodeVisitor σ → Option (NodeVisitor σ)}
    {P : NodeVisitor σ → Prop}
    (hreset : ∀ v, P v → P { v with recursionStopped := false })
    (hvisit : ∀ n v v', P v → visit n v = some v' → P v') :
    ∀ (ns : List Node) (v v' : NodeVisitor σ), P v → Node.recurse visit ns v = some v' → P v'
  | [], v, v', hp, h => by
    simp only [Node.recurse, Option.some.injEq] at h
    rw [← h]; exact hp
  | c :: cs, v, v', hp, h => by
    simp only [Node.recurse] at h
    by_cases hc : v.cancelled = true
    · simp only [hc, if_true, Option.some.injEq] at h
      rw [← h]; exact hp
    · simp only [hc, Bool.false_eq_true, if_false] at h
      cases h1 : Node.acceptAndRecurse visit c v with
      | none => simp [h1] at h
      | some v1 =>
        simp only [h1] at h
        exact recurse_inv hreset hvisit cs _ _ (acceptAndRecurse_inv hreset hvisit c _ _ hp h1) h
end

theorem Node.subtree_eq (n : Node) : Node.subtree n = n :: Node.subtrees n.children := by
  cases n; rfl

theorem foldl_addObject_objects (xs : List Node) (r : ObjectRenderer) :
    (xs.foldl (fun acc n => acc.addObject n.id) r).objects =
      r.objects ∪ (xs.map Node.id).toFinset := by
  induction xs generalizing r with
  | nil => simp
  | cons x xs ih =>
    rw [List.foldl_cons, ih]
    ext a
    simp only [ObjectRenderer.addObject, List.map_cons, List.toFinset_cons, Finset.mem_union,
      Finset.mem_insert]
    tauto

theorem foldl_addObject_calls (xs : List Node) (r : ObjectRenderer) :
    (xs.foldl (fun acc n => acc.addObject n.id) r).addObjectCalls =
      r.addObjectCalls + xs.length := by
  induction xs generalizing r with
  | nil => simp
  | cons x xs ih =>
    rw [List.foldl_cons, ih]
    simp [ObjectRenderer.addObject, ObjectRenderer.addObjectCalls, List.filter_append]
    omega

theorem loadedLayerRenderer_objects (c : Node) (id : Nat) :
    id ∈ (loadedLayerRenderer c).objects ↔
      ∃ n ∈ Node.subtrees c.children, n.isObject = true ∧ n.id = id := by
  rw [loadedLayerRenderer, ObjectRenderer.addObjects, foldl_addObject_objects]
  simp only [ObjectRenderer.new, Finset.empty_union, List.mem_toFinset, List.mem_map,
    List.mem_filter]
  constructor
  · rintro ⟨n, ⟨h1, h2⟩, rfl⟩; exact ⟨n, h1, h2, rfl⟩
  · rintro ⟨n, h1, h2, rfl⟩; exact ⟨n, ⟨h1, h2⟩, rfl⟩

theorem loadedLayerRenderer_calls (c : Node) :
    (loadedLayerRenderer c).addObjectCalls =
      ((Node.subtrees c.children).filter Node.isObject).length := by
  rw [loadedLayerRenderer, ObjectRenderer.addObjects, foldl_addObject_calls]
  simp [ObjectRenderer.new, ObjectRenderer.addObjectCalls]

theorem find_map_snd (m : RendererMap) (f : ObjectRenderer → ObjectRenderer) (k : Nat) :
    MapUtils.find (m.map fun p => (p.1, f p.2)) k = (MapUtils.find m k).map f := by
  induction m with
  | nil => rfl
  | cons p m ih =>
    obtain ⟨k0, r⟩ := p
    by_cases h : k0 = k <;> simp [MapUtils.find, h, ih]

theorem keys_map_snd (m : RendererMap) (f : ObjectRenderer → ObjectRenderer) :
    MapUtils.keys (m.map fun p => (p.1, f p.2)) = MapUtils.keys m := by
  simp [MapUtils.keys]

theorem find_layer_entries (cs : List Node) (c : Node) (hc : c ∈ cs)
    (hnd : (cs.map Node.id).Nodup) :
    MapUtils.find (cs.map fun c => (c.id, loadedLayerRenderer c)) c.id =
      some (loadedLayerRenderer c) := by
  induction cs with
  | nil => simp at hc
  | cons x xs ih =>
    simp only [List.map_cons, List.nodup_cons] at hnd
    simp only [List.map_cons, MapUtils.find]
    rcases List.mem_cons.1 hc with e | h
    · subst e; simp
    · have : x.id ≠ c.id := fun e => hnd.1 (e ▸ List.mem_map.2 ⟨c, h, rfl⟩)
      simp only [this, if_false]
      exact ih h hnd.2

theorem keys_layer_entries (cs : List Node) :
    MapUtils.keys (cs.map fun c => (c.id, loadedLayerRenderer c)) = cs.map Node.id := by
  simp [MapUtils.keys]

theorem setupLayerRenderer_objects (prefs : Preferences) (r : ObjectRenderer) :
    (MapRenderer.setupLayerRenderer prefs r).objects = r.objects := rfl

theorem setupLayerRenderer_calls (prefs : Preferences) (r : ObjectRenderer) :
    (MapRenderer.setupLayerRenderer prefs r).addObjectCalls = r.addObjectCalls := rfl

/-- The result of a load of a well-formed world, when it succeeds. -/
theorem documentWasNewedOrLoaded_some (prefs : Preferences) (w : Node) (r : MapRenderer)
    (hw : w.kind = NodeKind.World) (hall : ∀ c ∈ w.children, c.kind = NodeKind.Layer)
    (hnd : (w.children.map Node.id).Nodup)
    (hfresh : ∀ c ∈ w.children, MapUtils.find r.layerRenderers c.id = none) :
    MapRenderer.documentWasNewedOrLoaded prefs w r =
      some (MapRenderer.setupLayerRenderers prefs
        { r with layerRenderers :=
            r.layerRenderers ++ w.children.map fun c => (c.id, loadedLayerRenderer c) }) := by
  rw [documentWasNewedOrLoaded_eq prefs w r hw hall, foldOpt_addLayerStep,
    if_pos ⟨hnd, fun c hc => (MapUtils.find_eq_none_iff _ _).1 (hfresh c hc)⟩]
  rfl

theorem count_objects_layers (cs : List Node) (hall : ∀ c ∈ cs, c.kind = NodeKind.Layer) :
    ((Node.subtrees cs).filter Node.isObject).length =
      (cs.map fun c => ((Node.subtrees c.children).filter Node.isObject).length).sum := by
  induction cs with
  | nil => simp [Node.subtrees]
  | cons c cs ih =>
    have hk := hall c (List.mem_cons_self _ _)
    have hno : c.isObject = false := by simp [Node.isObject, hk, NodeKind.isObject]
    simp only [Node.subtrees, List.filter_append, List.length_append, List.map_cons, List.sum_cons]
    rw [ih (fun c' hc' => hall c' (List.mem_cons_of_mem _ hc')), Node.subtree_eq,
      List.filter_cons, hno]
    simp

/-- Visiting with `AddLayer` never cancels and never removes a key. -/
theorem AddLayer_visit_keeps (key : Nat) (n : Node) (v v' : NodeVisitor RendererMap)
    (hp : v.cancelled = false ∧ key ∈ MapUtils.keys v.state)
    (h : NodeVisitor.visit MapRenderer.AddLayer.doVisit n v = some v') :
    v'.cancelled = false ∧ key ∈ MapUtils.keys v'.state := by
  simp only [NodeVisitor.visit] at h
  cases hk : n.kind
  case Layer =>
    rw [AddLayer_doVisit_layer n hk, addLayerStep_eq] at h
    by_cases hin : n.id ∈ MapUtils.keys v.state
    · simp [hin] at h
    · simp only [hin, if_false, Option.map_some', Option.some.injEq] at h
      rw [← h]
      exact ⟨hp.1, by simp [MapUtils.keys_append, hp.2]⟩
  case World =>
    simp only [MapRenderer.AddLayer.doVisit, hk, Option.some.injEq] at h
    rw [← h]; exact hp
  all_goals simp [MapRenderer.AddLayer.doVisit, hk] at h

/-- A load fails at a layer that is already a key. -/
theorem recurse_AddLayer_fails (l : Node) (hl : l.kind = NodeKind.Layer) (cs : List Node)
    (hmem : l ∈ cs) (v : NodeVisitor RendererMap) (hc : v.cancelled = false)
    (hkey : l.id ∈ MapUtils.keys v.state) :
    Node.recurse (NodeVisitor.visit MapRenderer.AddLayer.doVisit) cs v = none := by
  induction cs generalizing v with
  | nil => simp at hmem
  | cons c cs ih =>
    simp only [Node.recurse, hc, Bool.false_eq_true, if_false]
    cases h1 : Node.acceptAndRecurse (NodeVisitor.visit MapRenderer.AddLayer.doVisit) c v with
    | none => rfl
    | some v1 =>
      simp only
      have hp1 := acceptAndRecurse_inv
        (P := fun v => v.cancelled = false ∧ l.id ∈ MapUtils.keys v.state)
        (fun v hv => hv) (AddLayer_visit_keeps l.id) c v v1 ⟨hc, hkey⟩ h1
      rcases List.mem_cons.1 hmem with e | hm
      · subst e
        rw [acceptAndRecurse_AddLayer_layer l hl, addLayerStep_eq, if_pos hkey] at h1
        simp at h1
      · exact ih hm v1 hp1.1 hp1.2

/-- A successful load has inserted every layer child as a key. -/
theorem recurse_AddLayer_inserts (l : Node) (hl : l.kind = NodeKind.Layer) (cs : List Node)
    (hmem : l ∈ cs) (v v' : NodeVisitor RendererMap) (hc : v.cancelled = false)
    (h : Node.recurse (NodeVisitor.visit MapRenderer.AddLayer.doVisit) cs v = some v') :
    l.id ∈ MapUtils.keys v'.state := by
  induction cs generalizing v with
  | nil => simp at hmem
  | cons c cs ih =>
    simp only [Node.recurse, hc, Bool.false_eq_true, if_false] at h
    cases h1 : Node.acceptAndRecurse (NodeVisitor.visit MapRenderer.AddLayer.doVisit) c v with
    | none => simp [h1] at h
    | some v1 =>
      simp only [h1] at h
      have hc1 : v1.cancelled = false :=
        acceptAndRecurse_inv (P := fun v => v.cancelled = false)
          (fun v hv => hv) (fun n v v' hv hvis => by
            have := hvis
            simp only [NodeVisitor.visit] at this
            cases hk : n.kind
            case Layer =>
              rw [AddLayer_doVisit_layer n hk] at this
              cases hs : addLayerStep n v.state with
              | none => simp [hs] at this
              | some m =>
                simp only [hs, Option.map_some', Option.some.injEq] at this
                rw [← this]; exact hv
            case World =>
              simp only [MapRenderer.AddLayer.doVisit, hk, Option.some.injEq] at this
              rw [← this]; exact hv
            all_goals simp [MapRenderer.AddLayer.doVisit, hk] at this) c v v1 hc h1
      rcases List.mem_cons.1 hmem with e | hm
      · subst e
        have hkey : l.id ∈ MapUtils.keys v1.state := by
          rw [acceptAndRecurse_AddLayer_layer l hl, addLayerStep_eq] at h1
          by_cases hin : l.id ∈ MapUtils.keys v.state
          · simp [hin] at h1
          · simp only [hin, if_false, Option.map_some', Option.some.injEq] at h1
            rw [← h1]; simp [MapUtils.keys_append, MapUtils.keys]
        exact (recurse_inv (P := fun v => v.cancelled = false ∧ l.id ∈ MapUtils.keys v.state)
          (fun v hv => hv) (AddLayer_visit_keeps l.id) cs v1 v' ⟨hc1, hkey⟩ h).2
      · exact ih hm v1 hc1 h

theorem documentWasNewedOrLoaded_fails (prefs : Preferences) (w : Node) (r : MapRenderer)
    (hw : w.kind = NodeKind.World) (l : Node) (hmem : l ∈ w.children)
    (hl : l.kind = NodeKind.Layer) (hkey : MapUtils.find r.layerRenderers l.id ≠ none) :
    MapRenderer.documentWasNewedOrLoaded prefs w r = none := by
  obtain ⟨i, k, s, d, lay, cs⟩ := w
  simp only [Node.kind] at hw
  subst hw
  simp only [Node.children] at hmem
  have hkey' : l.id ∈ MapUtils.keys r.layerRenderers := by
    by_contra hx
    exact hkey ((MapUtils.find_eq_none_iff _ _).2 hx)
  simp only [MapRenderer.documentWasNewedOrLoaded, Node.acceptAndRecurse, NodeVisitor.visit,
    MapRenderer.AddLayer.doVisit, Node.kind, NodeVisitor.new, Bool.false_eq_true, if_false]
  rw [recurse_AddLayer_fails l hl cs hmem _ rfl hkey']

theorem documentWasNewedOrLoaded_keys (prefs : Preferences) (w : Node) (r r1 : MapRenderer)
    (hw : w.kind = NodeKind.World) (l : Node) (hmem : l ∈ w.children)
    (hl : l.kind = NodeKind.Layer)
    (h : MapRenderer.documentWasNewedOrLoaded prefs w r = some r1) :
    MapUtils.find r1.layerRenderers l.id ≠ none := by
  obtain ⟨i, k, s, d, lay, cs⟩ := w
  simp only [Node.kind] at hw
  subst hw
  simp only [Node.children] at hmem
  simp only [MapRenderer.documentWasNewedOrLoaded, Node.acceptAndRecurse, NodeVisitor.visit,
    MapRenderer.AddLayer.doVisit, Node.kind, NodeVisitor.new, Bool.false_eq_true, if_false] at h
  split at h
  · simp at h
  · rename_i v1 h1
    simp only [Option.some.injEq] at h
    have hk := recurse_AddLayer_inserts l hl cs hmem _ v1 rfl h1
    rw [← h]
    intro hx
    rw [MapUtils.find_eq_none_iff] at hx
    apply hx
    simp only [MapRenderer.setupLayerRenderers]
    rw [keys_map_snd]
    exact hk

theorem Node.mem_subtrees_of_mem {n : Node} {cs : List Node} (h : n ∈ cs) :
    n ∈ Node.subtrees cs := by
  induction cs with
  | nil => simp at h
  | cons c cs ih =>
    simp only [Node.subtrees, List.mem_append]
    rcases List.mem_cons.1 h with e | h
    · subst e; left; rw [Node.subtree_eq]; exact List.mem_cons_self _ _
    · right; exact ih h

theorem objectsAt_loaded_layer (prefs : Preferences) (m : RendererMap) (cs : List Node) (c : Node)
    (hc : c ∈ cs) (hnd : (cs.map Node.id).Nodup) (hfresh : MapUtils.find m c.id = none) :
    MapUtils.objectsAt
        ((m ++ cs.map fun c => (c.id, loadedLayerRenderer c)).map fun p =>
          (p.1, MapRenderer.setupLayerRenderer prefs p.2)) c.id =
      (loadedLayerRenderer c).objects := by
  unfold MapUtils.objectsAt
  rw [find_map_snd, MapUtils.find_append, hfresh, find_layer_entries cs c hc hnd]
  rfl

theorem objectsAt_loaded_other (prefs : Preferences) (m : RendererMap) (cs : List Node) (l : Nat)
    (hl : l ∉ cs.map Node.id) :
    MapUtils.objectsAt
        ((m ++ cs.map fun c => (c.id, loadedLayerRenderer c)).map fun p =>
          (p.1, MapRenderer.setupLayerRenderer prefs p.2)) l =
      MapUtils.objectsAt m l := by
  unfold MapUtils.objectsAt
  have hn : MapUtils.find (cs.map fun c => (c.id, loadedLayerRenderer c)) l = none := by
    rw [MapUtils.find_eq_none_iff, keys_layer_entries]; exact hl
  rw [find_map_snd, MapUtils.find_append, hn]
  cases MapUtils.find m l <;> rfl

theorem mem_docNodes {ns : List Node} {e : DocNode} :
    e ∈ docNodes ns ↔ ∃ n ∈ ns, n.isObject = true ∧ n.entry = e := by
  simp only [docNodes, List.mem_map, List.mem_filter]
  constructor
  · rintro ⟨n, ⟨h1, h2⟩, rfl⟩; exact ⟨n, h1, h2, rfl⟩
  · rintro ⟨n, h1, h2, rfl⟩; exact ⟨n, ⟨h1, h2⟩, rfl⟩

theorem docNodes_ids (ns : List Node) :
    (docNodes ns).map DocNode.id = (ns.filter Node.isObject).map Node.id := by
  simp [docNodes, Node.entry, Function.comp]

theorem mem_docNodes_ids {ns : List Node} {id : Nat} :
    id ∈ (docNodes ns).map DocNode.id ↔ ∃ n ∈ ns, n.isObject = true ∧ n.id = id := by
  rw [docNodes_ids]
  simp only [List.mem_map, List.mem_filter]
  constructor
  · rintro ⟨n, ⟨h1, h2⟩, rfl⟩; exact ⟨n, h1, h2, rfl⟩
  · rintro ⟨n, h1, h2, rfl⟩; exact ⟨n, ⟨h1, h2⟩, rfl⟩

theorem Node.entry_inLayerRule (n : Node) : n.entry.inLayerRule = n.inLayerRule := rfl

theorem Node.entry_inSelectionRule (n : Node) : n.entry.inSelectionRule = n.inSelectionRule := rfl

theorem Node.mem_subtrees {n : Node} {cs : List Node} :
    n ∈ Node.subtrees cs ↔ ∃ c ∈ cs, n ∈ Node.subtree c := by
  induction cs with
  | nil => simp [Node.subtrees]
  | cons c cs ih => simp [Node.subtrees, ih]

theorem eq_of_nodup_ids {d : List DocNode} (hnd : (d.map DocNode.id).Nodup) {e1 e2 : DocNode}
    (h1 : e1 ∈ d) (h2 : e2 ∈ d) (h : e1.id = e2.id) : e1 = e2 :=
  List.inj_on_of_nodup_map hnd h1 h2 h

theorem mem_applyOps_cases {os : List (Nat × Bool)} {S : Finset Nat} {id : Nat}
    (h : id ∈ applyOps os S) : id ∈ S ∨ ∃ o ∈ os, o.1 = id := by
  by_cases hex : ∃ o ∈ os, o.1 = id
  · exact Or.inr hex
  · left
    rwa [mem_applyOps_of_untouched os S id (fun o ho e => hex ⟨o, ho, e⟩)] at h

theorem new_selectionObjects (prefs : Preferences) :
    (MapRenderer.new prefs).selectionObjects = ∅ := rfl

theorem inLayerRule_of_unselected {e : DocNode} (h1 : e.selected = false)
    (h2 : e.descendantSelected = false) : e.inLayerRule = true := by
  simp only [DocNode.inLayerRule, h1, h2]
  cases e.kind <;> rfl

theorem inSelectionRule_of_unselected {e : DocNode} (h1 : e.selected = false)
    (h2 : e.descendantSelected = false) : e.inSelectionRule = false := by
  simp [DocNode.inSelectionRule, h1, h2]

theorem loaded_layerObjects (prefs : Preferences) (world : Node) (r : MapRenderer)
    (hnd : (world.children.map Node.id).Nodup)
    (hfresh : ∀ c ∈ world.children, MapUtils.find r.layerRenderers c.id = none) :
    ∀ c ∈ world.children, ∀ id,
      id ∈ (MapRenderer.setupLayerRenderers prefs
          { r with layerRenderers :=
              r.layerRenderers ++ world.children.map fun c => (c.id, loadedLayerRenderer c) }
        ).layerObjects c.id ↔
        ∃ n ∈ Node.subtrees c.children, n.isObject = true ∧ n.id = id := by
  intro c hc id
  simp only [MapRenderer.layerObjects, MapRenderer.setupLayerRenderers]
  rw [objectsAt_loaded_layer prefs _ _ c hc hnd (hfresh c hc), loadedLayerRenderer_objects]

theorem PartitionInv_loaded (prefs : Preferences) (world : Node) (r : MapRenderer)
    (hw : world.kind = NodeKind.World)
    (hall : ∀ c ∈ world.children, c.kind = NodeKind.Layer)
    (hnd : ((Node.subtree world).map Node.id).Nodup)
    (hlay : ∀ c ∈ world.children, ∀ n ∈ Node.subtrees c.children, n.isObject = true →
      n.layer = some c.id ∧ n.selected = false ∧ n.descendantSelected = false)
    (hrun : MapRenderer.documentWasNewedOrLoaded prefs world (MapRenderer.new prefs) = some r) :
    PartitionInv (docNodes (Node.subtree world)) r := by
  have hsub : (Node.subtree world) = world :: Node.subtrees world.children := Node.subtree_eq world
  have hndc : (world.children.map Node.id).Nodup := by
    have h1 : (world.children.map Node.id).Sublist ((Node.subtree world).map Node.id) := by
      apply List.Sublist.map
      rw [hsub]
      apply List.Sublist.cons
      clear hall hnd hlay hrun hsub hw
      induction world.children with
      | nil => exact List.Sublist.slnil
      | cons c cs ih =>
        simp only [Node.subtrees]
        rw [Node.subtree_eq]
        exact List.Sublist.cons₂ _ ((ih).trans (List.sublist_append_right _ _))
    exact hnd.sublist h1
  have hr' := documentWasNewedOrLoaded_some prefs world (MapRenderer.new prefs) hw hall hndc
    (fun c _ => rfl)
  rw [hrun, Option.some.injEq] at hr'
  have hobj := loaded_layerObjects prefs world (MapRenderer.new prefs) hndc (fun c _ => rfl)
  rw [← hr'] at hobj
  have hsel : r.selectionRenderer = (MapRenderer.new prefs).selectionRenderer := by
    rw [hr']; rfl
  refine ⟨?_, ?_, ?_⟩
  · rw [docNodes_ids]
    exact hnd.sublist (List.Sublist.map _ (List.filter_sublist _))
  · intro e he
    obtain ⟨n, hn, ho, rfl⟩ := mem_docNodes.1 he
    rw [hsub] at hn
    rcases List.mem_cons.1 hn with e0 | hn
    · subst e0
      simp [Node.isObject, hw, NodeKind.isObject] at ho
    · obtain ⟨c, hc, hnc⟩ := Node.mem_subtrees.1 hn
      rw [Node.subtree_eq] at hnc
      rcases List.mem_cons.1 hnc with e0 | hnc
      · subst e0
        simp [Node.isObject, hall n hc, NodeKind.isObject] at ho
      · obtain ⟨h1, h2, h3⟩ := hlay c hc n hnc ho
        refine ⟨c.id, h1, ?_, ?_⟩
        · rw [inLayerRule_of_unselected h2 h3]
          simp only [iff_true]
          exact (hobj c hc n.id).2 ⟨n, hnc, ho, rfl⟩
        · rw [inSelectionRule_of_unselected h2 h3]
          have : r.selectionObjects = ∅ := by
            simp only [MapRenderer.selectionObjects, hsel]; rfl
          simp [Node.entry, this]
  · intro id hid
    have : r.selectionObjects = ∅ := by
      simp only [MapRenderer.selectionObjects, hsel]; rfl
    rw [this] at hid
    simp at hid

theorem mem_objectIdsOf_imp {l : Nat} {ns : List Node} {id : Nat} (h : id ∈ objectIdsOf l ns) :
    id ∈ (docNodes ns).map DocNode.id := by
  obtain ⟨n, hn, ho, _, e⟩ := mem_objectIdsOf.1 h
  exact mem_docNodes_ids.2 ⟨n, hn, ho, e⟩

theorem PartitionInv_nodesAdded {d : List DocNode} {r r' : MapRenderer} {nodes : List Node}
    (hinv : PartitionInv d r)
    (hnew : ∀ n ∈ Node.subtrees nodes, n.isObject = true →
      n.selected = false ∧ n.descendantSelected = false ∧ n.id ∉ d.map DocNode.id)
    (hnd : ((docNodes (Node.subtrees nodes)).map DocNode.id).Nodup)
    (hrun : MapRenderer.nodesWereAdded nodes r = some r') :
    PartitionInv (d ++ docNodes (Node.subtrees nodes)) r' := by
  obtain ⟨i0, i1, i2⟩ := hinv
  obtain ⟨_, a2, a3⟩ := nodesWereAdded_sem hrun
  have hsel : r'.selectionObjects = r.selectionObjects := by
    simp only [MapRenderer.selectionObjects, a2]
  have hbatch := (nodesWereAdded_isSome_iff nodes r).1 (by rw [hrun]; rfl)
  refine ⟨?_, ?_, ?_⟩
  · rw [List.map_append]
    refine List.Nodup.append i0 hnd ?_
    intro id h1 h2
    obtain ⟨n, hn, ho, e⟩ := mem_docNodes_ids.1 h2
    exact (hnew n hn ho).2.2 (e ▸ h1)
  · intro e he
    rcases List.mem_append.1 he with he | he
    · obtain ⟨l, hl, b1, b2⟩ := i1 e he
      refine ⟨l, hl, ?_, by rw [hsel]; exact b2⟩
      rw [a3, Finset.mem_union, List.mem_toFinset, ← b1]
      constructor
      · rintro (h | h)
        · exact h
        · obtain ⟨n, hn, ho, e'⟩ := mem_docNodes_ids.1 (mem_objectIdsOf_imp h)
          exact absurd (List.mem_map.2 ⟨e, he, e'.symm⟩) (hnew n hn ho).2.2
      · exact Or.inl
    · obtain ⟨n, hn, ho, rfl⟩ := mem_docNodes.1 he
      obtain ⟨h1, h2, h3⟩ := hnew n hn ho
      obtain ⟨l, hl, _⟩ := hbatch n hn ho
      refine ⟨l, hl, ?_, ?_⟩
      · rw [inLayerRule_of_unselected h1 h2]
        simp only [iff_true]
        rw [a3, Finset.mem_union, List.mem_toFinset]
        exact Or.inr (mem_objectIdsOf.2 ⟨n, hn, ho, hl, rfl⟩)
      · rw [inSelectionRule_of_unselected h1 h2, hsel]
        simp only [Bool.false_eq_true, iff_false]
        exact fun hx => h3 (i2 _ hx)
  · intro id hid
    rw [hsel] at hid
    rw [List.map_append]
    exact List.mem_append_left _ (i2 id hid)

theorem PartitionInv_nodesRemoved {d : List DocNode} {r r' : MapRenderer} {nodes : List Node}
    (hinv : PartitionInv d r)
    (hold : ∀ n ∈ Node.subtrees nodes, n.isObject = true →
      n.entry ∈ d ∧ n.selected = false ∧ n.descendantSelected = false)
    (hrun : MapRenderer.nodesWillBeRemoved nodes r = some r') :
    PartitionInv
      (d.filter fun e => decide (e.id ∉ (docNodes (Node.subtrees nodes)).map DocNode.id)) r' := by
  obtain ⟨i0, i1, i2⟩ := hinv
  obtain ⟨_, a2, a3⟩ := nodesWillBeRemoved_sem hrun
  have hsel : r'.selectionObjects = r.selectionObjects := by
    simp only [MapRenderer.selectionObjects, a2]
  refine ⟨?_, ?_, ?_⟩
  · exact i0.sublist (List.Sublist.map _ (List.filter_sublist _))
  · intro e he
    obtain ⟨he1, he2⟩ := List.mem_filter.1 he
    simp only [decide_eq_true_eq] at he2
    obtain ⟨l, hl, b1, b2⟩ := i1 e he1
    refine ⟨l, hl, ?_, by rw [hsel]; exact b2⟩
    rw [a3, Finset.mem_sdiff, List.mem_toFinset, ← b1]
    constructor
    · exact fun h => h.1
    · exact fun h => ⟨h, fun hx => he2 (mem_objectIdsOf_imp hx)⟩
  · intro id hid
    rw [hsel] at hid
    obtain ⟨e, he, rfl⟩ := List.mem_map.1 (i2 id hid)
    refine List.mem_map.2 ⟨e, List.mem_filter.2 ⟨he, ?_⟩, rfl⟩
    simp only [decide_eq_true_eq]
    intro hx
    obtain ⟨n, hn, ho, e'⟩ := mem_docNodes_ids.1 hx
    obtain ⟨h1, h2, h3⟩ := hold n hn ho
    have : n.entry = e := eq_of_nodup_ids i0 h1 he e'
    subst this
    obtain ⟨l, _, _, b2⟩ := i1 _ h1
    have := b2.1 hid
    rw [inSelectionRule_of_unselected h2 h3] at this
    exact absurd this (by simp)

theorem UpdateNode_isLift :
    IsLift MapRenderer.UpdateNode.doVisit (stateStep MapRenderer.UpdateNode.doVisit) := by
  intro n v
  simp only [stateStep, MapRenderer.UpdateNode.doVisit, MapRenderer.UpdateNode.handleNode,
    NodeVisitor.new]
  cases n.kind <;> simp only [Option.map_some']
  all_goals
    split <;> rfl

theorem UpdateNode_step {n : Node} {s s' : ObjectRenderer}
    (h : stateStep MapRenderer.UpdateNode.doVisit n s = some s') : s'.objects = s.objects := by
  simp only [stateStep, MapRenderer.UpdateNode.doVisit, MapRenderer.UpdateNode.handleNode,
    NodeVisitor.new] at h
  cases hk : n.kind <;> simp only [hk] at h
  case World => simp at h; rw [← h]
  case Layer => simp at h; rw [← h]
  all_goals
    split at h
    · simp at h; rw [← h]; rfl
    · simp at h

theorem foldOpt_UpdateNode {ns : List Node} {s s' : ObjectRenderer}
    (h : foldOpt (stateStep MapRenderer.UpdateNode.doVisit) ns s = some s') :
    s'.objects = s.objects := by
  induction ns generalizing s with
  | nil =>
    simp only [foldOpt, Option.some.injEq] at h
    rw [← h]
  | cons n ns ih =>
    simp only [foldOpt] at h
    cases h1 : stateStep MapRenderer.UpdateNode.doVisit n s with
    | none => simp [h1] at h
    | some s1 =>
      simp only [h1] at h
      exact (ih h).trans (UpdateNode_step h1)

theorem nodesDidChange_eq (nodes : List Node) (r : MapRenderer) :
    MapRenderer.nodesDidChange nodes r =
      (foldOpt (stateStep MapRenderer.UpdateNode.doVisit) nodes r.selectionRenderer).map
        fun s => { r with selectionRenderer := s } := by
  simp only [MapRenderer.nodesDidChange]
  rw [acceptList_lift UpdateNode_isLift _ _ rfl]
  simp only [NodeVisitor.new]
  cases foldOpt (stateStep MapRenderer.UpdateNode.doVisit) nodes r.selectionRenderer <;> rfl

theorem nodesDidChange_sem {nodes : List Node} {r r' : MapRenderer}
    (h : MapRenderer.nodesDidChange nodes r = some r') :
    r'.layerRenderers = r.layerRenderers ∧ r'.selectionObjects = r.selectionObjects := by
  rw [nodesDidChange_eq] at h
  cases h1 : foldOpt (stateStep MapRenderer.UpdateNode.doVisit) nodes r.selectionRenderer with
  | none => simp [h1] at h
  | some s =>
    simp only [h1, Option.map_some', Option.some.injEq] at h
    subst h
    exact ⟨rfl, foldOpt_UpdateNode h1⟩

theorem PartitionInv_nodesChanged {d : List DocNode} {r r' : MapRenderer} {nodes : List Node}
    (hinv : PartitionInv d r) (hrun : MapRenderer.nodesDidChange nodes r = some r') :
    PartitionInv d r' := by
  obtain ⟨i0, i1, i2⟩ := hinv
  obtain ⟨a1, a2⟩ := nodesDidChange_sem hrun
  have hlay : ∀ l, r'.layerObjects l = r.layerObjects l := by
    intro l; simp only [MapRenderer.layerObjects, a1]
  refine ⟨i0, ?_, ?_⟩
  · intro e he
    obtain ⟨l, hl, b1, b2⟩ := i1 e he
    exact ⟨l, hl, by rw [hlay]; exact b1, by rw [a2]; exact b2⟩
  · intro id hid
    rw [a2] at hid
    exact i2 id hid

theorem DocNode.updated_id (ns : List Node) (e : DocNode) : (e.updated ns).id = e.id := by
  unfold DocNode.updated
  split <;> rfl

theorem DocNode.updated_layer (ns : List Node) (e : DocNode) : (e.updated ns).layer = e.layer := by
  unfold DocNode.updated
  split <;> rfl

theorem DocNode.updated_of_find {ns : List Node} {e : DocNode} {n : Node}
    (h : (ns.find? fun n => n.isObject && n.id == e.id) = some n) :
    e.updated ns =
        { e with selected := n.selected, descendantSelected := n.descendantSelected } ∧
      n ∈ ns ∧ n.isObject = true ∧ n.id = e.id := by
  refine ⟨by simp [DocNode.updated, h], List.mem_of_find?_eq_some h, ?_⟩
  have := List.find?_some h
  simpa using this

theorem DocNode.updated_of_find_none {ns : List Node} {e : DocNode}
    (h : (ns.find? fun n => n.isObject && n.id == e.id) = none) :
    e.updated ns = e ∧ ∀ n ∈ ns, n.isObject = true → n.id ≠ e.id := by
  refine ⟨by simp [DocNode.updated, h], ?_⟩
  intro n hn ho hid
  have := List.find?_eq_none.1 h n hn
  simp [ho, hid] at this

theorem PartitionInv_selectionChanged {d : List DocNode} {r r' : MapRenderer} {sel : Selection}
    (hinv : PartitionInv d r)
    (hdoc : ∀ n ∈ sel.nodes, n.isObject = true →
      ∃ e ∈ d, e.id = n.id ∧ e.kind = n.kind ∧ e.layer = n.layer)
    (hone : ∀ n ∈ sel.nodes, ∀ m ∈ sel.nodes, n.isObject = true → m.isObject = true →
      n.id = m.id → n.selected = m.selected ∧ n.descendantSelected = m.descendantSelected)
    (hrun : MapRenderer.selectionDidChange sel r = some r') :
    PartitionInv (d.map (DocNode.updated sel.nodes)) r' := by
  obtain ⟨i0, i1, i2⟩ := hinv
  obtain ⟨_, a2, a3⟩ := selectionDidChange_sem hrun
  have hids : (d.map (DocNode.updated sel.nodes)).map DocNode.id = d.map DocNode.id := by
    rw [List.map_map]
    apply List.map_congr_left
    intro e _
    exact DocNode.updated_id _ _
  refine ⟨by rw [hids]; exact i0, ?_, ?_⟩
  · intro e' he'
    obtain ⟨e, he, rfl⟩ := List.mem_map.1 he'
    obtain ⟨l, hl, b1, b2⟩ := i1 e he
    refine ⟨l, by rw [DocNode.updated_layer]; exact hl, ?_⟩
    rw [DocNode.updated_id]
    cases hf : sel.nodes.find? fun n => n.isObject && n.id == e.id with
    | some n =>
      obtain ⟨hu, hn, ho, hid⟩ := DocNode.updated_of_find hf
      obtain ⟨e0, he0, c1, c2, c3⟩ := hdoc n hn ho
      have : e0 = e := eq_of_nodup_ids i0 he0 he (c1.trans hid)
      subst this
      have hkind : ∀ m ∈ sel.nodes, m.isObject = true → m.id = n.id →
          m.kind = n.kind ∧ m.selected = n.selected ∧
            m.descendantSelected = n.descendantSelected := by
        intro m hm hmo hmid
        obtain ⟨e1, he1, d1, d2, _⟩ := hdoc m hm hmo
        have : e1 = e0 := eq_of_nodup_ids i0 he1 he (d1.trans (hmid.trans hid))
        subst this
        obtain ⟨f1, f2⟩ := hone m hm n hn hmo ho hmid
        exact ⟨d2.symm.trans c2, f1, f2⟩
      obtain ⟨g1, g2⟩ := selectionDidChange_handled hrun hn ho (c3.symm.trans hl) hkind
      rw [hid] at g1 g2
      rw [hu]
      have r1 : DocNode.inLayerRule
          { id := e0.id, kind := e0.kind, layer := e0.layer, selected := n.selected,
            descendantSelected := n.descendantSelected } = n.inLayerRule := by
        simp only [DocNode.inLayerRule, Node.inLayerRule, c2]
      have r2 : DocNode.inSelectionRule
          { id := e0.id, kind := e0.kind, layer := e0.layer, selected := n.selected,
            descendantSelected := n.descendantSelected } = n.inSelectionRule := rfl
      rw [r1, r2]
      exact ⟨g1, g2⟩
    | none =>
      obtain ⟨hu, hno⟩ := DocNode.updated_of_find_none hf
      rw [hu]
      refine ⟨?_, ?_⟩
      · rw [a3, mem_applyOps_of_untouched _ _ _ ?_]
        · exact b1
        · intro o ho' e0
          obtain ⟨m, hm, hmo, _, rfl⟩ := mem_layerOps.1 ho'
          exact hno m hm hmo e0
      · rw [a2, mem_applyOps_of_untouched _ _ _ ?_]
        · exact b2
        · intro o ho' e0
          obtain ⟨m, hm, hmo, rfl⟩ := mem_selectionOps.1 ho'
          exact hno m hm hmo e0
  · intro id hid
    rw [hids]
    rw [a2] at hid
    rcases mem_applyOps_cases hid with h | ⟨o, ho', e0⟩
    · exact i2 id h
    · obtain ⟨m, hm, hmo, rfl⟩ := mem_selectionOps.1 ho'
      obtain ⟨e, he, c1, _, _⟩ := hdoc m hm hmo
      exact List.mem_map.2 ⟨e, he, c1.trans e0⟩

theorem Reachable.partitionInv {prefs : Preferences} {d : List DocNode} {r : MapRenderer}
    (h : Reachable prefs d r) : PartitionInv d r := by
  induction h with
  | loaded world r hw hall hnd hlay hrun => exact PartitionInv_loaded prefs world r hw hall hnd hlay hrun
  | nodesAdded d r nodes r' _ hnew hnd hrun ih => exact PartitionInv_nodesAdded ih hnew hnd hrun
  | nodesRemoved d r nodes r' _ hold hrun ih => exact PartitionInv_nodesRemoved ih hold hrun
  | nodesChanged d r nodes r' _ hrun ih => exact PartitionInv_nodesChanged ih hrun
  | selectionChanged d r sel r' _ hdoc hone hrun ih =>
    exact PartitionInv_selectionChanged ih hdoc hone hrun

theorem loaded_layers (prefs : Preferences) (world : Node) (r : MapRenderer) :
    (MapRenderer.setupLayerRenderers prefs
        { r with layerRenderers :=
            r.layerRenderers ++ world.children.map fun c => (c.id, loadedLayerRenderer c) }
      ).layers = r.layers ++ world.children.map Node.id := by
  simp only [MapRenderer.layers, MapRenderer.setupLayerRenderers]
  rw [keys_map_snd, MapUtils.keys_append, keys_layer_entries]

theorem Node.nodup_children_of_nodup_subtree (world : Node)
    (hnd : ((Node.subtree world).map Node.id).Nodup) : (world.children.map Node.id).Nodup := by
  have h1 : (world.children.map Node.id).Sublist ((Node.subtree world).map Node.id) := by
    apply List.Sublist.map
    rw [Node.subtree_eq]
    apply List.Sublist.cons
    clear hnd
    induction world.children with
    | nil => exact List.Sublist.slnil
    | cons c cs ih =>
      simp only [Node.subtrees]
      rw [Node.subtree_eq]
      exact List.Sublist.cons₂ _ (ih.trans (List.sublist_append_right _ _))
  exact hnd.sublist h1

/-- In every reachable state the owning layer of every document node has a batch. -/
theorem Reachable.layers_mem {prefs : Preferences} {d : List DocNode} {r : MapRenderer}
    (h : Reachable prefs d r) : ∀ e ∈ d, ∃ l, e.layer = some l ∧ l ∈ r.layers := by
  induction h with
  | loaded world r hw hall hnd hlay hrun =>
    intro e he
    have hndc := Node.nodup_children_of_nodup_subtree world hnd
    have hr' := documentWasNewedOrLoaded_some prefs world (MapRenderer.new prefs) hw hall hndc
      (fun c _ => rfl)
    rw [hrun, Option.some.injEq] at hr'
    have hl := loaded_layers prefs world (MapRenderer.new prefs)
    rw [← hr'] at hl
    obtain ⟨n, hn, ho, rfl⟩ := mem_docNodes.1 he
    rw [Node.subtree_eq] at hn
    rcases List.mem_cons.1 hn with e0 | hn
    · subst e0
      simp [Node.isObject, hw, NodeKind.isObject] at ho
    · obtain ⟨c, hc, hnc⟩ := Node.mem_subtrees.1 hn
      rw [Node.subtree_eq] at hnc
      rcases List.mem_cons.1 hnc with e0 | hnc
      · subst e0
        simp [Node.isObject, hall n hc, NodeKind.isObject] at ho
      · refine ⟨c.id, (hlay c hc n hnc ho).1, ?_⟩
        rw [hl]
        exact List.mem_append_right _ (List.mem_map.2 ⟨c, hc, rfl⟩)
  | nodesAdded d r nodes r' _ hnew hnd hrun ih =>
    intro e he
    obtain ⟨a1, _, _⟩ := nodesWereAdded_sem hrun
    rw [a1]
    rcases List.mem_append.1 he with he | he
    · exact ih e he
    · obtain ⟨n, hn, ho, rfl⟩ := mem_docNodes.1 he
      exact (nodesWereAdded_isSome_iff nodes r).1 (by rw [hrun]; rfl) n hn ho
  | nodesRemoved d r nodes r' _ hold hrun ih =>
    intro e he
    obtain ⟨a1, _, _⟩ := nodesWillBeRemoved_sem hrun
    rw [a1]
    exact ih e (List.mem_filter.1 he).1
  | nodesChanged d r nodes r' _ hrun ih =>
    intro e he
    obtain ⟨a1, _⟩ := nodesDidChange_sem hrun
    simp only [MapRenderer.layers, a1]
    exact ih e he
  | selectionChanged d r sel r' _ hdoc hone hrun ih =>
    intro e' he'
    obtain ⟨a1, _, _⟩ := selectionDidChange_sem hrun
    obtain ⟨e, he, rfl⟩ := List.mem_map.1 he'
    rw [a1, DocNode.updated_layer]
    exact ih e he

/-- In a reachable state, selecting and then deselecting nodes of the document
restores every batch. -/
theorem Reachable.round_trip_of_document_nodes {prefs : Preferences} {d : List DocNode}
    {r : MapRenderer} (h : Reachable prefs d r) (ancestors nodes : List Node)
    (hdoc : ∀ n ∈ ancestors ++ nodes, n.isObject = true → n.entry ∈ d) :
    ∃ r1 r2,
      MapRenderer.selectionDidChange (Selection.ofSelect ancestors nodes) r = some r1 ∧
      MapRenderer.selectionDidChange (Selection.ofDeselect ancestors nodes) r1 = some r2 ∧
      r2.layers = r.layers ∧ r2.selectionObjects = r.selectionObjects ∧
      ∀ l, r2.layerObjects l = r.layerObjects l := by
  apply TrenchBroom.select_deselect_restores
  · intro n hn ho
    exact h.layers_mem _ (hdoc n hn ho)
  · intro n hn ho l hl
    obtain ⟨_, i1, _⟩ := h.partitionInv
    obtain ⟨l', hl', b1, b2⟩ := i1 _ (hdoc n hn ho)
    have : l' = l := by
      have : some l' = some l := hl'.symm.trans hl
      exact Option.some.inj this
    subst this
    exact ⟨b1, b2⟩

theorem UpdateNode_step_eq (n : Node) (s : ObjectRenderer) :
    stateStep MapRenderer.UpdateNode.doVisit n s =
      if n.isObject = true then
        (if (n.selected || n.descendantSelected) = true then some (s.updateObject n.id) else none)
      else some s := by
  obtain ⟨i, k, sel, d, l, cs⟩ := n
  simp only [stateStep, MapRenderer.UpdateNode.doVisit, MapRenderer.UpdateNode.handleNode,
    NodeVisitor.new, Node.isObject, Node.kind, Node.selected, Node.descendantSelected, Node.id]
  cases k <;> simp only [NodeKind.isObject, Option.map_some'] <;>
    first
      | rfl
      | (cases sel <;> cases d <;> rfl)

theorem foldOpt_UpdateNode_eq (ns : List Node) (s : ObjectRenderer) :
    foldOpt (stateStep MapRenderer.UpdateNode.doVisit) ns s =
      if ∀ n ∈ ns, n.isObject = true → (n.selected || n.descendantSelected) = true then
        some { s with calls :=
          s.calls ++ (ns.filter Node.isObject).map fun n => RendererCall.updateObject n.id }
      else none := by
  induction ns generalizing s with
  | nil => simp [foldOpt]
  | cons n ns ih =>
    simp only [foldOpt, List.mem_cons, forall_eq_or_imp]
    rw [UpdateNode_step_eq]
    by_cases ho : n.isObject = true
    · by_cases hs : (n.selected || n.descendantSelected) = true
      · simp only [ho, hs, if_true, forall_true_left, true_and, ih, List.filter_cons,
          ObjectRenderer.updateObject, List.map_cons, List.append_assoc, List.singleton_append]
      · simp [ho, hs]
    · simp only [ho, if_false, false_implies, true_and, ih, List.filter_cons]
      simp [ho]

theorem nodesDidChange_eq_ite (nodes : List Node) (r : MapRenderer) :
    MapRenderer.nodesDidChange nodes r =
      if ∀ n ∈ nodes, n.isObject = true → (n.selected || n.descendantSelected) = true then
        some { r with selectionRenderer :=
          { r.selectionRenderer with calls :=
              r.selectionRenderer.calls ++
                (nodes.filter Node.isObject).map fun n => RendererCall.updateObject n.id } }
      else none := by
  rw [nodesDidChange_eq, foldOpt_UpdateNode_eq]
  split <;> rfl

theorem MapUtils.callsAt_update (m : RendererMap) (key k : Nat) (f : ObjectRenderer → ObjectRenderer) :
    callsAt (update m key f) k =
      if k = key then (match find m key with | some b => (f b).calls | none => [])
      else callsAt m k := by
  unfold callsAt
  rw [find_update]
  by_cases h : k = key
  · subst h; cases find m k <;> simp
  · simp [h]

theorem UpdateSelectedNode_step_calls {n : Node} {r r' : MapRenderer}
    (h : stateStep MapRenderer.UpdateSelectedNode.doVisit n r = some r') :
    r'.selectionRenderer.calls = r.selectionRenderer.calls ++
        (if (n.isObject && (n.selected || n.descendantSelected)) = true
          then [RendererCall.updateObject n.id] else []) ∧
    ∀ l, r'.layerCalls l = r.layerCalls l ++
        (if (n.isObject && (decide (n.layer = some l) && !n.selected)) = true
          then [RendererCall.updateObject n.id] else []) := by
  obtain ⟨i, k, s, d, lay, cs⟩ := n
  simp only [stateStep, MapRenderer.UpdateSelectedNode.doVisit,
    MapRenderer.UpdateSelectedNode.handleNode, NodeVisitor.new, Node.kind,
    Node.layer, Node.selected, Node.descendantSelected, Node.id, Node.isObject] at h ⊢
  cases k
  case World => simp at h; subst h; simp [NodeKind.isObject]
  case Layer => simp at h; subst h; simp [NodeKind.isObject]
  all_goals
    cases lay with
    | none => simp at h
    | some l0 =>
      simp only at h
      cases hf : MapUtils.find r.layerRenderers l0 with
      | none => simp [hf] at h
      | some b =>
        simp only [hf, Option.map_some', Option.some.injEq] at h
        subst h
        refine ⟨?_, fun l => ?_⟩
        · cases s <;> cases d <;> simp [NodeKind.isObject, ObjectRenderer.updateObject]
        · simp only [MapRenderer.layerCalls, NodeKind.isObject, Bool.true_and]
          cases s
          · simp only [Bool.not_false, if_true, MapUtils.callsAt_update, hf, Bool.and_true,
              decide_eq_true_eq, Option.some.injEq]
            by_cases hl : l = l0
            · subst hl
              simp [MapUtils.callsAt, hf, ObjectRenderer.updateObject]
            · simp [hl, Ne.symm hl]
          · simp

theorem foldOpt_UpdateSelectedNode_calls {ns : List Node} {r r' : MapRenderer}
    (h : foldOpt (stateStep MapRenderer.UpdateSelectedNode.doVisit) ns r = some r') :
    r'.selectionRenderer.calls = r.selectionRenderer.calls ++
        (ns.filter fun n => n.isObject && (n.selected || n.descendantSelected)).map
          (fun n => RendererCall.updateObject n.id) ∧
    ∀ l, r'.layerCalls l = r.layerCalls l ++
        (ns.filter fun n => n.isObject && (decide (n.layer = some l) && !n.selected)).map
          (fun n => RendererCall.updateObject n.id) := by
  induction ns generalizing r with
  | nil =>
    simp only [foldOpt, Option.some.injEq] at h
    subst h
    simp
  | cons n ns ih =>
    simp only [foldOpt] at h
    cases h1 : stateStep MapRenderer.UpdateSelectedNode.doVisit n r with
    | none => simp [h1] at h
    | some r1 =>
      simp only [h1] at h
      obtain ⟨a1, a2⟩ := UpdateSelectedNode_step_calls h1
      obtain ⟨b1, b2⟩ := ih h
      refine ⟨?_, fun l => ?_⟩
      · rw [b1, a1, List.filter_cons]
        split <;> simp
      · rw [b2, a2, List.filter_cons]
        split <;> simp

theorem collectBrushes_foldl (faces : List BrushFace) (acc : List Node)
    (hacc : (acc.map Node.id).Nodup) :
    ((faces.foldl
        (fun result face =>
          if result.any (fun b => b.id == face.brush.id) then result else result ++ [face.brush])
        acc).map Node.id).Nodup ∧
    (∀ b, b ∈ faces.foldl
        (fun result face =>
          if result.any (fun b => b.id == face.brush.id) then result else result ++ [face.brush])
        acc → b ∈ acc ∨ ∃ f ∈ faces, f.brush = b) ∧
    (∀ id, id ∈ (faces.foldl
        (fun result face =>
          if result.any (fun b => b.id == face.brush.id) then result else result ++ [face.brush])
        acc).map Node.id ↔ id ∈ acc.map Node.id ∨ ∃ f ∈ faces, f.brush.id = id) := by
  induction faces generalizing acc with
  | nil => simp [hacc]
  | cons f fs ih =>
    simp only [List.foldl_cons]
    by_cases hany : acc.any (fun b => b.id == f.brush.id) = true
    · simp only [hany, if_true]
      obtain ⟨i1, i2, i3⟩ := ih acc hacc
      refine ⟨i1, fun b hb => ?_, fun id => ?_⟩
      · rcases i2 b hb with h | ⟨g, hg, e⟩
        · exact Or.inl h
        · exact Or.inr ⟨g, List.mem_cons_of_mem _ hg, e⟩
      · rw [i3]
        constructor
        · rintro (h | ⟨g, hg, e⟩)
          · exact Or.inl h
          · exact Or.inr ⟨g, List.mem_cons_of_mem _ hg, e⟩
        · rintro (h | ⟨g, hg, e⟩)
          · exact Or.inl h
          · rcases List.mem_cons.1 hg with rfl | hg
            · left
              rw [List.any_eq_true] at hany
              obtain ⟨b, hb, hbe⟩ := hany
              rw [← e]
              exact List.mem_map.2 ⟨b, hb, by simpa using hbe⟩
            · exact Or.inr ⟨g, hg, e⟩
    · simp only [hany, if_false, Bool.false_eq_true]
      have hnot : f.brush.id ∉ acc.map Node.id := by
        intro hm
        obtain ⟨b, hb, hbe⟩ := List.mem_map.1 hm
        exact hany (List.any_eq_true.2 ⟨b, hb, by simpa using hbe⟩)
      have hacc2 : ((acc ++ [f.brush]).map Node.id).Nodup := by
        rw [List.map_append, List.nodup_append]
        refine ⟨hacc, by simp, ?_⟩
        intro a ha hb
        simp only [List.map_cons, List.map_nil, List.mem_singleton] at hb
        subst hb
        exact hnot ha
      obtain ⟨i1, i2, i3⟩ := ih (acc ++ [f.brush]) hacc2
      refine ⟨i1, fun b hb => ?_, fun id => ?_⟩
      · rcases i2 b hb with h | ⟨g, hg, e⟩
        · rcases List.mem_append.1 h with h | h
          · exact Or.inl h
          · exact Or.inr ⟨f, List.mem_cons_self _ _, (List.mem_singleton.1 h).symm⟩
        · exact Or.inr ⟨g, List.mem_cons_of_mem _ hg, e⟩
      · rw [i3]
        simp only [List.map_append, List.map_cons, List.map_nil, List.mem_append,
          List.mem_singleton, List.mem_cons, exists_eq_or_imp, List.not_mem_nil, or_false,
          @eq_comm _ id f.brush.id]
        tauto

theorem collectBrushes_spec (faces : List BrushFace) :
    ((MapRenderer.collectBrushes faces).map Node.id).Nodup ∧
    (∀ b ∈ MapRenderer.collectBrushes faces, ∃ f ∈ faces, f.brush = b) ∧
    (∀ id, id ∈ (MapRenderer.collectBrushes faces).map Node.id ↔ ∃ f ∈ faces, f.brush.id = id) := by
  obtain ⟨i1, i2, i3⟩ := collectBrushes_foldl faces [] (by simp)
  refine ⟨i1, fun b hb => ?_, fun id => ?_⟩
  · rcases i2 b hb with h | h
    · simp at h
    · exact h
  · have := i3 id
    simpa [MapRenderer.collectBrushes] using this

theorem Selection.withoutFaces_nodes (sel : Selection) : sel.withoutFaces.nodes = sel.nodes := rfl

theorem Selection.withoutFaces_faceParents (sel : Selection) : sel.withoutFaces.faceParents = [] := rfl

theorem filter_brushes_eq {ns : List Node} (p : Node → Bool)
    (h : ∀ b ∈ ns, b.kind = NodeKind.Brush) :
    (ns.filter fun n => n.isObject && p n) = ns.filter p := by
  apply List.filter_congr
  intro b hb
  simp [Node.isObject, h b hb, NodeKind.isObject]

theorem foldOpt_inv {f : Node → σ → Option σ} {P : σ → Prop}
    (hf : ∀ n s s', P s → f n s = some s' → P s') :
    ∀ (ns : List Node) (s s' : σ), P s → foldOpt f ns s = some s' → P s' := by
  intro ns
  induction ns with
  | nil =>
    intro s s' hp h
    simp only [foldOpt, Option.some.injEq] at h
    rw [← h]; exact hp
  | cons n ns ih =>
    intro s s' hp h
    simp only [foldOpt] at h
    cases h1 : f n s with
    | none => simp [h1] at h
    | some s1 =>
      simp only [h1] at h
      exact ih s1 s' (hf n s s1 hp h1) h

theorem foldOpt_isSome_of_total {f : Node → σ → Option σ} (hf : ∀ n s, (f n s).isSome = true)
    (ns : List Node) (s : σ) : (foldOpt f ns s).isSome = true := by
  induction ns generalizing s with
  | nil => rfl
  | cons n ns ih =>
    simp only [foldOpt]
    have := hf n s
    cases h1 : f n s with
    | none => simp [h1] at this
    | some s1 => exact ih s1

theorem NodeVisitor.reset_eq (v : NodeVisitor σ) (h : v.recursionStopped = false) :
    { v with recursionStopped := false } = v := by
  cases v
  simp only at h
  subst h
  rfl

mutual
theorem acceptAndRecurse_eq_foldOpt {visit : Node → NodeVisitor σ → Option (NodeVisitor σ)}
    (hd : ∀ n w w', w.cancelled = false → w.recursionStopped = false → visit n w = some w' →
      w'.cancelled = false ∧ w'.recursionStopped = false) :
    ∀ (n : Node) (v : NodeVisitor σ), v.cancelled = false → v.recursionStopped = false →
      Node.acceptAndRecurse visit n v = foldOpt visit (Node.subtree n) v
  | Node.mk i k s d l cs, v, hc, hr => by
    simp only [Node.acceptAndRecurse, Node.subtree, foldOpt]
    cases h1 : visit (Node.mk i k s d l cs) v with
    | none => rfl
    | some v1 =>
      obtain ⟨c1, r1⟩ := hd _ _ _ hc hr h1
      simp only [r1, Bool.false_eq_true, if_false]
      rw [NodeVisitor.reset_eq v1 r1]
      exact recurse_eq_foldOpt hd cs v1 c1 r1
theorem recurse_eq_foldOpt {visit : Node → NodeVisitor σ → Option (NodeVisitor σ)}
    (hd : ∀ n w w', w.cancelled = false → w.recursionStopped = false → visit n w = some w' →
      w'.cancelled = false ∧ w'.recursionStopped = false) :
    ∀ (ns : List Node) (v : NodeVisitor σ), v.cancelled = false → v.recursionStopped = false →
      Node.recurse visit ns v = foldOpt visit (Node.subtrees ns) v
  | [], v, _, _ => by simp [Node.recurse, Node.subtrees, foldOpt]
  | c :: cs, v, hc, hr => by
    simp only [Node.recurse, hc, Bool.false_eq_true, if_false, Node.subtrees, foldOpt_append]
    rw [acceptAndRecurse_eq_foldOpt hd c v hc hr]
    cases h1 : foldOpt visit (Node.subtree c) v with
    | none => rfl
    | some v1 =>
      have hp := foldOpt_inv (P := fun w => w.cancelled = false ∧ w.recursionStopped = false)
        (fun n w w' hw h => hd n w w' hw.1 hw.2 h) _ _ _ ⟨hc, hr⟩ h1
      simp only [Option.some_bind]
      exact recurse_eq_foldOpt hd cs v1 hp.1 hp.2
end

theorem foldOpt_visit_trace {doVisit : Node → NodeVisitor σ → Option (NodeVisitor σ)}
    (hd : ∀ n w w', w.cancelled = false → w.recursionStopped = false → doVisit n w = some w' →
      w'.cancelled = false ∧ w'.recursionStopped = false ∧ w'.visited = w.visited) :
    ∀ (ns : List Node) (v v' : NodeVisitor σ), v.cancelled = false → v.recursionStopped = false →
      foldOpt (NodeVisitor.visit doVisit) ns v = some v' →
      v'.visited = v.visited ++ ns.map Node.id := by
  intro ns
  induction ns with
  | nil =>
    intro v v' _ _ h
    simp only [foldOpt, Option.some.injEq] at h
    simp [← h]
  | cons n ns ih =>
    intro v v' hc hr h
    simp only [foldOpt] at h
    cases h1 : NodeVisitor.visit doVisit n v with
    | none => simp [h1] at h
    | some v1 =>
      simp only [h1] at h
      obtain ⟨a1, a2, a3⟩ := hd n { v with visited := v.visited ++ [n.id] } v1 hc hr h1
      rw [ih v1 v' a1 a2 h, a3]
      simp

mutual
theorem Node.subtree_segment :
    ∀ (t n : Node), n ∈ Node.subtree t →
      ∃ pre post, Node.subtree t = pre ++ Node.subtree n ++ post
  | Node.mk i k s d l cs, n, hn => by
    simp only [Node.subtree, List.mem_cons] at hn
    rcases hn with rfl | hn
    · exact ⟨[], [], by simp⟩
    · obtain ⟨pre, post, e⟩ := Node.subtrees_segment cs n hn
      exact ⟨Node.mk i k s d l cs :: pre, post, by simp [Node.subtree, e]⟩
theorem Node.subtrees_segment :
    ∀ (ts : List Node) (n : Node), n ∈ Node.subtrees ts →
      ∃ pre post, Node.subtrees ts = pre ++ Node.subtree n ++ post
  | [], n, hn => by simp [Node.subtrees] at hn
  | c :: cs, n, hn => by
    simp only [Node.subtrees, List.mem_append] at hn
    rcases hn with hn | hn
    · obtain ⟨pre, post, e⟩ := Node.subtree_segment c n hn
      exact ⟨pre, post ++ Node.subtrees cs, by simp [Node.subtrees, e]⟩
    · obtain ⟨pre, post, e⟩ := Node.subtrees_segment cs n hn
      exact ⟨Node.subtree c ++ pre, post, by simp [Node.subtrees, e]⟩
end

theorem acceptList_cancelled (visit : Node → NodeVisitor σ → Option (NodeVisitor σ))
    (ns : List Node) (v : NodeVisitor σ) (h : v.cancelled = true) :
    Node.acceptList visit ns v = some v := by
  cases ns with
  | nil => rfl
  | cons n ns => simp [Node.acceptList, h]

theorem recurse_cancelled (visit : Node → NodeVisitor σ → Option (NodeVisitor σ))
    (ns : List Node) (v : NodeVisitor σ) (h : v.cancelled = true) :
    Node.recurse visit ns v = some v := by
  cases ns with
  | nil => simp [Node.recurse]
  | cons n ns => simp [Node.recurse, h]

theorem acceptList_cons (visit : Node → NodeVisitor σ → Option (NodeVisitor σ))
    (n : Node) (ns : List Node) (v : NodeVisitor σ) (h : v.cancelled = false) :
    Node.acceptList visit (n :: ns) v = (visit n v).bind (Node.acceptList visit ns) := by
  simp only [Node.acceptList, Node.accept]
  rw [if_neg (by simp [h])]
  cases visit n v <;> rfl

theorem acceptList_append (visit : Node → NodeVisitor σ → Option (NodeVisitor σ))
    (xs ys : List Node) (v : NodeVisitor σ) :
    Node.acceptList visit (xs ++ ys) v =
      (Node.acceptList visit xs v).bind (Node.acceptList visit ys) := by
  induction xs generalizing v with
  | nil => simp [Node.acceptList]
  | cons x xs ih =>
    by_cases hc : v.cancelled = true
    · rw [acceptList_cancelled _ _ _ hc, acceptList_cancelled _ _ _ hc, Option.some_bind,
        acceptList_cancelled _ _ _ hc]
    · simp only [List.cons_append, Node.acceptList, hc, Bool.false_eq_true, if_false]
      cases Node.accept visit x v with
      | none => rfl
      | some v1 => exact ih v1

theorem acceptList_inv {visit : Node → NodeVisitor σ → Option (NodeVisitor σ)}
    {P : NodeVisitor σ → Prop} (hvisit : ∀ n v v', P v → visit n v = some v' → P v') :
    ∀ (ns : List Node) (v v' : NodeVisitor σ), P v → Node.acceptList visit ns v = some v' → P v' := by
  intro ns
  induction ns with
  | nil =>
    intro v v' hp h
    simp only [Node.acceptList, Option.some.injEq] at h
    rw [← h]; exact hp
  | cons n ns ih =>
    intro v v' hp h
    by_cases hc : v.cancelled = true
    · rw [acceptList_cancelled _ _ _ hc, Option.some.injEq] at h
      rw [← h]; exact hp
    · simp only [Node.acceptList, hc, Bool.false_eq_true, if_false, Node.accept] at h
      cases h1 : visit n v with
      | none => simp [h1] at h
      | some v1 =>
        simp only [h1] at h
        exact ih v1 v' (hvisit n v v1 hp h1) h

mutual
theorem acceptAndRecurse_eq_acceptList {visit : Node → NodeVisitor σ → Option (NodeVisitor σ)}
    (hs : ∀ n w w', w.recursionStopped = false → visit n w = some w' →
      w'.recursionStopped = false) :
    ∀ (n : Node) (v : NodeVisitor σ), v.cancelled = false → v.recursionStopped = false →
      Node.acceptAndRecurse visit n v = Node.acceptList visit (Node.subtree n) v
  | Node.mk i k s d l cs, v, hc, hr => by
    simp only [Node.acceptAndRecurse, Node.subtree, Node.acceptList, hc, Bool.false_eq_true,
      if_false, Node.accept]
    cases h1 : visit (Node.mk i k s d l cs) v with
    | none => rfl
    | some v1 =>
      have r1 := hs _ _ _ hr h1
      simp only [r1, Bool.false_eq_true, if_false]
      rw [NodeVisitor.reset_eq v1 r1]
      exact recurse_eq_acceptList hs cs v1 r1
theorem recurse_eq_acceptList {visit : Node → NodeVisitor σ → Option (NodeVisitor σ)}
    (hs : ∀ n w w', w.recursionStopped = false → visit n w = some w' →
      w'.recursionStopped = false) :
    ∀ (ns : List Node) (v : NodeVisitor σ), v.recursionStopped = false →
      Node.recurse visit ns v = Node.acceptList visit (Node.subtrees ns) v
  | [], v, _ => by simp [Node.recurse, Node.subtrees, Node.acceptList]
  | c :: cs, v, hr => by
    by_cases hc : v.cancelled = true
    · rw [recurse_cancelled _ _ _ hc, acceptList_cancelled _ _ _ hc]
    · have hc' : v.cancelled = false := by simpa using hc
      simp only [Node.recurse, hc', Bool.false_eq_true, if_false, Node.subtrees,
        acceptList_append]
      rw [acceptAndRecurse_eq_acceptList hs c v hc' hr]
      cases h1 : Node.acceptList visit (Node.subtree c) v with
      | none => rfl
      | some v1 =>
        have hp := acceptList_inv (P := fun w => w.recursionStopped = false) hs _ _ _ hr h1
        simp only [Option.some_bind]
        exact recurse_eq_acceptList hs cs v1 hp
end

mutual
theorem acceptAndRecurse_failIfCancelled (visit : Node → NodeVisitor σ → Option (NodeVisitor σ)) :
    ∀ (n : Node) (v : NodeVisitor σ), v.cancelled = false →
      Node.acceptAndRecurse (failIfCancelled visit) n v = Node.acceptAndRecurse visit n v
  | Node.mk i k s d l cs, v, hc => by
    simp only [Node.acceptAndRecurse, failIfCancelled, hc, Bool.false_eq_true, if_false]
    cases visit (Node.mk i k s d l cs) v with
    | none => rfl
    | some v1 =>
      simp only
      rw [recurse_failIfCancelled visit cs]
theorem recurse_failIfCancelled (visit : Node → NodeVisitor σ → Option (NodeVisitor σ)) :
    ∀ (ns : List Node) (v : NodeVisitor σ),
      Node.recurse (failIfCancelled visit) ns v = Node.recurse visit ns v
  | [], v => by simp [Node.recurse]
  | c :: cs, v => by
    by_cases hc : v.cancelled = true
    · rw [recurse_cancelled _ _ _ hc, recurse_cancelled _ _ _ hc]
    · have hc' : v.cancelled = false := by simpa using hc
      simp only [Node.recurse, hc', Bool.false_eq_true, if_false]
      rw [acceptAndRecurse_failIfCancelled visit c v hc']
      cases Node.acceptAndRecurse visit c v with
      | none => rfl
      | some v1 => exact recurse_failIfCancelled visit cs v1
end

theorem acceptList_failIfCancelled (visit : Node → NodeVisitor σ → Option (NodeVisitor σ))
    (ns : List Node) (v : NodeVisitor σ) :
    Node.acceptList (failIfCancelled visit) ns v = Node.acceptList visit ns v := by
  induction ns generalizing v with
  | nil => rfl
  | cons n ns ih =>
    by_cases hc : v.cancelled = true
    · rw [acceptList_cancelled _ _ _ hc, acceptList_cancelled _ _ _ hc]
    · have hc' : v.cancelled = false := by simpa using hc
      simp only [Node.acceptList, hc', Bool.false_eq_true, if_false, Node.accept,
        failIfCancelled]
      cases visit n v with
      | none => rfl
      | some v1 => exact ih v1

theorem FindContainerVisitor_doVisit_container (n : Node)
    (v : NodeVisitor (NodeQuery (Option Nat))) (h : n.isContainer = true) :
    FindContainerVisitor.doVisit n v =
      some { cancelled := true, recursionStopped := v.recursionStopped, visited := v.visited,
             state := { hasResult := true, result := some n.id } } := by
  obtain ⟨i, k, s, d, l, cs⟩ := n
  obtain ⟨c, rs, vis, ⟨hasR, res⟩⟩ := v
  cases k <;> cases hasR <;>
    simp_all [FindContainerVisitor.doVisit, Node.isContainer, Node.kind, NodeQuery.setResult,
      NodeQuery.doCombineResults, NodeVisitor.cancel, Node.id]

theorem FindContainerVisitor_doVisit_brush (n : Node)
    (v : NodeVisitor (NodeQuery (Option Nat))) (h : n.isContainer = false) :
    FindContainerVisitor.doVisit n v = some v := by
  obtain ⟨i, k, s, d, l, cs⟩ := n
  cases k <;> simp_all [FindContainerVisitor.doVisit, Node.isContainer, Node.kind]

theorem FindContainerVisitor_visit_recursionStopped (n : Node)
    (w w' : NodeVisitor (NodeQuery (Option Nat))) (hr : w.recursionStopped = false)
    (h : NodeVisitor.visit FindContainerVisitor.doVisit n w = some w') :
    w'.recursionStopped = false := by
  simp only [NodeVisitor.visit] at h
  cases hk : n.isContainer with
  | true =>
    rw [FindContainerVisitor_doVisit_container _ _ hk, Option.some.injEq] at h
    rw [← h]; exact hr
  | false =>
    rw [FindContainerVisitor_doVisit_brush _ _ hk, Option.some.injEq] at h
    rw [← h]; exact hr

theorem FindContainerVisitor_acceptList (ns : List Node)
    (v : NodeVisitor (NodeQuery (Option Nat))) (hc : v.cancelled = false) :
    ∃ v', Node.acceptList (NodeVisitor.visit FindContainerVisitor.doVisit) ns v = some v' ∧
      v'.visited = v.visited ++ (ns.takeWhile fun m => !m.isContainer).map Node.id ++
        ((ns.find? Node.isContainer).map Node.id).toList ∧
      v'.recursionStopped = v.recursionStopped ∧
      match ns.find? Node.isContainer with
      | some m => v'.cancelled = true ∧ v'.state.hasResult = true ∧ v'.state.result = some m.id
      | none => v'.cancelled = false ∧ v'.state = v.state := by
  induction ns generalizing v with
  | nil => exact ⟨v, rfl, by simp, rfl, hc, rfl⟩
  | cons n ns ih =>
    rw [acceptList_cons _ _ _ _ hc]
    simp only [NodeVisitor.visit]
    cases hk : n.isContainer with
    | true =>
      rw [FindContainerVisitor_doVisit_container _ _ hk, Option.some_bind,
        acceptList_cancelled _ _ _ rfl]
      refine ⟨_, rfl, ?_, rfl, ?_⟩
      · simp [List.takeWhile_cons, List.find?_cons, hk]
      · simp [List.find?_cons, hk]
    | false =>
      rw [FindContainerVisitor_doVisit_brush _ _ hk, Option.some_bind]
      obtain ⟨v', h1, h2, h3, h4⟩ := ih { v with visited := v.visited ++ [n.id] } hc
      refine ⟨v', h1, ?_, h3, ?_⟩
      · rw [h2]
        simp [List.takeWhile_cons, List.find?_cons, hk]
      · simp only [List.find?_cons, hk]
        exact h4

theorem Node.isContainer_iff (n : Node) : n.isContainer = true ↔ n.kind ≠ NodeKind.Brush := by
  obtain ⟨i, k, s, d, l, cs⟩ := n
  cases k <;> simp [Node.isContainer, Node.kind]

theorem MatchingNodeVisitor_visit_of_not_match (p : Node → Bool) (s : Node → Bool → Bool)
    (doVisit : Node → NodeVisitor (MatchingNodeVisitor σ) →
      Option (NodeVisitor (MatchingNodeVisitor σ)))
    (n : Node) (v : NodeVisitor (MatchingNodeVisitor σ)) (h : p n = false) :
    MatchingNodeVisitor.visit p s doVisit n v =
      some (if s n false = true then
          ({ v with state :=
              { v.state with evaluated := v.state.evaluated ++ [n.id] } }).stopRecursion
        else { v with state := { v.state with evaluated := v.state.evaluated ++ [n.id] } }) := by
  simp only [MatchingNodeVisitor.visit, h, Bool.false_eq_true, if_false]

theorem MatchingNodeVisitor_visit_of_match (p : Node → Bool) (s : Node → Bool → Bool)
    (doVisit : Node → NodeVisitor (MatchingNodeVisitor σ) →
      Option (NodeVisitor (MatchingNodeVisitor σ)))
    (n : Node) (v : NodeVisitor (MatchingNodeVisitor σ)) (h : p n = true) :
    MatchingNodeVisitor.visit p s doVisit n v =
      (NodeVisitor.visit doVisit n
        { v with state := { v.state with evaluated := v.state.evaluated ++ [n.id] } }).map
        fun w => if s n true = true then w.stopRecursion else w := by
  simp only [MatchingNodeVisitor.visit, h, if_true]
  cases NodeVisitor.visit doVisit n
    { v with state := { v.state with evaluated := v.state.evaluated ++ [n.id] } } <;> rfl

theorem MatchingNodeVisitor_visit_spec {p : Node → Bool} {s : Node → Bool → Bool}
    {doVisit : Node → NodeVisitor (MatchingNodeVisitor σ) →
      Option (NodeVisitor (MatchingNodeVisitor σ))}
    (hd : ∀ n w w', doVisit n w = some w' →
      w'.cancelled = w.cancelled ∧ w'.recursionStopped = w.recursionStopped ∧
      w'.visited = w.visited ∧ w'.state.evaluated = w.state.evaluated)
    {n : Node} {v v' : NodeVisitor (MatchingNodeVisitor σ)}
    (h : MatchingNodeVisitor.visit p s doVisit n v = some v') :
    v'.cancelled = v.cancelled ∧
    v'.recursionStopped = (v.recursionStopped || s n (p n)) ∧
    v'.visited = v.visited ++ (if p n = true then [n.id] else []) ∧
    v'.state.evaluated = v.state.evaluated ++ [n.id] := by
  cases hp : p n with
  | false =>
    rw [MatchingNodeVisitor_visit_of_not_match p s doVisit n v hp, Option.some.injEq] at h
    subst h
    cases hs : s n false <;> simp [NodeVisitor.stopRecursion]
  | true =>
    rw [MatchingNodeVisitor_visit_of_match p s doVisit n v hp] at h
    cases h1 : NodeVisitor.visit doVisit n
        { v with state := { v.state with evaluated := v.state.evaluated ++ [n.id] } } with
    | none => simp [h1] at h
    | some w =>
      simp only [h1, Option.map_some', Option.some.injEq] at h
      obtain ⟨a1, a2, a3, a4⟩ := hd n _ w h1
      subst h
      cases hs : s n true <;> simp [NodeVisitor.stopRecursion, a1, a2, a3, a4]

mutual
theorem acceptAndRecurse_recursionStopped (visit : Node → NodeVisitor σ → Option (NodeVisitor σ)) :
    ∀ (n : Node) (v v' : NodeVisitor σ),
      Node.acceptAndRecurse visit n v = some v' → v'.recursionStopped = false
  | Node.mk i k s d l cs, v, v', h => by
    simp only [Node.acceptAndRecurse] at h
    cases h1 : visit (Node.mk i k s d l cs) v with
    | none => simp [h1] at h
    | some v1 =>
      simp only [h1] at h
      by_cases hs : v1.recursionStopped = true
      · simp only [hs, if_true, Option.some.injEq] at h
        rw [← h]
      · simp only [hs, Bool.false_eq_true, if_false] at h
        exact recurse_recursionStopped visit cs _ v' rfl h
theorem recurse_recursionStopped (visit : Node → NodeVisitor σ → Option (NodeVisitor σ)) :
    ∀ (ns : List Node) (v v' : NodeVisitor σ), v.recursionStopped = false →
      Node.recurse visit ns v = some v' → v'.recursionStopped = false
  | [], v, v', hr, h => by
    simp only [Node.recurse, Option.some.injEq] at h
    rw [← h]; exact hr
  | c :: cs, v, v', hr, h => by
    by_cases hc : v.cancelled = true
    · rw [recurse_cancelled _ _ _ hc, Option.some.injEq] at h
      rw [← h]; exact hr
    · simp only [Node.recurse, hc, Bool.false_eq_true, if_false] at h
      cases h1 : Node.acceptAndRecurse visit c v with
      | none => simp [h1] at h
      | some v1 =>
        simp only [h1] at h
        exact recurse_recursionStopped visit cs v1 v'
          (acceptAndRecurse_recursionStopped visit c v v1 h1) h
end

mutual
theorem acceptAndRecurse_isSome_of_total {visit : Node → NodeVisitor σ → Option (NodeVisitor σ)}
    (ht : ∀ n w, (visit n w).isSome = true) :
    ∀ (n : Node) (v : NodeVisitor σ), (Node.acceptAndRecurse visit n v).isSome = true
  | Node.mk i k s d l cs, v => by
    simp only [Node.acceptAndRecurse]
    have := ht (Node.mk i k s d l cs) v
    cases h1 : visit (Node.mk i k s d l cs) v with
    | none => simp [h1] at this
    | some v1 =>
      simp only
      by_cases hs : v1.recursionStopped = true
      · simp [hs]
      · simp only [hs, Bool.false_eq_true, if_false]
        exact recurse_isSome_of_total ht cs _
theorem recurse_isSome_of_total {visit : Node → NodeVisitor σ → Option (NodeVisitor σ)}
    (ht : ∀ n w, (visit n w).isSome = true) :
    ∀ (ns : List Node) (v : NodeVisitor σ), (Node.recurse visit ns v).isSome = true
  | [], v => by simp [Node.recurse]
  | c :: cs, v => by
    by_cases hc : v.cancelled = true
    · rw [recurse_cancelled _ _ _ hc]; rfl
    · simp only [Node.recurse, hc, Bool.false_eq_true, if_false]
      have := acceptAndRecurse_isSome_of_total ht c v
      cases h1 : Node.acceptAndRecurse visit c v with
      | none => simp [h1] at this
      | some v1 => exact recurse_isSome_of_total ht cs v1
end

mutual
theorem acceptAndRecurse_matching {p : Node → Bool} {s : Node → Bool → Bool}
    {doVisit : Node → NodeVisitor (MatchingNodeVisitor σ) →
      Option (NodeVisitor (MatchingNodeVisitor σ))}
    (hd : ∀ n w w', doVisit n w = some w' →
      w'.cancelled = w.cancelled ∧ w'.recursionStopped = w.recursionStopped ∧
      w'.visited = w.visited ∧ w'.state.evaluated = w.state.evaluated) :
    ∀ (n : Node) (v v' : NodeVisitor (MatchingNodeVisitor σ)),
      v.cancelled = false → v.recursionStopped = false →
      Node.acceptAndRecurse (MatchingNodeVisitor.visit p s doVisit) n v = some v' →
      v'.cancelled = false ∧
      v'.state.evaluated =
        v.state.evaluated ++ (Node.prune (fun m => s m (p m)) n).map Node.id ∧
      v'.visited = v.visited ++
        ((Node.prune (fun m => s m (p m)) n).filter p).map Node.id
  | Node.mk i k sel d l cs, v, v', hc, hr, h => by
    simp only [Node.acceptAndRecurse] at h
    cases h1 : MatchingNodeVisitor.visit p s doVisit (Node.mk i k sel d l cs) v with
    | none => simp [h1] at h
    | some v1 =>
      simp only [h1] at h
      obtain ⟨a1, a2, a3, a4⟩ := MatchingNodeVisitor_visit_spec hd h1
      rw [hr, Bool.false_or] at a2
      rw [hc] at a1
      by_cases hs : s (Node.mk i k sel d l cs) (p (Node.mk i k sel d l cs)) = true
      · rw [hs] at a2
        simp only [a2, if_true, Option.some.injEq] at h
        subst h
        refine ⟨a1, ?_, ?_⟩
        · simp only [a4, Node.prune, hs, if_true, List.map_cons, List.map_nil]
        · simp only [a3, Node.prune, hs, if_true, List.filter_cons, List.filter_nil]
          split <;> rfl
      · have hs' : s (Node.mk i k sel d l cs) (p (Node.mk i k sel d l cs)) = false := by
          simpa using hs
        rw [hs'] at a2
        simp only [a2, Bool.false_eq_true, if_false] at h
        obtain ⟨b1, b2, b3⟩ :=
          recurse_matching hd cs { v1 with recursionStopped := false } v' a1 rfl h
        refine ⟨b1, ?_, ?_⟩
        · rw [b2]
          simp only [a4, Node.prune, hs', Bool.false_eq_true, if_false, List.map_cons,
            List.append_assoc, List.singleton_append]
        · rw [b3]
          simp only [a3, Node.prune, hs', Bool.false_eq_true, if_false, List.filter_cons]
          split <;> simp
theorem recurse_matching {p : Node → Bool} {s : Node → Bool → Bool}
    {doVisit : Node → NodeVisitor (MatchingNodeVisitor σ) →
      Option (NodeVisitor (MatchingNodeVisitor σ))}
    (hd : ∀ n w w', doVisit n w = some w' →
      w'.cancelled = w.cancelled ∧ w'.recursionStopped = w.recursionStopped ∧
      w'.visited = w.visited ∧ w'.state.evaluated = w.state.evaluated) :
    ∀ (ns : List Node) (v v' : NodeVisitor (MatchingNodeVisitor σ)),
      v.cancelled = false → v.recursionStopped = false →
      Node.recurse (MatchingNodeVisitor.visit p s doVisit) ns v = some v' →
      v'.cancelled = false ∧
      v'.state.evaluated =
        v.state.evaluated ++ (Node.prunes (fun m => s m (p m)) ns).map Node.id ∧
      v'.visited = v.visited ++
        ((Node.prunes (fun m => s m (p m)) ns).filter p).map Node.id
  | [], v, v', hc, _, h => by
    simp only [Node.recurse, Option.some.injEq] at h
    subst h
    simp [Node.prunes, hc]
  | c :: cs, v, v', hc, hr, h => by
    simp only [Node.recurse, hc, Bool.false_eq_true, if_false] at h
    cases h1 : Node.acceptAndRecurse (MatchingNodeVisitor.visit p s doVisit) c v with
    | none => simp [h1] at h
    | some v1 =>
      simp only [h1] at h
      obtain ⟨a1, a2, a3⟩ := acceptAndRecurse_matching hd c v v1 hc hr h1
      have a4 := acceptAndRecurse_recursionStopped _ c v v1 h1
      obtain ⟨b1, b2, b3⟩ := recurse_matching hd cs v1 v' a1 a4 h
      refine ⟨b1, ?_, ?_⟩
      · rw [b2, a2]; simp [Node.prunes]
      · rw [b3, a3]; simp [Node.prunes]
end

theorem Node.prune_eq (stop : Node → Bool) (n : Node) :
    Node.prune stop n = n :: (if stop n = true then [] else Node.prunes stop n.children) := by
  cases n; rfl

theorem Node.mem_prunes_of_mem (stop : Node → Bool) {n : Node} {cs : List Node} (h : n ∈ cs) :
    n ∈ Node.prunes stop cs := by
  induction cs with
  | nil => simp at h
  | cons c cs ih =>
    simp only [Node.prunes, List.mem_append]
    rcases List.mem_cons.1 h with e | h
    · subst e; left; rw [Node.prune_eq]; exact List.mem_cons_self _ _
    · right; exact ih h

theorem recurse_cons (visit : Node → NodeVisitor σ → Option (NodeVisitor σ))
    (c : Node) (cs : List Node) (v : NodeVisitor σ) (h : v.cancelled = false) :
    Node.recurse visit (c :: cs) v =
      (Node.acceptAndRecurse visit c v).bind (Node.recurse visit cs) := by
  simp only [Node.recurse]
  rw [if_neg (by simp [h])]
  cases Node.acceptAndRecurse visit c v <;> rfl

theorem MatchingNodeVisitor_visit_isSome {p : Node → Bool} {s : Node → Bool → Bool}
    {doVisit : Node → NodeVisitor (MatchingNodeVisitor σ) →
      Option (NodeVisitor (MatchingNodeVisitor σ))}
    (ht : ∀ n w, (doVisit n w).isSome = true) (n : Node)
    (v : NodeVisitor (MatchingNodeVisitor σ)) :
    (MatchingNodeVisitor.visit p s doVisit n v).isSome = true := by
  cases hp : p n with
  | false => rw [MatchingNodeVisitor_visit_of_not_match p s doVisit n v hp]; rfl
  | true =>
    rw [MatchingNodeVisitor_visit_of_match p s doVisit n v hp]
    simp only [NodeVisitor.visit, Option.isSome_map']
    exact ht _ _

theorem NodeQuery_foldl_setResult {T : Type} (combine : T → T → T) (vs : List T) (x : T) :
    vs.foldl (NodeQuery.setResult combine) { hasResult := true, result := x } =
      { hasResult := true, result := vs.foldl combine x } := by
  induction vs generalizing x with
  | nil => rfl
  | cons w ws ih =>
    simp only [List.foldl_cons]
    rw [show NodeQuery.setResult combine { hasResult := true, result := x } w =
      { hasResult := true, result := combine x w } from rfl]
    exact ih (combine x w)

theorem foldl_doCombineResults {T : Type} (vs : List T) (x : T) :
    (x :: vs).getLast? = some (vs.foldl NodeQuery.doCombineResults x) := by
  induction vs generalizing x with
  | nil => rfl
  | cons w ws ih =>
    rw [List.getLast?_cons_cons, ih w]
    rfl

theorem NodeLambdaVisitor_doVisit_eq {L ε R : Type} (form : NodeLambda L ε R) (lam : L)
    (n : Node) (v : NodeVisitor (NodeLambdaVisitor ε R)) :
    NodeLambdaVisitor.doVisit form lam n v =
      some { v with state :=
        { env := (form.invoke lam n v.state.env).2,
          result := if form.hasResult = true then (form.invoke lam n v.state.env).1
            else v.state.result } } := by
  obtain ⟨i, k, s, d, l, cs⟩ := n
  cases k <;> cases form <;> rfl

theorem ConstNodeLambdaVisitor_doVisit_eq {L ε R : Type} (form : NodeLambda L ε R) (lam : L)
    (n : Node) (v : NodeVisitor (NodeLambdaVisitor ε R)) :
    ConstNodeLambdaVisitor.doVisit form lam n v = NodeLambdaVisitor.doVisit form lam n v := by
  obtain ⟨i, k, s, d, l, cs⟩ := n
  cases k <;> cases form <;> rfl

theorem NodeLambda.invoke_isSome {L ε R : Type} (form : NodeLambda L ε R) (lam : L) (n : Node)
    (e : ε) : (form.invoke lam n e).1.isSome = form.hasResult := by
  cases form <;> rfl

theorem foldOpt_NodeLambdaVisitor {L ε R : Type} (form : NodeLambda L ε R) (lam : L)
    (ns : List Node) (v : NodeVisitor (NodeLambdaVisitor ε R)) :
    foldOpt (NodeVisitor.visit (NodeLambdaVisitor.doVisit form lam)) ns v =
      some { v with
        visited := v.visited ++ ns.map Node.id,
        state :=
          { env := form.run lam ns v.state.env,
            result :=
              match ns.getLast? with
              | none => v.state.result
              | some n =>
                if form.hasResult = true then
                  (form.invoke lam n (form.run lam ns.dropLast v.state.env)).1
                else v.state.result } } := by
  induction ns generalizing v with
  | nil => simp [foldOpt, NodeLambda.run]
  | cons n ns ih =>
    simp only [foldOpt, NodeVisitor.visit, NodeLambdaVisitor_doVisit_eq]
    rw [ih]
    cases ns with
    | nil => simp [NodeLambda.run]
    | cons m ms =>
      simp only [List.getLast?_cons_cons, List.dropLast_cons₂, NodeLambda.run, List.foldl_cons,
        List.map_cons, List.append_assoc, List.singleton_append]
      cases hl : (m :: ms).getLast? with
      | none => simp at hl
      | some last =>
        simp only
        cases hr : form.hasResult <;> simp

theorem applyOps_congr_of_consistent (os1 os2 : List (Nat × Bool)) (S : Finset Nat)
    (hsame : ∀ o, o ∈ os1 ↔ o ∈ os2)
    (hcons : ∀ o ∈ os1, ∀ o' ∈ os1, o.1 = o'.1 → o.2 = o'.2) :
    applyOps os1 S = applyOps os2 S := by
  ext id
  by_cases hex : ∃ o ∈ os1, o.1 = id
  · obtain ⟨o, ho, e⟩ := hex
    rw [mem_applyOps_of_forall_touched os1 S id (o.2 = true) ⟨o, ho, e⟩
        (fun o' ho' e' => by rw [hcons o' ho' o ho (e'.trans e.symm)]),
      mem_applyOps_of_forall_touched os2 S id (o.2 = true) ⟨o, (hsame o).1 ho, e⟩
        (fun o' ho' e' => by rw [hcons o' ((hsame o').2 ho') o ho (e'.trans e.symm)])]
  · have h1 : ∀ o ∈ os1, o.1 ≠ id := fun o ho e => hex ⟨o, ho, e⟩
    have h2 : ∀ o ∈ os2, o.1 ≠ id := fun o ho e => hex ⟨o, (hsame o).2 ho, e⟩
    rw [mem_applyOps_of_untouched os1 S id h1, mem_applyOps_of_untouched os2 S id h2]

theorem mem_applyOps_of_consistent (os : List (Nat × Bool)) (S : Finset Nat) (id : Nat)
    (hcons : ∀ o ∈ os, ∀ o' ∈ os, o.1 = o'.1 → o.2 = o'.2) :
    id ∈ applyOps os S ↔ (id, true) ∈ os ∨ (id ∈ S ∧ ∀ o ∈ os, o.1 ≠ id) := by
  by_cases hex : ∃ o ∈ os, o.1 = id
  · obtain ⟨o, ho, e⟩ := hex
    rw [mem_applyOps_of_forall_touched os S id (o.2 = true) ⟨o, ho, e⟩
      (fun o' ho' e' => by rw [hcons o' ho' o ho (e'.trans e.symm)])]
    constructor
    · intro h
      left
      have : o = (id, true) := Prod.ext e h
      rw [← this]; exact ho
    · rintro (h | ⟨_, h⟩)
      · exact (hcons o ho (id, true) h e).trans rfl
      · exact absurd e (h o ho)
  · have h1 : ∀ o ∈ os, o.1 ≠ id := fun o ho e => hex ⟨o, ho, e⟩
    rw [mem_applyOps_of_untouched os S id h1]
    constructor
    · intro h; exact Or.inr ⟨h, h1⟩
    · rintro (h | ⟨h, _⟩)
      · exact absurd rfl (h1 _ h)
      · exact h

theorem firstPass_congr (ns ms : List Node) (r : MapRenderer)
    (hsame : ∀ n, n ∈ ns ↔ n ∈ ms)
    (hcons : ∀ n ∈ ns, ∀ m ∈ ns, n.id = m.id → n = m)
    (hbatch : ∀ n ∈ ns, n.hasBatchIn r.layers) :
    ∃ r1 r2, foldOpt (stateStep MapRenderer.HandleSelectedNode.doVisit) ns r = some r1 ∧
      foldOpt (stateStep MapRenderer.HandleSelectedNode.doVisit) ms r = some r2 ∧
      r1.layers = r.layers ∧ r2.layers = r.layers ∧
      r1.selectionObjects = r2.selectionObjects ∧
      (∀ l, r1.layerObjects l = r2.layerObjects l) ∧
      (∀ id, id ∈ r1.selectionObjects ↔
        (∃ m ∈ ns, m.isObject = true ∧ m.id = id ∧ m.inSelectionRule = true) ∨
        (id ∈ r.selectionObjects ∧ ¬ ∃ m ∈ ns, m.isObject = true ∧ m.id = id)) ∧
      (∀ l id, id ∈ r1.layerObjects l ↔
        (∃ m ∈ ns, m.isObject = true ∧ m.layer = some l ∧ m.id = id ∧ m.inLayerRule = true) ∨
        (id ∈ r.layerObjects l ∧
          ¬ ∃ m ∈ ns, m.isObject = true ∧ m.layer = some l ∧ m.id = id)) := by
  obtain ⟨r1, hr1⟩ := Option.isSome_iff_exists.1 (foldOpt_HandleSelectedNode_isSome ns r hbatch)
  obtain ⟨r2, hr2⟩ := Option.isSome_iff_exists.1
    (foldOpt_HandleSelectedNode_isSome ms r (fun n hn => hbatch n ((hsame n).2 hn)))
  obtain ⟨a1, a2, a3⟩ := foldOpt_HandleSelectedNode hr1
  obtain ⟨b1, b2, b3⟩ := foldOpt_HandleSelectedNode hr2
  have cs : ∀ o ∈ selectionOps ns, ∀ o' ∈ selectionOps ns, o.1 = o'.1 → o.2 = o'.2 := by
    intro o ho o' ho' e
    obtain ⟨n, hn, _, rfl⟩ := mem_selectionOps.1 ho
    obtain ⟨m, hm, _, rfl⟩ := mem_selectionOps.1 ho'
    rw [hcons n hn m hm e]
  have cl : ∀ l, ∀ o ∈ layerOps l ns, ∀ o' ∈ layerOps l ns, o.1 = o'.1 → o.2 = o'.2 := by
    intro l o ho o' ho' e
    obtain ⟨n, hn, _, _, rfl⟩ := mem_layerOps.1 ho
    obtain ⟨m, hm, _, _, rfl⟩ := mem_layerOps.1 ho'
    rw [hcons n hn m hm e]
  refine ⟨r1, r2, hr1, hr2, a1, b1, ?_, fun l => ?_, fun id => ?_, fun l id => ?_⟩
  · rw [a2, b2]
    apply applyOps_congr_of_consistent _ _ _ _ cs
    intro o
    simp only [mem_selectionOps]
    constructor
    · rintro ⟨n, hn, h⟩; exact ⟨n, (hsame n).1 hn, h⟩
    · rintro ⟨n, hn, h⟩; exact ⟨n, (hsame n).2 hn, h⟩
  · rw [a3, b3]
    apply applyOps_congr_of_consistent _ _ _ _ (cl l)
    intro o
    simp only [mem_layerOps]
    constructor
    · rintro ⟨n, hn, h⟩; exact ⟨n, (hsame n).1 hn, h⟩
    · rintro ⟨n, hn, h⟩; exact ⟨n, (hsame n).2 hn, h⟩
  · rw [a2, mem_applyOps_of_consistent _ _ _ cs]
    constructor
    · rintro (h | ⟨h1, h2⟩)
      · obtain ⟨n, hn, ho, e⟩ := mem_selectionOps.1 h
        have e1 := congrArg Prod.fst e
        have e2 := congrArg Prod.snd e
        exact Or.inl ⟨n, hn, ho, e1.symm, e2.symm⟩
      · refine Or.inr ⟨h1, ?_⟩
        rintro ⟨m, hm, ho, e⟩
        exact h2 _ (mem_selectionOps.2 ⟨m, hm, ho, rfl⟩) e
    · rintro (⟨m, hm, ho, e, hr⟩ | ⟨h1, h2⟩)
      · exact Or.inl (mem_selectionOps.2 ⟨m, hm, ho, by rw [e, hr]⟩)
      · refine Or.inr ⟨h1, fun o ho e => h2 ?_⟩
        obtain ⟨n, hn, hobj, rfl⟩ := mem_selectionOps.1 ho
        exact ⟨n, hn, hobj, e⟩
  · rw [a3, mem_applyOps_of_consistent _ _ _ (cl l)]
    constructor
    · rintro (h | ⟨h1, h2⟩)
      · obtain ⟨n, hn, ho, hl, e⟩ := mem_layerOps.1 h
        have e1 := congrArg Prod.fst e
        have e2 := congrArg Prod.snd e
        exact Or.inl ⟨n, hn, ho, hl, e1.symm, e2.symm⟩
      · refine Or.inr ⟨h1, ?_⟩
        rintro ⟨m, hm, ho, hl, e⟩
        exact h2 _ (mem_layerOps.2 ⟨m, hm, ho, hl, rfl⟩) e
    · rintro (⟨m, hm, ho, hl, e, hr⟩ | ⟨h1, h2⟩)
      · exact Or.inl (mem_layerOps.2 ⟨m, hm, ho, hl, by rw [e, hr]⟩)
      · refine Or.inr ⟨h1, fun o ho e => h2 ?_⟩
        obtain ⟨n, hn, hobj, hl, rfl⟩ := mem_layerOps.1 ho
        exact ⟨n, hn, hobj, hl, e⟩

theorem selectionDidChange_withoutFaces (sel : Selection) (r : MapRenderer) :
    MapRenderer.selectionDidChange sel.withoutFaces r =
      foldOpt (stateStep MapRenderer.HandleSelectedNode.doVisit) sel.nodes r := by
  rw [selectionDidChange_eq, Selection.withoutFaces_nodes, Selection.withoutFaces_faceParents]
  cases foldOpt (stateStep MapRenderer.HandleSelectedNode.doVisit) sel.nodes r <;> rfl

theorem acceptList_HandleSelectedNode (ns : List Node) (r : MapRenderer) :
    (Node.acceptList (NodeVisitor.visit MapRenderer.HandleSelectedNode.doVisit) ns
        (NodeVisitor.new r)).map (fun v => v.state) =
      foldOpt (stateStep MapRenderer.HandleSelectedNode.doVisit) ns r := by
  rw [acceptList_lift HandleSelectedNode_isLift _ _ rfl]
  simp only [NodeVisitor.new]
  cases foldOpt (stateStep MapRenderer.HandleSelectedNode.doVisit) ns r <;> rfl

theorem foldl_addObject_filter (xs : List Node) (r : ObjectRenderer) :
    (xs.foldl (fun acc n => acc.addObject n.id) r).filter = r.filter := by
  induction xs generalizing r with
  | nil => rfl
  | cons x xs ih =>
    rw [List.foldl_cons, ih]
    rfl

theorem addObjects_filter (r : ObjectRenderer) (ns : List Node) :
    (r.addObjects ns).filter = r.filter :=
  foldl_addObject_filter _ r

theorem AddLayer_visit_filter (n : Node) (v v' : NodeVisitor RendererMap)
    (hp : ∀ l b, MapUtils.find v.state l = some b →
      b.filter = BrushFilter.UnselectedBrushRendererFilter)
    (h : NodeVisitor.visit MapRenderer.AddLayer.doVisit n v = some v') :
    ∀ l b, MapUtils.find v'.state l = some b →
      b.filter = BrushFilter.UnselectedBrushRendererFilter := by
  obtain ⟨i, k, s, d, lay, cs⟩ := n
  simp only [NodeVisitor.visit, MapRenderer.AddLayer.doVisit, Node.kind] at h
  cases k
  case World =>
    simp only [Option.some.injEq] at h
    subst h
    exact hp
  case Layer =>
    simp only [MapUtils.insertOrFail, Node.id, Node.children] at h
    cases hf : MapUtils.find v.state i with
    | some b0 => simp [hf] at h
    | none =>
      simp only [hf, Option.some.injEq] at h
      subst h
      intro l b hb
      simp only [NodeVisitor.stopRecursion, MapUtils.find_update, MapUtils.find_append] at hb
      by_cases hl : l = i
      · subst hl
        simp only [if_true, hf, MapUtils.find] at hb
        have hb2 : some ((ObjectRenderer.new
            BrushFilter.UnselectedBrushRendererFilter).addObjects cs) = some b := hb
        rw [Option.some.injEq] at hb2
        rw [← hb2, addObjects_filter]
        rfl
      · simp only [hl, if_false] at hb
        cases hf2 : MapUtils.find v.state l with
        | some b1 =>
          rw [hf2] at hb
          have hb2 : some b1 = some b := hb
          rw [Option.some.injEq] at hb2
          subst hb2
          exact hp l b1 hf2
        | none =>
          rw [hf2] at hb
          have hb2 : MapUtils.find
              [(i, ObjectRenderer.new BrushFilter.UnselectedBrushRendererFilter)] l = some b := hb
          simp [MapUtils.find, Ne.symm hl] at hb2
  all_goals simp at h

theorem documentWasNewedOrLoaded_filter (prefs : Preferences) (world : Node) (r r' : MapRenderer)
    (hp : ∀ l b, MapUtils.find r.layerRenderers l = some b →
      b.filter = BrushFilter.UnselectedBrushRendererFilter)
    (h : MapRenderer.documentWasNewedOrLoaded prefs world r = some r') :
    r'.selectionRenderer = r.selectionRenderer ∧
    ∀ l b, MapUtils.find r'.layerRenderers l = some b →
      b.filter = BrushFilter.UnselectedBrushRendererFilter := by
  simp only [MapRenderer.documentWasNewedOrLoaded] at h
  cases h1 : Node.acceptAndRecurse (NodeVisitor.visit MapRenderer.AddLayer.doVisit) world
      (NodeVisitor.new r.layerRenderers) with
  | none => simp [h1] at h
  | some v =>
    simp only [h1, Option.some.injEq] at h
    subst h
    have hv := acceptAndRecurse_inv
      (P := fun w : NodeVisitor RendererMap => ∀ l b, MapUtils.find w.state l = some b →
        b.filter = BrushFilter.UnselectedBrushRendererFilter)
      (fun _ hw => hw) (fun n w w' hw hvis => AddLayer_visit_filter n w w' hw hvis)
      world _ v hp h1
    refine ⟨rfl, fun l b hb => ?_⟩
    simp only [MapRenderer.setupLayerRenderers] at hb
    rw [find_map_snd] at hb
    cases hf : MapUtils.find v.state l with
    | none => simp [hf] at hb
    | some b0 =>
      simp only [hf, Option.map_some', Option.some.injEq] at hb
      rw [← hb]
      exact hv l b0 hf

end Lemmas

/-! ## The claims -/

/-- C1, as amended. Partition exclusivity under the notification protocol: in every
state reachable from a freshly loaded document, in which nothing is selected, through
`nodesWereAdded` of new, unselected nodes, `nodesWillBeRemoved` of unselected nodes
of the document, `nodesDidChange`, and `selectionDidChange` reporting nodes of the
document with their new flags, every Group, every Entity and every Brush without a
selected face that is in the document is in exactly one of the batch of its owning
layer and the selection batch: never both and never neither. -/
theorem C1_partition_exclusivity (prefs : Preferences) (d : List DocNode) (r : MapRenderer)
    (hreach : Reachable prefs d r) (e : DocNode) (he : e ∈ d)
    (hkind : e.kind = NodeKind.Group ∨ e.kind = NodeKind.Entity ∨
      (e.kind = NodeKind.Brush ∧ e.descendantSelected = false)) :
    ∃ l, e.layer = some l ∧
      ((e.id ∈ r.layerObjects l ∧ e.id ∉ r.selectionObjects) ∨
        (e.id ∉ r.layerObjects l ∧ e.id ∈ r.selectionObjects)) := by
  obtain ⟨_, i1, _⟩ := hreach.partitionInv
  obtain ⟨l, hl, b1, b2⟩ := i1 e he
  refine ⟨l, hl, ?_⟩
  have hrule : e.inLayerRule = !e.inSelectionRule := by
    rcases hkind with h | h | ⟨h, hd⟩
    · simp [DocNode.inLayerRule, DocNode.inSelectionRule, h]
    · simp [DocNode.inLayerRule, DocNode.inSelectionRule, h]
    · simp [DocNode.inLayerRule, DocNode.inSelectionRule, h, hd]
  rw [hrule] at b1
  cases hs : e.inSelectionRule
  · rw [hs] at b1 b2
    exact Or.inl ⟨b1.2 rfl, fun hx => by simpa using b2.1 hx⟩
  · rw [hs] at b1 b2
    exact Or.inr ⟨fun hx => by simpa using b1.1 hx, b2.2 rfl⟩

/-- Witness of C1: the two-layer example document is loaded and its nested brush 22
is selected; group 21, now partially selected, is in the selection batch only. -/
theorem C1_partition_exclusivity_witness :
    ∃ l, (some 2 : Option Nat) = some l ∧
      ((21 ∈ Example.afterSelect22.layerObjects l ∧ 21 ∉ Example.afterSelect22.selectionObjects) ∨
        (21 ∉ Example.afterSelect22.layerObjects l ∧ 21 ∈ Example.afterSelect22.selectionObjects)) :=
  C1_partition_exclusivity Example.prefs
    ((docNodes (Node.subtree Example.world2)).map
      (DocNode.updated Example.selectBrush22.nodes))
    Example.afterSelect22
    (Reachable.selectionChanged _ Example.loaded2 Example.selectBrush22 _
      (Reachable.loaded Example.world2 Example.loaded2 rfl (by decide) (by decide) (by decide) rfl)
      (by decide) (by decide) rfl)
    { id := 21, kind := NodeKind.Group, layer := some 2, selected := false,
      descendantSelected := true }
    (by decide) (Or.inl rfl)

/-- C1, counterexample to the claim as stated: the example document is loaded, brush #1
is selected, removed while selected and added again unselected.  Every notification
succeeds, and brush #1, an unselected brush of the document without a selected face,
ends in the batch of its layer and in the selection batch. -/
theorem C1_removed_while_selected_in_both_batches :
    ∃ r0 r1 r2 r3,
      MapRenderer.documentWasNewedOrLoaded Example.prefs Example.world
        (MapRenderer.new Example.prefs) = some r0 ∧
      MapRenderer.selectionDidChange Example.selectBrush1 r0 = some r1 ∧
      MapRenderer.nodesWillBeRemoved [Example.brush1Selected] r1 = some r2 ∧
      MapRenderer.nodesWereAdded [Example.brush1] r2 = some r3 ∧
      Example.brush1.kind = NodeKind.Brush ∧ Example.brush1.selected = false ∧
      Example.brush1.descendantSelected = false ∧ Example.brush1.layer = some 1 ∧
      Example.brush1.id ∈ r3.layerObjects 1 ∧ Example.brush1.id ∈ r3.selectionObjects :=
  ⟨Example.loaded, Example.afterSelect, Example.afterRemoveSelected, Example.afterAddAgain,
    rfl, rfl, rfl, rfl, rfl, rfl, rfl, rfl, by decide, by decide⟩

/-- C2. Brush membership rule: after a successful `selectionDidChange`, a Brush that
was handled (it is in one of the four node lists, and every handled node at its
address is this brush with these flags) is absent from the batch of its owning
layer iff `selected()`, and present in the selection batch iff
`selected() || descendantSelected()`; so an unselected brush with a selected face
is in both batches. -/
theorem C2_brush_membership_rule (sel : Selection) (r r' : MapRenderer) (b : Node) (layer : Nat)
    (hrun : MapRenderer.selectionDidChange sel r = some r')
    (hb : b ∈ sel.nodes) (hk : b.kind = NodeKind.Brush) (hl : b.layer = some layer)
    (hid : ∀ m ∈ sel.nodes, m.id = b.id →
      m.kind = b.kind ∧ m.selected = b.selected ∧ m.descendantSelected = b.descendantSelected) :
    (b.id ∉ r'.layerObjects layer ↔ b.selected = true) ∧
    (b.id ∈ r'.selectionObjects ↔ (b.selected || b.descendantSelected) = true) ∧
    (b.selected = false → b.descendantSelected = true →
      b.id ∈ r'.layerObjects layer ∧ b.id ∈ r'.selectionObjects) := by
  have ho : b.isObject = true := by simp [Node.isObject, hk, NodeKind.isObject]
  obtain ⟨h1, h2⟩ := selectionDidChange_handled hrun hb ho hl
    (fun m hm _ e => hid m hm e)
  simp only [Node.inLayerRule, hk, Node.inSelectionRule] at h1 h2
  refine ⟨?_, h2, ?_⟩
  · rw [h1]; cases b.selected <;> simp
  · intro hs hd
    exact ⟨h1.2 (by simp [hs]), h2.2 (by simp [hd])⟩

/-- Witness of C2: selecting a face of brush #1 of the loaded example document. -/
theorem C2_brush_membership_rule_witness :
    (11 ∉ Example.afterFaceSelect.layerObjects 1 ↔ false = true) ∧
    (11 ∈ Example.afterFaceSelect.selectionObjects ↔ (false || true) = true) ∧
    (false = false → true = true →
      11 ∈ Example.afterFaceSelect.layerObjects 1 ∧ 11 ∈ Example.afterFaceSelect.selectionObjects) :=
  C2_brush_membership_rule Example.selectFaceOfBrush1 Example.loaded Example.afterFaceSelect
    Example.brush1FaceSelected 1 rfl (by simp [Selection.nodes, Example.selectFaceOfBrush1]) rfl rfl
    (by simp [Selection.nodes, Example.selectFaceOfBrush1])

/-- C3. Group/Entity membership rule: after a successful `selectionDidChange`, a
handled Group or Entity is in the selection batch and not in the batch of its
owning layer if `selected() || descendantSelected()`, and otherwise in the batch of
its owning layer and not in the selection batch; the World and Layer handlers of
`HandleSelectedNode` return the visitor unchanged, so such nodes change no batch. -/
theorem C3_group_entity_membership_rule (sel : Selection) (r r' : MapRenderer) (n : Node)
    (layer : Nat)
    (hrun : MapRenderer.selectionDidChange sel r = some r')
    (hn : n ∈ sel.nodes) (hk : n.kind = NodeKind.Group ∨ n.kind = NodeKind.Entity)
    (hl : n.layer = some layer)
    (hid : ∀ m ∈ sel.nodes, m.id = n.id →
      m.kind = n.kind ∧ m.selected = n.selected ∧ m.descendantSelected = n.descendantSelected) :
    (if n.selected || n.descendantSelected then
        n.id ∈ r'.selectionObjects ∧ n.id ∉ r'.layerObjects layer
      else n.id ∈ r'.layerObjects layer ∧ n.id ∉ r'.selectionObjects) ∧
    (∀ (w : Node) (v : NodeVisitor MapRenderer),
      w.kind = NodeKind.World ∨ w.kind = NodeKind.Layer →
        MapRenderer.HandleSelectedNode.doVisit w v = some v) := by
  have ho : n.isObject = true := by
    rcases hk with hk | hk <;> simp [Node.isObject, hk, NodeKind.isObject]
  obtain ⟨h1, h2⟩ := selectionDidChange_handled hrun hn ho hl
    (fun m hm _ e => hid m hm e)
  have hrule : n.inLayerRule = !(n.selected || n.descendantSelected) := by
    rcases hk with hk | hk <;> simp [Node.inLayerRule, hk]
  rw [hrule] at h1
  simp only [Node.inSelectionRule] at h2
  refine ⟨?_, ?_⟩
  · cases hs : (n.selected || n.descendantSelected)
    · rw [hs] at h1 h2
      simp only [Bool.false_eq_true, if_false]
      exact ⟨h1.2 rfl, fun hc => by simpa using h2.1 hc⟩
    · rw [hs] at h1 h2
      simp only [if_true]
      exact ⟨h2.2 rfl, fun hc => by simpa using h1.1 hc⟩
  · intro w v hw
    rcases hw with hw | hw <;> simp [MapRenderer.HandleSelectedNode.doVisit, hw]

/-- Witness of C3: selecting brush 22 of the two-layer example document makes its
group 21 partially selected. -/
theorem C3_group_entity_membership_rule_witness :
    (if (false || true) then
        21 ∈ Example.afterSelect22.selectionObjects ∧ 21 ∉ Example.afterSelect22.layerObjects 2
      else 21 ∈ Example.afterSelect22.layerObjects 2 ∧ 21 ∉ Example.afterSelect22.selectionObjects) ∧
    (∀ (w : Node) (v : NodeVisitor MapRenderer),
      w.kind = NodeKind.World ∨ w.kind = NodeKind.Layer →
        MapRenderer.HandleSelectedNode.doVisit w v = some v) :=
  C3_group_entity_membership_rule Example.selectBrush22 Example.loaded2 Example.afterSelect22
    Example.group21Partial 2 rfl
    (by simp [Selection.nodes, Example.selectBrush22]) (Or.inl rfl) rfl
    (by
      intro m hm
      simp only [Selection.nodes, Example.selectBrush22, List.append_nil, List.nil_append,
        List.singleton_append, List.mem_cons, List.mem_singleton, List.not_mem_nil, or_false] at hm
      rcases hm with rfl | rfl
      · intro _; exact ⟨rfl, rfl, rfl⟩
      · intro e; exact absurd e (by decide))

/-- C4. Select/deselect round trip.  Scenario: after loading the example document
(one layer, two unselected brushes 11 and 12) the layer batch holds both brushes and
the selection batch is empty; after selecting brush 11 the layer batch holds only 12
and the selection batch only 11; after deselecting it again every batch has the
membership it had right after the load.  In general: in a state where the nodes
concerned are placed by the membership rules (the partition invariant) and their
layers have batches, selecting a list of nodes and then deselecting them, each
followed by `selectionDidChange`, succeeds and restores the membership of every
layer batch and of the selection batch; every state reachable from a freshly loaded
document is such a state for the nodes of the document. -/
theorem C4_select_deselect_round_trip :
    (MapRenderer.documentWasNewedOrLoaded Example.prefs Example.world Example.fresh =
        some Example.loaded ∧
      Example.loaded.layers = [1] ∧
      Example.loaded.layerObjects 1 = {11, 12} ∧
      Example.loaded.selectionObjects = ∅ ∧
      MapRenderer.selectionDidChange Example.selectBrush1 Example.loaded =
        some Example.afterSelect ∧
      Example.afterSelect.layerObjects 1 = {12} ∧
      Example.afterSelect.selectionObjects = {11} ∧
      MapRenderer.selectionDidChange Example.deselectBrush1 Example.afterSelect =
        some Example.afterDeselect ∧
      Example.afterDeselect.layers = Example.loaded.layers ∧
      Example.afterDeselect.selectionObjects = Example.loaded.selectionObjects ∧
      ∀ l, Example.afterDeselect.layerObjects l = Example.loaded.layerObjects l) ∧
    (∀ (r : MapRenderer) (ancestors nodes : List Node),
      (∀ n ∈ ancestors ++ nodes, n.hasBatchIn r.layers) →
      (∀ n ∈ ancestors ++ nodes, r.PlacedByRule n) →
      ∃ r1 r2,
        MapRenderer.selectionDidChange (Selection.ofSelect ancestors nodes) r = some r1 ∧
        MapRenderer.selectionDidChange (Selection.ofDeselect ancestors nodes) r1 = some r2 ∧
        r2.layers = r.layers ∧ r2.selectionObjects = r.selectionObjects ∧
        ∀ l, r2.layerObjects l = r.layerObjects l) ∧
    (∀ (prefs : Preferences) (d : List DocNode) (r : MapRenderer) (ancestors nodes : List Node),
      Reachable prefs d r →
      (∀ n ∈ ancestors ++ nodes, n.isObject = true → n.entry ∈ d) →
      ∃ r1 r2,
        MapRenderer.selectionDidChange (Selection.ofSelect ancestors nodes) r = some r1 ∧
        MapRenderer.selectionDidChange (Selection.ofDeselect ancestors nodes) r1 = some r2 ∧
        r2.layers = r.layers ∧ r2.selectionObjects = r.selectionObjects ∧
        ∀ l, r2.layerObjects l = r.layerObjects l) := by
  refine ⟨⟨rfl, by decide, by decide, by decide, rfl, by decide, by decide, rfl, by decide,
    by decide, ?_⟩, select_deselect_restores,
    fun prefs d r ancestors nodes h hdoc => h.round_trip_of_document_nodes ancestors nodes hdoc⟩
  obtain ⟨b1, _, b3⟩ := selectionDidChange_sem
    (show MapRenderer.selectionDidChange Example.deselectBrush1 Example.afterSelect =
      some Example.afterDeselect from rfl)
  obtain ⟨a1, _, a3⟩ := selectionDidChange_sem
    (show MapRenderer.selectionDidChange Example.selectBrush1 Example.loaded =
      some Example.afterSelect from rfl)
  intro l
  by_cases hl : l = 1
  · subst hl; decide
  · rw [b3, a3]
    have e1 : layerOps l Example.selectBrush1.nodes = [] := by
      simp [layerOps, Selection.nodes, Example.selectBrush1, Example.brush1Selected, Node.layer,
        Ne.symm hl]
    have e2 : layerOps l Example.deselectBrush1.nodes = [] := by
      simp [layerOps, Selection.nodes, Example.deselectBrush1, Example.brush1, Node.layer,
        Ne.symm hl]
    rw [e1, e2]; rfl

/-- Witness of C4: selecting and deselecting the nested brush 22 of the two-layer
example document, whose group 21 becomes partially selected in between. -/
theorem C4_select_deselect_round_trip_witness :
    ∃ r1 r2,
      MapRenderer.selectionDidChange
        (Selection.ofSelect [Example.group21] [Example.brush22]) Example.loaded2 = some r1 ∧
      MapRenderer.selectionDidChange
        (Selection.ofDeselect [Example.group21] [Example.brush22]) r1 = some r2 ∧
      r2.layers = Example.loaded2.layers ∧
      r2.selectionObjects = Example.loaded2.selectionObjects ∧
      ∀ l, r2.layerObjects l = Example.loaded2.layerObjects l :=
  C4_select_deselect_round_trip.2.1 Example.loaded2 [Example.group21] [Example.brush22]
    (by
      intro n hn
      simp only [List.singleton_append, List.mem_cons, List.mem_singleton, List.not_mem_nil,
        or_false] at hn
      rcases hn with rfl | rfl
      · intro _; exact ⟨2, rfl, by decide⟩
      · intro _; exact ⟨2, rfl, by decide⟩)
    (by
      intro n hn
      simp only [List.singleton_append, List.mem_cons, List.mem_singleton, List.not_mem_nil,
        or_false] at hn
      rcases hn with rfl | rfl
      · intro _ l hl
        have : l = 2 := by
          simp only [Example.group21, Node.layer, Option.some.injEq] at hl
          exact hl.symm
        subst this
        exact ⟨by decide, by decide⟩
      · intro _ l hl
        have : l = 2 := by
          simp only [Example.brush22, Node.layer, Option.some.injEq] at hl
          exact hl.symm
        subst this
        exact ⟨by decide, by decide⟩)

/-- C5. Idempotence on the empty delta: `selectionDidChange` with four empty node
lists and two empty face lists succeeds and returns the map renderer unchanged,
so the membership of every layer batch and of the selection batch is unchanged. -/
theorem C5_empty_delta_unchanged (r : MapRenderer) :
    MapRenderer.selectionDidChange
      { partiallySelectedNodes := [], partiallyDeselectedNodes := [], selectedNodes := [],
        deselectedNodes := [], selectedBrushFaces := [], deselectedBrushFaces := [] } r =
      some r :=
  rfl

/-- C6. `documentWasNewedOrLoaded` on a world whose children are layers (pairwise
different objects) none of which has a batch yet: the load succeeds; the layers with
a batch afterwards are the old ones followed by exactly the Layer children of the
world, one batch per layer, keyed by that layer; the batch of each of these layers
holds exactly the Group, Entity and Brush nodes of the layer's tree, in particular
all current children of the layer; the other batches and the selection batch keep
their membership; and the traversal invokes the handlers of the world and of its
layers only, so none of the Group, Entity and Brush handlers of `AddLayer` (each of
which fails) is reached. -/
theorem C6_load_creates_layer_batches (prefs : Preferences) (world : Node) (r : MapRenderer)
    (hw : world.kind = NodeKind.World)
    (hall : ∀ c ∈ world.children, c.kind = NodeKind.Layer)
    (hnd : (world.children.map Node.id).Nodup)
    (hfresh : ∀ c ∈ world.children, MapUtils.find r.layerRenderers c.id = none) :
    ∃ r', MapRenderer.documentWasNewedOrLoaded prefs world r = some r' ∧
      r'.layers = r.layers ++ world.children.map Node.id ∧
      (∀ c ∈ world.children, ∀ id, id ∈ r'.layerObjects c.id ↔
        ∃ n ∈ Node.subtrees c.children, n.isObject = true ∧ n.id = id) ∧
      (∀ c ∈ world.children, ∀ n ∈ c.children, n.isObject = true →
        n.id ∈ r'.layerObjects c.id) ∧
      (∀ l, l ∉ world.children.map Node.id → r'.layerObjects l = r.layerObjects l) ∧
      r'.selectionRenderer = r.selectionRenderer ∧
      (∃ v, Node.acceptAndRecurse (NodeVisitor.visit MapRenderer.AddLayer.doVisit) world
            (NodeVisitor.new r.layerRenderers) = some v ∧
          v.visited = world.id :: world.children.map Node.id) ∧
      (∀ (n : Node) (v : NodeVisitor RendererMap), n.isObject = true →
        MapRenderer.AddLayer.doVisit n v = none) := by
  have hobj : ∀ c ∈ world.children, ∀ id,
      id ∈ MapUtils.objectsAt
          ((r.layerRenderers ++ world.children.map fun c => (c.id, loadedLayerRenderer c)).map
            fun p => (p.1, MapRenderer.setupLayerRenderer prefs p.2)) c.id ↔
        ∃ n ∈ Node.subtrees c.children, n.isObject = true ∧ n.id = id := by
    intro c hc id
    rw [objectsAt_loaded_layer prefs _ _ c hc hnd (hfresh c hc), loadedLayerRenderer_objects]
  refine ⟨_, documentWasNewedOrLoaded_some prefs world r hw hall hnd hfresh, ?_, hobj, ?_, ?_, rfl,
    ?_, ?_⟩
  · simp only [MapRenderer.layers, MapRenderer.setupLayerRenderers]
    rw [keys_map_snd, MapUtils.keys_append, keys_layer_entries]
  · intro c hc n hn ho
    exact (hobj c hc n.id).2 ⟨n, Node.mem_subtrees_of_mem hn, ho, rfl⟩
  · intro l hl
    exact objectsAt_loaded_other prefs _ _ l hl
  · rw [acceptAndRecurse_AddLayer_world world hw hall, foldOpt_addLayerStep,
      if_pos ⟨hnd, fun c hc => (MapUtils.find_eq_none_iff _ _).1 (hfresh c hc)⟩]
    exact ⟨_, rfl, rfl⟩
  · intro n v ho
    simp only [Node.isObject] at ho
    cases hk : n.kind <;> simp [hk, NodeKind.isObject] at ho <;>
      simp [MapRenderer.AddLayer.doVisit, hk]

/-- Witness of C6: the two-layer example document is loaded into a fresh map
renderer. -/
theorem C6_load_creates_layer_batches_witness :
    ∃ r', MapRenderer.documentWasNewedOrLoaded Example.prefs Example.world2 Example.fresh =
        some r' ∧
      r'.layers = Example.fresh.layers ++ Example.world2.children.map Node.id ∧
      (∀ c ∈ Example.world2.children, ∀ id, id ∈ r'.layerObjects c.id ↔
        ∃ n ∈ Node.subtrees c.children, n.isObject = true ∧ n.id = id) ∧
      (∀ c ∈ Example.world2.children, ∀ n ∈ c.children, n.isObject = true →
        n.id ∈ r'.layerObjects c.id) ∧
      (∀ l, l ∉ Example.world2.children.map Node.id →
        r'.layerObjects l = Example.fresh.layerObjects l) ∧
      r'.selectionRenderer = Example.fresh.selectionRenderer ∧
      (∃ v, Node.acceptAndRecurse (NodeVisitor.visit MapRenderer.AddLayer.doVisit) Example.world2
            (NodeVisitor.new Example.fresh.layerRenderers) = some v ∧
          v.visited = Example.world2.id :: Example.world2.children.map Node.id) ∧
      (∀ (n : Node) (v : NodeVisitor RendererMap), n.isObject = true →
        MapRenderer.AddLayer.doVisit n v = none) :=
  C6_load_creates_layer_batches Example.prefs Example.world2 Example.fresh rfl
    (by
      intro c hc
      simp only [Example.world2, Node.children, List.mem_cons, List.mem_singleton,
        List.not_mem_nil, or_false] at hc
      rcases hc with rfl | rfl <;> rfl)
    (by decide)
    (by
      intro c hc
      simp only [Example.world2, Node.children, List.mem_cons, List.mem_singleton,
        List.not_mem_nil, or_false] at hc
      rcases hc with rfl | rfl <;> rfl)

/-- C7. A fresh load (on a newly constructed map renderer) of a document tree whose
root is the World and whose children are pairwise different Layers succeeds, and the
total number of `addObject` calls received by the layer batches equals the number of
nodes of the tree that are neither the World nor a Layer, nested nodes included. -/
theorem C7_fresh_load_addObject_count (prefs : Preferences) (world : Node)
    (hw : world.kind = NodeKind.World)
    (hall : ∀ c ∈ world.children, c.kind = NodeKind.Layer)
    (hnd : (world.children.map Node.id).Nodup) :
    ∃ r', MapRenderer.documentWasNewedOrLoaded prefs world (MapRenderer.new prefs) = some r' ∧
      (r'.layerRenderers.map fun p => p.2.addObjectCalls).sum =
        ((Node.subtree world).filter Node.isObject).length := by
  refine ⟨_, documentWasNewedOrLoaded_some prefs world (MapRenderer.new prefs) hw hall hnd
    (fun c _ => rfl), ?_⟩
  have hno : world.isObject = false := by simp [Node.isObject, hw, NodeKind.isObject]
  rw [Node.subtree_eq, List.filter_cons, hno]
  simp only [Bool.false_eq_true, if_false]
  rw [count_objects_layers _ hall]
  simp only [MapRenderer.setupLayerRenderers, MapRenderer.new, MapRenderer.setupRenderers,
    List.map_nil, List.nil_append, List.map_map]
  congr 1
  apply List.map_congr_left
  intro c _
  simp only [Function.comp, setupLayerRenderer_calls, loadedLayerRenderer_calls]

/-- Witness of C7: the two-layer example document, with brushes nested in a group
and in an entity. -/
theorem C7_fresh_load_addObject_count_witness :
    ∃ r', MapRenderer.documentWasNewedOrLoaded Example.prefs Example.world2
        (MapRenderer.new Example.prefs) = some r' ∧
      (r'.layerRenderers.map fun p => p.2.addObjectCalls).sum =
        ((Node.subtree Example.world2).filter Node.isObject).length :=
  C7_fresh_load_addObject_count Example.prefs Example.world2 rfl
    (by
      intro c hc
      simp only [Example.world2, Node.children, List.mem_cons, List.mem_singleton,
        List.not_mem_nil, or_false] at hc
      rcases hc with rfl | rfl <;> rfl)
    (by decide)

/-- C8. A load fails (the assertion of `insertOrFail`, modelled as `none`) whenever
some Layer child of the loaded world is already a key of the renderer map; so after
a successful load of a world that has a layer, a second load of the same world
without `documentWasCleared` in between fails; and after `documentWasCleared` the
load of a world whose children are pairwise different layers succeeds. -/
theorem C8_load_fails_on_duplicate_layer (prefs : Preferences) (world : Node) (r : MapRenderer)
    (hw : world.kind = NodeKind.World) :
    (∀ l ∈ world.children, l.kind = NodeKind.Layer →
      MapUtils.find r.layerRenderers l.id ≠ none →
      MapRenderer.documentWasNewedOrLoaded prefs world r = none) ∧
    ((∃ l ∈ world.children, l.kind = NodeKind.Layer) →
      ∀ r1, MapRenderer.documentWasNewedOrLoaded prefs world r = some r1 →
        MapRenderer.documentWasNewedOrLoaded prefs world r1 = none) ∧
    ((∀ c ∈ world.children, c.kind = NodeKind.Layer) → (world.children.map Node.id).Nodup →
      ∃ r2, MapRenderer.documentWasNewedOrLoaded prefs world
        (MapRenderer.documentWasCleared r) = some r2) := by
  refine ⟨fun l hmem hl hkey => documentWasNewedOrLoaded_fails prefs world r hw l hmem hl hkey,
    ?_, ?_⟩
  · rintro ⟨l, hmem, hl⟩ r1 h1
    exact documentWasNewedOrLoaded_fails prefs world r1 hw l hmem hl
      (documentWasNewedOrLoaded_keys prefs world r r1 hw l hmem hl h1)
  · intro hall hnd
    exact ⟨_, documentWasNewedOrLoaded_some prefs world _ hw hall hnd (fun c _ => rfl)⟩

/-- Witness of C8: the example document is loaded twice, and once more after
`documentWasCleared`. -/
theorem C8_load_fails_on_duplicate_layer_witness :
    MapRenderer.documentWasNewedOrLoaded Example.prefs Example.world Example.loaded = none ∧
    (∃ r2, MapRenderer.documentWasNewedOrLoaded Example.prefs Example.world
        (MapRenderer.documentWasCleared Example.loaded) = some r2) :=
  ⟨(C8_load_fails_on_duplicate_layer Example.prefs Example.world Example.fresh rfl).2.1
      ⟨Example.layer1, by simp [Example.world, Node.children], rfl⟩ Example.loaded rfl,
    (C8_load_fails_on_duplicate_layer Example.prefs Example.world Example.loaded rfl).2.2
      (by
        intro c hc
        simp only [Example.world, Node.children, List.mem_singleton] at hc
        subst hc; rfl)
      (by decide)⟩

/-- C9. `documentWasCleared` leaves no layer with a batch (the renderer map is
empty, every lookup fails) and leaves the selection batch exactly as it was. -/
theorem C9_documentWasCleared_frame (r : MapRenderer) :
    (MapRenderer.documentWasCleared r).layerRenderers = [] ∧
    (∀ layer, MapUtils.find (MapRenderer.documentWasCleared r).layerRenderers layer = none) ∧
    (MapRenderer.documentWasCleared r).selectionRenderer = r.selectionRenderer :=
  ⟨rfl, fun _ => rfl, rfl⟩

/-- C10. `nodesWereAdded`: when the owning layer of every Group, Entity and Brush
node of the added subtrees has a batch, the call succeeds, the set of layers and the
selection batch are unchanged, and an address is in a layer's batch afterwards iff
it was there before or it is the address of a Group, Entity or Brush node of the
added subtrees whose owning layer is that layer (so each such node is added to the
batch of its owning layer, to no other batch, and no World or Layer node is added);
when the owning layer of some such node is null or has no batch, the call fails. -/
theorem C10_nodesWereAdded (nodes : List Node) (r : MapRenderer) :
    ((∀ n ∈ Node.subtrees nodes, n.isObject = true →
        ∃ l, n.layer = some l ∧ MapUtils.find r.layerRenderers l ≠ none) →
      ∃ r', MapRenderer.nodesWereAdded nodes r = some r' ∧
        r'.layers = r.layers ∧ r'.selectionRenderer = r.selectionRenderer ∧
        ∀ l id, id ∈ r'.layerObjects l ↔
          (id ∈ r.layerObjects l ∨
            ∃ n ∈ Node.subtrees nodes, n.isObject = true ∧ n.layer = some l ∧ n.id = id)) ∧
    ((∃ n ∈ Node.subtrees nodes, n.isObject = true ∧
        (n.layer = none ∨ ∃ l, n.layer = some l ∧ MapUtils.find r.layerRenderers l = none)) →
      MapRenderer.nodesWereAdded nodes r = none) := by
  constructor
  · intro h
    have hs := (nodesWereAdded_isSome_iff nodes r).2
      (fun n hn => (Node.hasBatchIn_iff_find r n).2 (h n hn))
    obtain ⟨r', hr'⟩ := Option.isSome_iff_exists.1 hs
    obtain ⟨a1, a2, a3⟩ := nodesWereAdded_sem hr'
    refine ⟨r', hr', a1, a2, fun l id => ?_⟩
    rw [a3, Finset.mem_union, List.mem_toFinset, mem_objectIdsOf]
  · rintro ⟨n, hn, ho, hbad⟩
    by_contra hne
    have hs : (MapRenderer.nodesWereAdded nodes r).isSome := by
      cases hx : MapRenderer.nodesWereAdded nodes r with
      | none => exact absurd hx hne
      | some _ => rfl
    obtain ⟨l, hl, hf⟩ :=
      (Node.hasBatchIn_iff_find r n).1 ((nodesWereAdded_isSome_iff nodes r).1 hs n hn) ho
    rcases hbad with h | ⟨l', hl', hf'⟩
    · rw [h] at hl; exact absurd hl (by simp)
    · rw [hl'] at hl
      cases hl
      exact hf hf'

/-- Witness of C10: a group with a nested brush and an entity are added to the
two-layer example document; adding a brush of a layer without batch fails. -/
theorem C10_nodesWereAdded_witness :
    (∃ r', MapRenderer.nodesWereAdded Example.addedNodes Example.loaded2 = some r' ∧
        r'.layers = Example.loaded2.layers ∧
        r'.selectionRenderer = Example.loaded2.selectionRenderer ∧
        ∀ l id, id ∈ r'.layerObjects l ↔
          (id ∈ Example.loaded2.layerObjects l ∨
            ∃ n ∈ Node.subtrees Example.addedNodes,
              n.isObject = true ∧ n.layer = some l ∧ n.id = id)) ∧
    MapRenderer.nodesWereAdded Example.strayNodes Example.loaded2 = none :=
  ⟨(C10_nodesWereAdded Example.addedNodes Example.loaded2).1
      (by
        intro n hn
        simp only [Example.addedNodes, Node.subtrees, Node.subtree, List.append_nil,
          List.cons_append, List.nil_append, List.mem_cons, List.not_mem_nil, or_false] at hn
        rcases hn with rfl | rfl | rfl
        · intro _; exact ⟨1, rfl, by decide⟩
        · intro _; exact ⟨1, rfl, by decide⟩
        · intro _; exact ⟨2, rfl, by decide⟩),
    (C10_nodesWereAdded Example.strayNodes Example.loaded2).2
      ⟨Node.mk 41 NodeKind.Brush false false (some 9) [],
        by simp [Example.strayNodes, Node.subtrees, Node.subtree], rfl,
        Or.inr ⟨9, rfl, by decide⟩⟩⟩

/-- C11. `nodesWillBeRemoved` is the mirror of `nodesWereAdded`: when the owning
layer of every Group, Entity and Brush node of the given subtrees has a batch, the
call succeeds, leaves the set of layers and the selection batch unchanged, and an
address is in a layer's batch afterwards iff it was there before and is not the
address of a Group, Entity or Brush node of the subtrees owned by that layer; and
when moreover none of these nodes was in a layer batch before, `nodesWereAdded`
followed by `nodesWillBeRemoved` on the same list succeeds and restores the
membership of every layer batch. -/
theorem C11_nodesWillBeRemoved_mirror (nodes : List Node) (r : MapRenderer) :
    ((∀ n ∈ Node.subtrees nodes, n.isObject = true →
        ∃ l, n.layer = some l ∧ MapUtils.find r.layerRenderers l ≠ none) →
      ∃ r', MapRenderer.nodesWillBeRemoved nodes r = some r' ∧
        r'.layers = r.layers ∧ r'.selectionRenderer = r.selectionRenderer ∧
        ∀ l id, id ∈ r'.layerObjects l ↔
          (id ∈ r.layerObjects l ∧
            ¬ ∃ n ∈ Node.subtrees nodes, n.isObject = true ∧ n.layer = some l ∧ n.id = id)) ∧
    ((∀ n ∈ Node.subtrees nodes, n.isObject = true →
        ∃ l, n.layer = some l ∧ MapUtils.find r.layerRenderers l ≠ none) →
      (∀ n ∈ Node.subtrees nodes, n.isObject = true → ∀ l, n.id ∉ r.layerObjects l) →
      ∃ r1 r2, MapRenderer.nodesWereAdded nodes r = some r1 ∧
        MapRenderer.nodesWillBeRemoved nodes r1 = some r2 ∧
        r2.layers = r.layers ∧ r2.selectionRenderer = r.selectionRenderer ∧
        ∀ l, r2.layerObjects l = r.layerObjects l) := by
  constructor
  · intro h
    have hs := (nodesWillBeRemoved_isSome_iff nodes r).2
      (fun n hn => (Node.hasBatchIn_iff_find r n).2 (h n hn))
    obtain ⟨r', hr'⟩ := Option.isSome_iff_exists.1 hs
    obtain ⟨a1, a2, a3⟩ := nodesWillBeRemoved_sem hr'
    refine ⟨r', hr', a1, a2, fun l id => ?_⟩
    rw [a3, Finset.mem_sdiff, List.mem_toFinset, mem_objectIdsOf]
  · intro h hfresh
    have hb : ∀ n ∈ Node.subtrees nodes, n.hasBatchIn r.layers :=
      fun n hn => (Node.hasBatchIn_iff_find r n).2 (h n hn)
    obtain ⟨r1, hr1⟩ := Option.isSome_iff_exists.1 ((nodesWereAdded_isSome_iff nodes r).2 hb)
    obtain ⟨a1, a2, a3⟩ := nodesWereAdded_sem hr1
    obtain ⟨r2, hr2⟩ := Option.isSome_iff_exists.1
      ((nodesWillBeRemoved_isSome_iff nodes r1).2 (by rw [a1]; exact hb))
    obtain ⟨b1, b2, b3⟩ := nodesWillBeRemoved_sem hr2
    refine ⟨r1, r2, hr1, hr2, b1.trans a1, b2.trans a2, fun l => ?_⟩
    rw [b3, a3]
    ext id
    simp only [Finset.mem_sdiff, Finset.mem_union, List.mem_toFinset]
    constructor
    · rintro ⟨h1 | h1, h2⟩
      · exact h1
      · exact absurd h1 h2
    · intro h1
      refine ⟨Or.inl h1, fun h2 => ?_⟩
      obtain ⟨n, hn, ho, _, e⟩ := mem_objectIdsOf.1 h2
      exact hfresh n hn ho l (e ▸ h1)

/-- Witness of C11: the new nodes of the example are added to the two-layer example
document and removed again. -/
theorem C11_nodesWillBeRemoved_mirror_witness :
    ∃ r1 r2, MapRenderer.nodesWereAdded Example.addedNodes Example.loaded2 = some r1 ∧
      MapRenderer.nodesWillBeRemoved Example.addedNodes r1 = some r2 ∧
      r2.layers = Example.loaded2.layers ∧
      r2.selectionRenderer = Example.loaded2.selectionRenderer ∧
      ∀ l, r2.layerObjects l = Example.loaded2.layerObjects l :=
  (C11_nodesWillBeRemoved_mirror Example.addedNodes Example.loaded2).2
    (by
      intro n hn
      simp only [Example.addedNodes, Node.subtrees, Node.subtree, List.append_nil,
        List.cons_append, List.nil_append, List.mem_cons, List.not_mem_nil, or_false] at hn
      rcases hn with rfl | rfl | rfl
      · intro _; exact ⟨1, rfl, by decide⟩
      · intro _; exact ⟨1, rfl, by decide⟩
      · intro _; exact ⟨2, rfl, by decide⟩)
    (by
      intro n hn _ l
      have hl : Example.loaded2.layerObjects l ⊆ {11, 12, 21, 22, 23, 24} := by
        by_cases h1 : l = 1
        · subst h1; decide
        · by_cases h2 : l = 2
          · subst h2; decide
          · have : Example.loaded2.layerObjects l = ∅ := by
              have hk : l ∉ Example.loaded2.layers := by
                have : Example.loaded2.layers = [1, 2] := by decide
                rw [this]; simp [h1, h2]
              simp only [MapRenderer.layerObjects, MapUtils.objectsAt,
                (MapUtils.find_eq_none_iff _ _).2 hk]
            rw [this]; exact Finset.empty_subset _
      simp only [Example.addedNodes, Node.subtrees, Node.subtree, List.append_nil,
        List.cons_append, List.nil_append, List.mem_cons, List.not_mem_nil, or_false] at hn
      intro hx
      have := hl hx
      rcases hn with rfl | rfl | rfl <;> simp [Node.id] at this)

/-- C12. `nodesDidChange` on a list in which every node is selected or has a
selected descendant succeeds; the selection batch receives `updateObject` for
exactly the Group, Entity and Brush nodes of the list, in order and not for their
children; no layer batch is touched; and the membership, filter and style of the
selection batch are unchanged. -/
theorem C12_nodesDidChange_frame (nodes : List Node) (r : MapRenderer)
    (h : ∀ n ∈ nodes, (n.selected || n.descendantSelected) = true) :
    ∃ r', MapRenderer.nodesDidChange nodes r = some r' ∧
      r'.layerRenderers = r.layerRenderers ∧
      r'.selectionRenderer.calls =
        r.selectionRenderer.calls ++
          (nodes.filter Node.isObject).map (fun n => RendererCall.updateObject n.id) ∧
      r'.selectionRenderer.objects = r.selectionRenderer.objects ∧
      r'.selectionRenderer.filter = r.selectionRenderer.filter ∧
      r'.selectionRenderer.style = r.selectionRenderer.style := by
  rw [nodesDidChange_eq_ite, if_pos (fun n hn _ => h n hn)]
  exact ⟨_, rfl, rfl, rfl, rfl, rfl, rfl⟩

/-- Witness of C12: after brush 22 was selected, its group 21 (with the selected
brush as child) and the world change. -/
theorem C12_nodesDidChange_frame_witness :
    ∃ r', MapRenderer.nodesDidChange [Example.group21Partial] Example.afterSelect22 = some r' ∧
      r'.layerRenderers = Example.afterSelect22.layerRenderers ∧
      r'.selectionRenderer.calls =
        Example.afterSelect22.selectionRenderer.calls ++
          ([Example.group21Partial].filter Node.isObject).map
            (fun n => RendererCall.updateObject n.id) ∧
      r'.selectionRenderer.objects = Example.afterSelect22.selectionRenderer.objects ∧
      r'.selectionRenderer.filter = Example.afterSelect22.selectionRenderer.filter ∧
      r'.selectionRenderer.style = Example.afterSelect22.selectionRenderer.style :=
  C12_nodesDidChange_frame [Example.group21Partial] Example.afterSelect22 (by decide)

/-- C13, as amended. `nodesDidChange` fails iff some Group, Entity or Brush node of
the given list is neither selected nor has a selected descendant; World and Layer
nodes of the list are not checked. -/
theorem C13_nodesDidChange_fails_iff (nodes : List Node) (r : MapRenderer) :
    MapRenderer.nodesDidChange nodes r = none ↔
      ∃ n ∈ nodes, n.isObject = true ∧ (n.selected || n.descendantSelected) = false := by
  rw [nodesDidChange_eq_ite]
  constructor
  · intro h
    by_contra hne
    rw [if_pos] at h
    · exact absurd h (by simp)
    · intro n hn ho
      by_contra hs
      exact hne ⟨n, hn, ho, by simpa using hs⟩
  · rintro ⟨n, hn, ho, hs⟩
    rw [if_neg]
    intro hall
    have := hall n hn ho
    rw [hs] at this
    exact absurd this (by simp)

/-- C13, counterexample to the claim as stated: a list holding only the unselected
layer of the example document, which has no selected descendant, does not make
`nodesDidChange` fail. -/
theorem C13_nodesDidChange_layer_unchecked :
    ¬ (MapRenderer.nodesDidChange [Example.layer1] Example.loaded = none ↔
        ∃ n ∈ [Example.layer1], (n.selected || n.descendantSelected) = false) := by
  intro h
  have h1 : MapRenderer.nodesDidChange [Example.layer1] Example.loaded = none :=
    h.2 ⟨Example.layer1, List.mem_singleton.2 rfl, rfl⟩
  have h2 : MapRenderer.nodesDidChange [Example.layer1] Example.loaded = some Example.loaded := rfl
  rw [h2] at h1
  exact absurd h1 (by simp)

/-- C14. The second pass of `selectionDidChange`, compared with the same delta without
its face lists: when the owning layers of the handled nodes and of the brushes of
the listed faces have batches, both calls succeed; the face lists change the
membership of no batch and the set of layers; the selection batch receives
`updateObject` for exactly the collected brushes with `selected || descendantSelected`,
the batch of a layer for exactly the collected brushes owned by that layer with
`!selected`; and the brushes collected from a face list are the brushes of its faces,
each once however many of its faces are listed. -/
theorem C14_face_parents_refreshed (sel : Selection) (r : MapRenderer)
    (h1 : ∀ n ∈ sel.nodes, n.hasBatchIn r.layers)
    (h2 : ∀ b ∈ sel.faceParents, b.kind = NodeKind.Brush ∧ b.hasBatchIn r.layers) :
    (∃ r4 r', MapRenderer.selectionDidChange sel.withoutFaces r = some r4 ∧
      MapRenderer.selectionDidChange sel r = some r' ∧
      r'.layers = r4.layers ∧ r'.selectionObjects = r4.selectionObjects ∧
      (∀ l, r'.layerObjects l = r4.layerObjects l) ∧
      r'.selectionRenderer.calls = r4.selectionRenderer.calls ++
        ((MapRenderer.collectBrushes sel.selectedBrushFaces ++
            MapRenderer.collectBrushes sel.deselectedBrushFaces).filter
          fun b => b.selected || b.descendantSelected).map
          (fun b => RendererCall.updateObject b.id) ∧
      ∀ l, r'.layerCalls l = r4.layerCalls l ++
        ((MapRenderer.collectBrushes sel.selectedBrushFaces ++
            MapRenderer.collectBrushes sel.deselectedBrushFaces).filter
          fun b => decide (b.layer = some l) && !b.selected).map
          (fun b => RendererCall.updateObject b.id)) ∧
    (∀ faces : List BrushFace,
      ((MapRenderer.collectBrushes faces).map Node.id).Nodup ∧
      (∀ b ∈ MapRenderer.collectBrushes faces, ∃ f ∈ faces, f.brush = b) ∧
      (∀ id, id ∈ (MapRenderer.collectBrushes faces).map Node.id ↔
        ∃ f ∈ faces, f.brush.id = id)) := by
  refine ⟨?_, collectBrushes_spec⟩
  have a := foldOpt_HandleSelectedNode_isSome sel.nodes r h1
  obtain ⟨r4, hr4⟩ := Option.isSome_iff_exists.1 a
  have hl : r4.layers = r.layers := (foldOpt_HandleSelectedNode hr4).1
  have b := foldOpt_UpdateSelectedNode_isSome sel.faceParents r4
    (by rw [hl]; exact fun n hn => (h2 n hn).2)
  obtain ⟨r', hr'⟩ := Option.isSome_iff_exists.1 b
  obtain ⟨c1, c2, c3⟩ := foldOpt_UpdateSelectedNode hr'
  obtain ⟨d1, d2⟩ := foldOpt_UpdateSelectedNode_calls hr'
  refine ⟨r4, r', ?_, ?_, c1, c2, c3, ?_, fun l => ?_⟩
  · rw [selectionDidChange_eq, Selection.withoutFaces_nodes, Selection.withoutFaces_faceParents,
      hr4]
    rfl
  · rw [selectionDidChange_eq, hr4]
    exact hr'
  · rw [d1, filter_brushes_eq _ (fun b hb => (h2 b hb).1)]
    rfl
  · rw [d2, filter_brushes_eq _ (fun b hb => (h2 b hb).1)]
    rfl

/-- Witness of C14: two faces of brush #1 are selected in the loaded example document. -/
theorem C14_face_parents_refreshed_witness :
    ∃ r4 r', MapRenderer.selectionDidChange Example.selectTwoFacesOfBrush1.withoutFaces
        Example.loaded = some r4 ∧
      MapRenderer.selectionDidChange Example.selectTwoFacesOfBrush1 Example.loaded = some r' ∧
      r'.layers = r4.layers ∧ r'.selectionObjects = r4.selectionObjects ∧
      (∀ l, r'.layerObjects l = r4.layerObjects l) ∧
      r'.selectionRenderer.calls = r4.selectionRenderer.calls ++
        ((MapRenderer.collectBrushes Example.selectTwoFacesOfBrush1.selectedBrushFaces ++
            MapRenderer.collectBrushes Example.selectTwoFacesOfBrush1.deselectedBrushFaces).filter
          fun b => b.selected || b.descendantSelected).map
          (fun b => RendererCall.updateObject b.id) ∧
      ∀ l, r'.layerCalls l = r4.layerCalls l ++
        ((MapRenderer.collectBrushes Example.selectTwoFacesOfBrush1.selectedBrushFaces ++
            MapRenderer.collectBrushes Example.selectTwoFacesOfBrush1.deselectedBrushFaces).filter
          fun b => decide (b.layer = some l) && !b.selected).map
          (fun b => RendererCall.updateObject b.id) :=
  (C14_face_parents_refreshed Example.selectTwoFacesOfBrush1 Example.loaded
    (by
      intro n hn
      have : n = Example.brush1FaceSelected := by
        simpa [Selection.nodes, Example.selectTwoFacesOfBrush1] using hn
      subst this
      intro _
      exact ⟨1, rfl, by decide⟩)
    (by
      intro n hn
      have hfp : Example.selectTwoFacesOfBrush1.faceParents = [Example.brush1FaceSelected] :=
        rfl
      rw [hfp] at hn
      have : n = Example.brush1FaceSelected := by simpa using hn
      subst this
      exact ⟨rfl, fun _ => ⟨1, rfl, by decide⟩⟩)).1

/-- C15. `preferenceDidChange` keeps the key set of the layer renderers; the batch
stored under each layer becomes `setupLayerRenderer` of the batch stored there
before, with tint disabled and its membership, calls and filter unchanged; the
selection batch becomes `setupSelectionRenderer` of the former selection batch, with
tint enabled and occluded objects shown; and the membership of every layer batch and
of the selection batch is unchanged. -/
theorem C15_preferenceDidChange_frame (prefs : Preferences) (r : MapRenderer) :
    (MapRenderer.preferenceDidChange prefs r).layers = r.layers ∧
    (∀ l, MapUtils.find (MapRenderer.preferenceDidChange prefs r).layerRenderers l =
      (MapUtils.find r.layerRenderers l).map (MapRenderer.setupLayerRenderer prefs)) ∧
    (∀ l b, MapUtils.find (MapRenderer.preferenceDidChange prefs r).layerRenderers l = some b →
      b.style.tint = false ∧
      b.style.overlayTextColor = prefs.InfoOverlayTextColor ∧
      b.style.overlayBackgroundColor = prefs.InfoOverlayBackgroundColor ∧
      b.style.transparencyAlpha = prefs.TransparentFaceAlpha ∧
      b.style.entityBoundsColor = prefs.UndefinedEntityColor ∧
      b.style.brushFaceColor = prefs.FaceColor ∧
      b.style.brushEdgeColor = prefs.EdgeColor ∧
      ∃ b0, MapUtils.find r.layerRenderers l = some b0 ∧ b.objects = b0.objects ∧
        b.calls = b0.calls ∧ b.filter = b0.filter) ∧
    (MapRenderer.preferenceDidChange prefs r).selectionRenderer =
      MapRenderer.setupSelectionRenderer prefs r.selectionRenderer ∧
    (MapRenderer.preferenceDidChange prefs r).selectionRenderer.style.tint = true ∧
    (MapRenderer.preferenceDidChange prefs r).selectionRenderer.style.showOccludedObjects = true ∧
    (MapRenderer.preferenceDidChange prefs r).selectionRenderer.style.tintColor =
      prefs.SelectedFaceColor ∧
    (MapRenderer.preferenceDidChange prefs r).selectionRenderer.calls =
      r.selectionRenderer.calls ∧
    (MapRenderer.preferenceDidChange prefs r).selectionObjects = r.selectionObjects ∧
    (∀ l, (MapRenderer.preferenceDidChange prefs r).layerObjects l = r.layerObjects l) := by
  have hf : ∀ l, MapUtils.find (MapRenderer.preferenceDidChange prefs r).layerRenderers l =
      (MapUtils.find r.layerRenderers l).map (MapRenderer.setupLayerRenderer prefs) :=
    fun l => find_map_snd r.layerRenderers (MapRenderer.setupLayerRenderer prefs) l
  refine ⟨keys_map_snd r.layerRenderers (MapRenderer.setupLayerRenderer prefs), hf, ?_, rfl, rfl,
    rfl, rfl, rfl, rfl, ?_⟩
  · intro l b hb
    rw [hf] at hb
    cases h0 : MapUtils.find r.layerRenderers l with
    | none => simp [h0] at hb
    | some b0 =>
      simp only [h0, Option.map_some', Option.some.injEq] at hb
      subst hb
      exact ⟨rfl, rfl, rfl, rfl, rfl, rfl, rfl, b0, rfl, rfl, rfl, rfl⟩
  · intro l
    simp only [MapRenderer.layerObjects, MapUtils.objectsAt, hf]
    cases MapUtils.find r.layerRenderers l <;> rfl

/-- C16. A recursive visit of a tree `T` with a visitor whose handlers never cancel and
never stop the recursion, started with both flags clear, is the fold of the `visit`
function over the nodes of `T` in depth-first pre-order, children in stored order:
the handler of every node is invoked exactly once, in that order (the trace grows by
the addresses of the pre-order list), the visit returns whenever every handler
returns, and in the pre-order list a node comes first, followed by the lists of its
children in stored order, so that every node is immediately followed by its own
descendants. -/
theorem C16_recursive_visit_preorder
    (doVisit : Node → NodeVisitor σ → Option (NodeVisitor σ))
    (hd : ∀ n w w', w.cancelled = false → w.recursionStopped = false → doVisit n w = some w' →
      w'.cancelled = false ∧ w'.recursionStopped = false ∧ w'.visited = w.visited)
    (T : Node) (v : NodeVisitor σ) (hc : v.cancelled = false) (hr : v.recursionStopped = false) :
    Node.acceptAndRecurse (NodeVisitor.visit doVisit) T v =
      foldOpt (NodeVisitor.visit doVisit) (Node.subtree T) v ∧
    (∀ v', Node.acceptAndRecurse (NodeVisitor.visit doVisit) T v = some v' →
      v'.visited = v.visited ++ (Node.subtree T).map Node.id ∧
      v'.cancelled = false ∧ v'.recursionStopped = false) ∧
    ((∀ n w, (doVisit n w).isSome = true) →
      (Node.acceptAndRecurse (NodeVisitor.visit doVisit) T v).isSome = true) ∧
    Node.subtree T = T :: Node.subtrees T.children ∧
    (∀ c cs, Node.subtrees (c :: cs) = Node.subtree c ++ Node.subtrees cs) ∧
    (∀ n ∈ Node.subtree T, ∃ pre post, Node.subtree T = pre ++ Node.subtree n ++ post) := by
  have hv : ∀ n w w', w.cancelled = false → w.recursionStopped = false →
      NodeVisitor.visit doVisit n w = some w' →
      w'.cancelled = false ∧ w'.recursionStopped = false := by
    intro n w w' h1 h2 h3
    obtain ⟨a1, a2, _⟩ := hd n { w with visited := w.visited ++ [n.id] } w' h1 h2 h3
    exact ⟨a1, a2⟩
  have he := acceptAndRecurse_eq_foldOpt hv T v hc hr
  refine ⟨he, fun v' h => ?_, fun ht => ?_, Node.subtree_eq T, fun _ _ => rfl,
    fun n hn => Node.subtree_segment T n hn⟩
  · rw [he] at h
    have hp := foldOpt_inv (P := fun w => w.cancelled = false ∧ w.recursionStopped = false)
      (fun n w w' hw h => hv n w w' hw.1 hw.2 h) _ _ _ ⟨hc, hr⟩ h
    exact ⟨foldOpt_visit_trace hd _ _ _ hc hr h, hp.1, hp.2⟩
  · rw [he]
    exact foldOpt_isSome_of_total (fun n w => ht n _) _ _

/-- Witness of C16: a handler that counts its invocations visits the two-layer example
world. -/
theorem C16_recursive_visit_preorder_witness :
    Node.acceptAndRecurse (NodeVisitor.visit Example.countVisit) Example.world2
        (NodeVisitor.new 0) =
      foldOpt (NodeVisitor.visit Example.countVisit) (Node.subtree Example.world2)
        (NodeVisitor.new 0) ∧
    (Node.acceptAndRecurse (NodeVisitor.visit Example.countVisit) Example.world2
        (NodeVisitor.new 0)).isSome = true :=
  ⟨(C16_recursive_visit_preorder Example.countVisit
      (by
        intro n w w' h1 h2 h
        simp only [Example.countVisit, Option.some.injEq] at h
        subst h
        exact ⟨h1, h2, rfl⟩)
      Example.world2 (NodeVisitor.new 0) rfl rfl).1,
    (C16_recursive_visit_preorder Example.countVisit
      (by
        intro n w w' h1 h2 h
        simp only [Example.countVisit, Option.some.injEq] at h
        subst h
        exact ⟨h1, h2, rfl⟩)
      Example.world2 (NodeVisitor.new 0) rfl rfl).2.2.1 (fun _ _ => rfl)⟩

/-- C17, as amended. Cancellation short-circuits: a driver loop entered with a cancelled
visitor invokes nothing and returns the visitor as it is; when a visit returns a
cancelled visitor, the loops return it at once (the recursive visit of a node after
clearing the recursion-stop flag); and in a traversal started with an uncancelled
visitor no handler is ever invoked on a cancelled visitor, so that replacing the
visit function by one that fails on a cancelled visitor changes no result.  On the
tree World, Layer, Group (selected), Brush, the find-container search started at the
Group returns the Group and invokes the Group handler only; started at the Layer or
at the World it returns the node it was started at and invokes that handler only. -/
theorem C17_cancellation_short_circuits {σ : Type}
    (visit : Node → NodeVisitor σ → Option (NodeVisitor σ)) (T : Node) (ns : List Node)
    (v : NodeVisitor σ) :
    (v.cancelled = true →
      Node.recurse visit ns v = some v ∧ Node.acceptList visit ns v = some v) ∧
    (∀ w, v.cancelled = false → visit T v = some w → w.cancelled = true →
      Node.acceptAndRecurse visit T v = some { w with recursionStopped := false } ∧
      Node.acceptList visit (T :: ns) v = some w) ∧
    (∀ w, v.cancelled = false → Node.acceptAndRecurse visit T v = some w → w.cancelled = true →
      Node.recurse visit (T :: ns) v = some w) ∧
    (v.cancelled = false →
      Node.acceptAndRecurse (failIfCancelled visit) T v = Node.acceptAndRecurse visit T v) ∧
    Node.recurse (failIfCancelled visit) ns v = Node.recurse visit ns v ∧
    Node.acceptList (failIfCancelled visit) ns v = Node.acceptList visit ns v ∧
    Node.acceptAndRecurse (NodeVisitor.visit FindContainerVisitor.doVisit) Example.selectedGroup
        FindContainerVisitor.new =
      some { cancelled := true, recursionStopped := false, visited := [Example.selectedGroup.id],
             state := { hasResult := true, result := some Example.selectedGroup.id } } ∧
    Node.acceptAndRecurse (NodeVisitor.visit FindContainerVisitor.doVisit) Example.groupLayer
        FindContainerVisitor.new =
      some { cancelled := true, recursionStopped := false, visited := [Example.groupLayer.id],
             state := { hasResult := true, result := some Example.groupLayer.id } } ∧
    Node.acceptAndRecurse (NodeVisitor.visit FindContainerVisitor.doVisit) Example.groupWorld
        FindContainerVisitor.new =
      some { cancelled := true, recursionStopped := false, visited := [Example.groupWorld.id],
             state := { hasResult := true, result := some Example.groupWorld.id } } := by
  refine ⟨fun h => ⟨recurse_cancelled _ _ _ h, acceptList_cancelled _ _ _ h⟩, ?_, ?_,
    acceptAndRecurse_failIfCancelled visit T v, recurse_failIfCancelled visit ns v,
    acceptList_failIfCancelled visit ns v, rfl, rfl, rfl⟩
  · intro w hc hw hwc
    constructor
    · obtain ⟨i, k, s, d, l, cs⟩ := T
      simp only [Node.acceptAndRecurse, hw]
      by_cases hr : w.recursionStopped = true
      · simp [hr]
      · simp only [hr, Bool.false_eq_true, if_false]
        exact recurse_cancelled _ _ _ hwc
    · rw [acceptList_cons _ _ _ _ hc, hw, Option.some_bind]
      exact acceptList_cancelled _ _ _ hwc
  · intro w hc hw hwc
    simp only [Node.recurse, hc, Bool.false_eq_true, if_false, hw]
    exact recurse_cancelled _ _ _ hwc

/-- Witness of C17: the find-container search on the scenario world, and the driver
loops entered with the cancelled visitor the search returns. -/
theorem C17_cancellation_short_circuits_witness :
    Node.acceptAndRecurse (failIfCancelled (NodeVisitor.visit FindContainerVisitor.doVisit))
        Example.groupWorld FindContainerVisitor.new =
      Node.acceptAndRecurse (NodeVisitor.visit FindContainerVisitor.doVisit)
        Example.groupWorld FindContainerVisitor.new ∧
    Node.recurse (NodeVisitor.visit FindContainerVisitor.doVisit) [Example.groupLayer]
        FindContainerVisitor.new.cancel = some FindContainerVisitor.new.cancel ∧
    Node.acceptList (NodeVisitor.visit FindContainerVisitor.doVisit) [Example.groupLayer]
        FindContainerVisitor.new.cancel = some FindContainerVisitor.new.cancel :=
  ⟨(C17_cancellation_short_circuits (NodeVisitor.visit FindContainerVisitor.doVisit)
      Example.groupWorld [] FindContainerVisitor.new).2.2.2.1 rfl,
    (C17_cancellation_short_circuits (NodeVisitor.visit FindContainerVisitor.doVisit)
      Example.groupWorld [Example.groupLayer] FindContainerVisitor.new.cancel).1 rfl⟩

/-- C17, counterexample to the claim as stated: on the tree World, Layer, Group
(selected), Brush, the find-container search started above the Group, at the Layer
or at the World, does not return the Group. -/
theorem C17_search_above_group_returns_start :
    (¬ ∃ v', Node.acceptAndRecurse (NodeVisitor.visit FindContainerVisitor.doVisit)
        Example.groupLayer FindContainerVisitor.new = some v' ∧
      v'.state.getResult = some (some Example.selectedGroup.id)) ∧
    (¬ ∃ v', Node.acceptAndRecurse (NodeVisitor.visit FindContainerVisitor.doVisit)
        Example.groupWorld FindContainerVisitor.new = some v' ∧
      v'.state.getResult = some (some Example.selectedGroup.id)) := by
  constructor
  · rintro ⟨v', h, hr⟩
    have e : Node.acceptAndRecurse (NodeVisitor.visit FindContainerVisitor.doVisit)
        Example.groupLayer FindContainerVisitor.new =
      some { cancelled := true, recursionStopped := false, visited := [50],
             state := { hasResult := true, result := some 50 } } := rfl
    rw [e, Option.some.injEq] at h
    subst h
    revert hr
    decide
  · rintro ⟨v', h, hr⟩
    have e : Node.acceptAndRecurse (NodeVisitor.visit FindContainerVisitor.doVisit)
        Example.groupWorld FindContainerVisitor.new =
      some { cancelled := true, recursionStopped := false, visited := [0],
             state := { hasResult := true, result := some 0 } } := rfl
    rw [e, Option.some.injEq] at h
    subst h
    revert hr
    decide

/-- C18. The handlers of `FindContainerVisitor`: visiting a World, Layer, Group or
Entity node returns with the result set to exactly that node and with the visitor
cancelled, leaving the recursion-stop flag alone; visiting a Brush node returns the
visitor unchanged.  Hence a recursive visit of a tree, or a visit of a list of nodes,
by a new visitor returns; its result is the first node that is not a Brush in visit
order (pre-order for a tree), there is no result if there is none, and the handlers
invoked are those of the brushes before that node and of that node. -/
theorem C18_find_container_result (n : Node) (v : NodeVisitor (NodeQuery (Option Nat)))
    (T : Node) (ns : List Node) :
    (n.kind ≠ NodeKind.Brush →
      ∃ v', FindContainerVisitor.doVisit n v = some v' ∧
        v'.state.hasResult = true ∧ v'.state.result = some n.id ∧
        v'.state.getResult = some (some n.id) ∧
        v'.cancelled = true ∧ v'.recursionStopped = v.recursionStopped) ∧
    (n.kind = NodeKind.Brush → FindContainerVisitor.doVisit n v = some v) ∧
    (∃ v', Node.acceptAndRecurse (NodeVisitor.visit FindContainerVisitor.doVisit) T
          FindContainerVisitor.new = some v' ∧
        v'.state.getResult = ((Node.subtree T).find? Node.isContainer).map (fun m => some m.id) ∧
        v'.visited = ((Node.subtree T).takeWhile fun m => !m.isContainer).map Node.id ++
          (((Node.subtree T).find? Node.isContainer).map Node.id).toList) ∧
    (∃ v', Node.acceptList (NodeVisitor.visit FindContainerVisitor.doVisit) ns
          FindContainerVisitor.new = some v' ∧
        v'.state.getResult = (ns.find? Node.isContainer).map (fun m => some m.id) ∧
        v'.visited = (ns.takeWhile fun m => !m.isContainer).map Node.id ++
          ((ns.find? Node.isContainer).map Node.id).toList) := by
  have key : ∀ xs : List Node,
      ∃ v', Node.acceptList (NodeVisitor.visit FindContainerVisitor.doVisit) xs
          FindContainerVisitor.new = some v' ∧
        v'.state.getResult = (xs.find? Node.isContainer).map (fun m => some m.id) ∧
        v'.visited = (xs.takeWhile fun m => !m.isContainer).map Node.id ++
          ((xs.find? Node.isContainer).map Node.id).toList := by
    intro xs
    obtain ⟨v', h1, h2, _, h4⟩ := FindContainerVisitor_acceptList xs FindContainerVisitor.new rfl
    refine ⟨v', h1, ?_, by simpa [FindContainerVisitor.new, NodeVisitor.new] using h2⟩
    cases hf : xs.find? Node.isContainer with
    | none =>
      simp only [hf] at h4
      simp [NodeQuery.getResult, h4.2, FindContainerVisitor.new, NodeVisitor.new, NodeQuery.new]
    | some m =>
      simp only [hf] at h4
      simp [NodeQuery.getResult, h4.2.1, h4.2.2]
  refine ⟨fun hk => ?_, fun hk => ?_, ?_, key ns⟩
  · refine ⟨_, FindContainerVisitor_doVisit_container n v ((Node.isContainer_iff n).2 hk),
      rfl, rfl, rfl, rfl, rfl⟩
  · apply FindContainerVisitor_doVisit_brush
    cases h : n.isContainer with
    | false => rfl
    | true => exact absurd hk ((Node.isContainer_iff n).1 h)
  · rw [acceptAndRecurse_eq_acceptList FindContainerVisitor_visit_recursionStopped T _ rfl rfl]
    exact key (Node.subtree T)

/-- Witness of C18: the handlers on the selected group and on the brush of the
scenario. -/
theorem C18_find_container_result_witness :
    (∃ v', FindContainerVisitor.doVisit Example.selectedGroup FindContainerVisitor.new = some v' ∧
        v'.state.hasResult = true ∧ v'.state.result = some Example.selectedGroup.id ∧
        v'.state.getResult = some (some Example.selectedGroup.id) ∧
        v'.cancelled = true ∧
        v'.recursionStopped = FindContainerVisitor.new.recursionStopped) ∧
    FindContainerVisitor.doVisit Example.containedBrush FindContainerVisitor.new =
      some FindContainerVisitor.new :=
  ⟨(C18_find_container_result Example.selectedGroup FindContainerVisitor.new
      Example.groupWorld []).1 (by decide),
    (C18_find_container_result Example.containedBrush FindContainerVisitor.new
      Example.groupWorld []).2.1 rfl⟩

/-- C19. The recursion-stop flag is scoped to one node.  On a Layer with two sibling
Groups of which only the first is matched, the matching visitor with the
stop-if-matched policy evaluates the Layer, the first Group, the second Group and
the brush of the second Group, and skips the brush of the first Group.  In general
the recursive visit of a node returns with the flag clear, whatever the visit
function, so that the loop over the siblings hands a clear flag to every later
sibling; and for a matching visitor whose handlers leave the flags and the logs
alone, the nodes evaluated by a recursive visit are exactly those of the pre-order
list pruned below the nodes the policy stops at, in that order: the pruned list of
each sibling is evaluated in full whatever was stopped in another sibling. -/
theorem C19_recursionStopped_scoped {σ τ : Type}
    (visit : Node → NodeVisitor τ → Option (NodeVisitor τ)) (u : NodeVisitor τ)
    (p : Node → Bool) (s : Node → Bool → Bool)
    (doVisit : Node → NodeVisitor (MatchingNodeVisitor σ) →
      Option (NodeVisitor (MatchingNodeVisitor σ)))
    (hd : ∀ n w w', doVisit n w = some w' →
      w'.cancelled = w.cancelled ∧ w'.recursionStopped = w.recursionStopped ∧
      w'.visited = w.visited ∧ w'.state.evaluated = w.state.evaluated)
    (T c : Node) (cs : List Node) (v : NodeVisitor (MatchingNodeVisitor σ))
    (hc : v.cancelled = false) (hr : v.recursionStopped = false) :
    Node.acceptAndRecurse
        (MatchingNodeVisitor.visit Node.selected StopRecursionIfMatched Example.collectMatch)
        Example.twoGroupLayer Example.newMatching =
      some { cancelled := false, recursionStopped := false,
             visited := [Example.firstGroup.id],
             state :=
               { evaluated := [Example.twoGroupLayer.id, Example.firstGroup.id,
                   Example.secondGroup.id, Example.secondGroupBrush.id],
                 members := [Example.firstGroup.id] } } ∧
    (∀ u1, Node.acceptAndRecurse visit c u = some u1 → u1.recursionStopped = false) ∧
    (u.cancelled = false →
      Node.recurse visit (c :: cs) u =
        (Node.acceptAndRecurse visit c u).bind (Node.recurse visit cs)) ∧
    (∀ v', Node.acceptAndRecurse (MatchingNodeVisitor.visit p s doVisit) T v = some v' →
      v'.state.evaluated =
        v.state.evaluated ++ (Node.prune (fun m => s m (p m)) T).map Node.id ∧
      v'.visited = v.visited ++ ((Node.prune (fun m => s m (p m)) T).filter p).map Node.id) ∧
    (∀ v', Node.recurse (MatchingNodeVisitor.visit p s doVisit) (c :: cs) v = some v' →
      v'.state.evaluated =
        v.state.evaluated ++ (Node.prune (fun m => s m (p m)) c).map Node.id ++
          (Node.prunes (fun m => s m (p m)) cs).map Node.id) ∧
    (∀ m ∈ cs, m ∈ Node.prunes (fun m => s m (p m)) cs) ∧
    Node.prune (fun m => s m (p m)) T =
      T :: (if s T (p T) = true then [] else Node.prunes (fun m => s m (p m)) T.children) ∧
    ((∀ n w, (doVisit n w).isSome = true) →
      (Node.acceptAndRecurse (MatchingNodeVisitor.visit p s doVisit) T v).isSome = true) := by
  refine ⟨rfl, fun u1 h => acceptAndRecurse_recursionStopped visit c u u1 h,
    fun h => recurse_cons visit c cs u h, fun v' h => ?_, fun v' h => ?_,
    fun m hm => Node.mem_prunes_of_mem _ hm, Node.prune_eq _ T, fun ht => ?_⟩
  · exact (acceptAndRecurse_matching hd T v v' hc hr h).2
  · have := (recurse_matching hd (c :: cs) v v' hc hr h).2.1
    rw [this]
    simp [Node.prunes]
  · exact acceptAndRecurse_isSome_of_total (MatchingNodeVisitor_visit_isSome ht) T v

/-- Witness of C19: the collecting matching visitor of the scenario returns on the
two-group layer. -/
theorem C19_recursionStopped_scoped_witness :
    (Node.acceptAndRecurse
        (MatchingNodeVisitor.visit Node.selected StopRecursionIfMatched Example.collectMatch)
        Example.twoGroupLayer Example.newMatching).isSome = true :=
  (C19_recursionStopped_scoped
    (MatchingNodeVisitor.visit Node.selected StopRecursionIfMatched Example.collectMatch)
    Example.newMatching Node.selected StopRecursionIfMatched Example.collectMatch
    (by
      intro n w w' h
      simp only [Example.collectMatch, Option.some.injEq] at h
      subst h
      exact ⟨rfl, rfl, rfl, rfl⟩)
    Example.twoGroupLayer Example.firstGroup [Example.secondGroup] Example.newMatching
    rfl rfl).2.2.2.2.2.2.2 (fun _ _ => rfl)

/-- C20. `MatchingNodeVisitor::visit` on a node of any kind evaluates the predicate
once (the node is logged once), runs the inherited `NodeVisitor::visit`, hence the
handler of the node, iff the predicate returned true (when it returned false the
outcome does not depend on the handler), and then calls `stopRecursion` iff the stop
policy applied to the node and the match returns true.  With `NeverStopRecursion`
the visit never stops the recursion; with `StopRecursionIfMatched` it stops it iff
the node matched. -/
theorem C20_matching_visit {σ : Type} (p : Node → Bool) (s : Node → Bool → Bool)
    (doVisit : Node → NodeVisitor (MatchingNodeVisitor σ) →
      Option (NodeVisitor (MatchingNodeVisitor σ)))
    (n : Node) (v : NodeVisitor (MatchingNodeVisitor σ)) :
    (p n = false →
      MatchingNodeVisitor.visit p s doVisit n v =
        some (if s n false = true then (MatchingNodeVisitor.logged n v).stopRecursion
          else MatchingNodeVisitor.logged n v)) ∧
    (p n = false → ∀ doVisit2,
      MatchingNodeVisitor.visit p s doVisit2 n v = MatchingNodeVisitor.visit p s doVisit n v) ∧
    (p n = true →
      MatchingNodeVisitor.visit p s doVisit n v =
        (NodeVisitor.visit doVisit n (MatchingNodeVisitor.logged n v)).map
          fun w => if s n true = true then w.stopRecursion else w) ∧
    (∀ v', MatchingNodeVisitor.visit p s doVisit n v = some v' → s n (p n) = true →
      v'.recursionStopped = true) ∧
    ((∀ m w w', doVisit m w = some w' →
        w'.cancelled = w.cancelled ∧ w'.recursionStopped = w.recursionStopped ∧
        w'.visited = w.visited ∧ w'.state.evaluated = w.state.evaluated) →
      ∀ v', MatchingNodeVisitor.visit p s doVisit n v = some v' →
        v'.cancelled = v.cancelled ∧
        v'.recursionStopped = (v.recursionStopped || s n (p n)) ∧
        v'.visited = v.visited ++ (if p n = true then [n.id] else []) ∧
        v'.state.evaluated = v.state.evaluated ++ [n.id]) ∧
    MatchingNodeVisitor.visit p NeverStopRecursion doVisit n v =
      (if p n = true then NodeVisitor.visit doVisit n (MatchingNodeVisitor.logged n v)
        else some (MatchingNodeVisitor.logged n v)) ∧
    MatchingNodeVisitor.visit p StopRecursionIfMatched doVisit n v =
      (if p n = true then
        (NodeVisitor.visit doVisit n (MatchingNodeVisitor.logged n v)).map
          NodeVisitor.stopRecursion
        else some (MatchingNodeVisitor.logged n v)) := by
  refine ⟨fun h => MatchingNodeVisitor_visit_of_not_match p s doVisit n v h, fun h d2 => ?_,
    fun h => MatchingNodeVisitor_visit_of_match p s doVisit n v h, fun v' h hs => ?_,
    fun hd v' h => MatchingNodeVisitor_visit_spec hd h, ?_, ?_⟩
  · rw [MatchingNodeVisitor_visit_of_not_match p s d2 n v h,
      MatchingNodeVisitor_visit_of_not_match p s doVisit n v h]
  · cases hp : p n with
    | false =>
      rw [hp] at hs
      rw [MatchingNodeVisitor_visit_of_not_match p s doVisit n v hp, Option.some.injEq] at h
      subst h
      simp [hs, NodeVisitor.stopRecursion]
    | true =>
      rw [hp] at hs
      rw [MatchingNodeVisitor_visit_of_match p s doVisit n v hp] at h
      cases h1 : NodeVisitor.visit doVisit n
          { v with state := { v.state with evaluated := v.state.evaluated ++ [n.id] } } with
      | none => simp [h1] at h
      | some w =>
        simp only [h1, Option.map_some', Option.some.injEq] at h
        subst h
        simp [hs, NodeVisitor.stopRecursion]
  · cases hp : p n with
    | false =>
      rw [MatchingNodeVisitor_visit_of_not_match p _ doVisit n v hp]
      simp [NeverStopRecursion, MatchingNodeVisitor.logged]
    | true =>
      rw [MatchingNodeVisitor_visit_of_match p _ doVisit n v hp]
      simp only [NeverStopRecursion, Bool.false_eq_true, if_false, if_true,
        MatchingNodeVisitor.logged]
      cases NodeVisitor.visit doVisit n
        { v with state := { v.state with evaluated := v.state.evaluated ++ [n.id] } } <;> rfl
  · cases hp : p n with
    | false =>
      rw [MatchingNodeVisitor_visit_of_not_match p _ doVisit n v hp]
      simp [StopRecursionIfMatched, MatchingNodeVisitor.logged]
    | true =>
      rw [MatchingNodeVisitor_visit_of_match p _ doVisit n v hp]
      simp only [StopRecursionIfMatched, if_true, MatchingNodeVisitor.logged]

/-- Witness of C20: the collecting matching visitor on the matched first group and on
the unmatched second group of the two-group scenario. -/
theorem C20_matching_visit_witness :
    MatchingNodeVisitor.visit Node.selected StopRecursionIfMatched Example.collectMatch
        Example.firstGroup Example.newMatching =
      (NodeVisitor.visit Example.collectMatch Example.firstGroup
        (MatchingNodeVisitor.logged Example.firstGroup Example.newMatching)).map
        (fun w => if StopRecursionIfMatched Example.firstGroup true = true
          then w.stopRecursion else w) ∧
    MatchingNodeVisitor.visit Node.selected StopRecursionIfMatched Example.collectMatch
        Example.secondGroup Example.newMatching =
      some (if StopRecursionIfMatched Example.secondGroup false = true then
          (MatchingNodeVisitor.logged Example.secondGroup Example.newMatching).stopRecursion
        else MatchingNodeVisitor.logged Example.secondGroup Example.newMatching) :=
  ⟨(C20_matching_visit Node.selected StopRecursionIfMatched Example.collectMatch
      Example.firstGroup Example.newMatching).2.2.1 rfl,
    (C20_matching_visit Node.selected StopRecursionIfMatched Example.collectMatch
      Example.secondGroup Example.newMatching).1 rfl⟩

/-- C21. Accumulation in a `NodeQuery`: after `setResult` was called with the values
`v1, ..., vn` (in this order, n at least 1) on a new query, `result()` returns the
left fold `combine (... (combine (combine v1 v2) v3) ...) vn`; the first call stores
`v1` whatever the combine function is; with the default `doCombineResults` the
result is the last value `vn`; and `result()` of a new query fails its assertion. -/
theorem C21_nodeQuery_accumulation {T : Type} (combine : T → T → T) (d v1 : T) (vs : List T) :
    ((v1 :: vs).foldl (NodeQuery.setResult combine) (NodeQuery.new d)).getResult =
      some (vs.foldl combine v1) ∧
    NodeQuery.setResult combine (NodeQuery.new d) v1 = { hasResult := true, result := v1 } ∧
    (∀ combine2 : T → T → T,
      NodeQuery.setResult combine2 (NodeQuery.new d) v1 =
        NodeQuery.setResult combine (NodeQuery.new d) v1) ∧
    ((v1 :: vs).foldl (NodeQuery.setResult NodeQuery.doCombineResults)
        (NodeQuery.new d)).getResult = (v1 :: vs).getLast? ∧
    (NodeQuery.new d).getResult = none := by
  have h1 : ∀ c : T → T → T,
      NodeQuery.setResult c (NodeQuery.new d) v1 = { hasResult := true, result := v1 } :=
    fun _ => rfl
  have h2 : ∀ c : T → T → T,
      ((v1 :: vs).foldl (NodeQuery.setResult c) (NodeQuery.new d)).getResult =
        some (vs.foldl c v1) := by
    intro c
    rw [List.foldl_cons, h1 c, NodeQuery_foldl_setResult]
    rfl
  refine ⟨h2 combine, h1 combine, fun c2 => (h1 c2).trans (h1 combine).symm, ?_, rfl⟩
  rw [h2, foldl_doCombineResults]

/-- C22. The handlers of `NodeLambdaVisitor` and of `ConstNodeLambdaVisitor`, for a node
of any of the five kinds, invoke the callable once on that node, passing the callable
itself as first argument when its type accepts that form: the state the callable acts
on becomes the one left by that single invocation, the flags and the trace are left
alone, and the returned value is stored when the return type is not void, while
nothing is stored when it is void.  After a new visitor visited the nodes of
`pre ++ [n]` in order the callable has been invoked once per node, in order, and
`result()` is the value returned for the last node `n` when the return type is not
void, and no value when it is void. -/
theorem C22_lambda_visitor {L ε R : Type} (form : NodeLambda L ε R) (lam : L) (n : Node)
    (pre : List Node) (v : NodeVisitor (NodeLambdaVisitor ε R)) (e : ε) :
    (∀ call : L → L → Node → ε → R × ε,
      NodeLambdaVisitor.doVisit (NodeLambda.withSelf call) lam n v =
        some { v with state :=
          { env := (call lam lam n v.state.env).2,
            result := some (call lam lam n v.state.env).1 } }) ∧
    (∀ call : L → L → Node → ε → ε,
      NodeLambdaVisitor.doVisit (NodeLambda.withSelfVoid call : NodeLambda L ε R) lam n v =
        some { v with state :=
          { env := call lam lam n v.state.env, result := v.state.result } }) ∧
    (∀ call : L → Node → ε → R × ε,
      NodeLambdaVisitor.doVisit (NodeLambda.unary call) lam n v =
        some { v with state :=
          { env := (call lam n v.state.env).2, result := some (call lam n v.state.env).1 } }) ∧
    (∀ call : L → Node → ε → ε,
      NodeLambdaVisitor.doVisit (NodeLambda.unaryVoid call : NodeLambda L ε R) lam n v =
        some { v with state := { env := call lam n v.state.env, result := v.state.result } }) ∧
    ConstNodeLambdaVisitor.doVisit form lam n v = NodeLambdaVisitor.doVisit form lam n v ∧
    foldOpt (NodeVisitor.visit (NodeLambdaVisitor.doVisit form lam)) (pre ++ [n])
        (NodeVisitor.new (NodeLambdaVisitor.new e)) =
      some { cancelled := false, recursionStopped := false,
             visited := (pre ++ [n]).map Node.id,
             state :=
               { env := form.run lam (pre ++ [n]) e,
                 result := (form.invoke lam n (form.run lam pre e)).1 } } ∧
    form.run lam (pre ++ [n]) e = (form.invoke lam n (form.run lam pre e)).2 ∧
    (form.invoke lam n (form.run lam pre e)).1.isSome = form.hasResult ∧
    NodeLambdaVisitorResult.result (NodeLambdaVisitor.new e : NodeLambdaVisitor ε R) = none := by
  refine ⟨fun call => ?_, fun call => ?_, fun call => ?_, fun call => ?_,
    ConstNodeLambdaVisitor_doVisit_eq form lam n v, ?_, ?_,
    NodeLambda.invoke_isSome form lam n _, rfl⟩
  · rw [NodeLambdaVisitor_doVisit_eq]; rfl
  · rw [NodeLambdaVisitor_doVisit_eq]; rfl
  · rw [NodeLambdaVisitor_doVisit_eq]; rfl
  · rw [NodeLambdaVisitor_doVisit_eq]; rfl
  · rw [foldOpt_NodeLambdaVisitor]
    simp [List.getLast?_append, List.getLast?_singleton,
      List.dropLast_concat, NodeVisitor.new, NodeLambdaVisitor.new, List.nil_append]
    cases form <;> intro h <;> first | rfl | (simp [NodeLambda.hasResult] at h)
  · simp [NodeLambda.run, List.foldl_append]

/-- C23. The first pass of `selectionDidChange` is order-independent and idempotent.
For two selection deltas whose four node lists hold the same nodes, in any order and
with any repetition, where one address stands for one node and the owning layers
have batches, the first pass succeeds on both and leaves the same set of layers, the
same membership of the selection batch and of every layer batch; that membership is
a function of the flags of the handled nodes only: a handled Group, Entity or Brush
node is a member iff its rule says so, every other address keeps its membership.
Handling one node twice leaves the same memberships as handling it once. -/
theorem C23_first_pass_order_independent (sel1 sel2 : Selection) (r : MapRenderer) (n : Node)
    (hsame : ∀ m, m ∈ sel1.nodes ↔ m ∈ sel2.nodes)
    (hcons : ∀ m ∈ sel1.nodes, ∀ m' ∈ sel1.nodes, m.id = m'.id → m = m')
    (hbatch : ∀ m ∈ sel1.nodes, m.hasBatchIn r.layers)
    (hn : n.hasBatchIn r.layers) :
    (∃ r1 r2, MapRenderer.selectionDidChange sel1.withoutFaces r = some r1 ∧
      MapRenderer.selectionDidChange sel2.withoutFaces r = some r2 ∧
      r1.layers = r2.layers ∧
      r1.selectionObjects = r2.selectionObjects ∧
      (∀ l, r1.layerObjects l = r2.layerObjects l) ∧
      (∀ id, id ∈ r1.selectionObjects ↔
        (∃ m ∈ sel1.nodes, m.isObject = true ∧ m.id = id ∧ m.inSelectionRule = true) ∨
        (id ∈ r.selectionObjects ∧ ¬ ∃ m ∈ sel1.nodes, m.isObject = true ∧ m.id = id)) ∧
      (∀ l id, id ∈ r1.layerObjects l ↔
        (∃ m ∈ sel1.nodes,
          m.isObject = true ∧ m.layer = some l ∧ m.id = id ∧ m.inLayerRule = true) ∨
        (id ∈ r.layerObjects l ∧
          ¬ ∃ m ∈ sel1.nodes, m.isObject = true ∧ m.layer = some l ∧ m.id = id))) ∧
    (∃ v1 v2,
      Node.acceptList (NodeVisitor.visit MapRenderer.HandleSelectedNode.doVisit) [n]
        (NodeVisitor.new r) = some v1 ∧
      Node.acceptList (NodeVisitor.visit MapRenderer.HandleSelectedNode.doVisit) [n, n]
        (NodeVisitor.new r) = some v2 ∧
      v2.state.layers = v1.state.layers ∧
      v2.state.selectionObjects = v1.state.selectionObjects ∧
      ∀ l, v2.state.layerObjects l = v1.state.layerObjects l) := by
  constructor
  · obtain ⟨r1, r2, h1, h2, a1, a2, a3, a4, a5, a6⟩ :=
      firstPass_congr sel1.nodes sel2.nodes r hsame hcons hbatch
    refine ⟨r1, r2, ?_, ?_, a1.trans a2.symm, a3, a4, a5, a6⟩
    · rw [selectionDidChange_withoutFaces]; exact h1
    · rw [selectionDidChange_withoutFaces]; exact h2
  · obtain ⟨r1, r2, h1, h2, a1, a2, a3, a4, _, _⟩ :=
      firstPass_congr [n] [n, n] r (by intro m; simp)
        (by
          intro m hm m' hm' _
          rw [List.mem_singleton.1 hm, List.mem_singleton.1 hm'])
        (by
          intro m hm
          rw [List.mem_singleton.1 hm]; exact hn)
    have e1 := acceptList_HandleSelectedNode [n] r
    have e2 := acceptList_HandleSelectedNode [n, n] r
    rw [h1] at e1
    rw [h2] at e2
    obtain ⟨v1, hv1, s1⟩ := Option.map_eq_some'.1 e1
    obtain ⟨v2, hv2, s2⟩ := Option.map_eq_some'.1 e2
    refine ⟨v1, v2, hv1, hv2, ?_, ?_, fun l => ?_⟩
    · rw [s1, s2]; exact a2.trans a1.symm
    · rw [s1, s2]; exact a3.symm
    · rw [s1, s2]; exact (a4 l).symm

/-- Witness of C23: the delta of selecting brush 22 and the same nodes listed in other
sets and in another order, on the two-layer example document. -/
theorem C23_first_pass_order_independent_witness :
    ∃ r1 r2, MapRenderer.selectionDidChange Example.selectBrush22.withoutFaces
        Example.loaded2 = some r1 ∧
      MapRenderer.selectionDidChange Example.selectBrush22Reordered.withoutFaces
        Example.loaded2 = some r2 ∧
      r1.layers = r2.layers ∧
      r1.selectionObjects = r2.selectionObjects ∧
      (∀ l, r1.layerObjects l = r2.layerObjects l) :=
  match (C23_first_pass_order_independent Example.selectBrush22 Example.selectBrush22Reordered
      Example.loaded2 Example.brush22Selected
      (by
        intro m
        simp only [Selection.nodes, Example.selectBrush22, Example.selectBrush22Reordered,
          List.append_nil, List.nil_append, List.singleton_append, List.mem_cons,
          List.not_mem_nil, or_false]
        tauto)
      (by
        intro m hm m' hm' e
        simp only [Selection.nodes, Example.selectBrush22, List.append_nil, List.nil_append,
          List.singleton_append, List.mem_cons, List.not_mem_nil, or_false] at hm hm'
        rcases hm with rfl | rfl <;> rcases hm' with rfl | rfl
        · rfl
        · exact absurd e (by decide)
        · exact absurd e (by decide)
        · rfl)
      (by
        intro m hm
        simp only [Selection.nodes, Example.selectBrush22, List.append_nil, List.nil_append,
          List.singleton_append, List.mem_cons, List.not_mem_nil, or_false] at hm
        rcases hm with rfl | rfl
        · intro _; exact ⟨2, rfl, by decide⟩
        · intro _; exact ⟨2, rfl, by decide⟩)
      (fun _ => ⟨2, rfl, by decide⟩)).1 with
  | ⟨r1, r2, h1, h2, a1, a2, a3, _, _⟩ => ⟨r1, r2, h1, h2, a1, a2, a3⟩

/-- C24. The brush filters of the two kinds of batch agree with the brush membership
rule.  For an unlocked, visible brush the filter of the layer batches
(`UnselectedBrushRendererFilter`) accepts the brush iff it is not selected and the
filter of the selection batch (`SelectedBrushRendererFilter`) accepts it iff it is
selected or has selected faces; hence at least one accepts it, and both do iff it is
unselected with selected faces; when the predicates read the flags of the brush the
two filters return exactly the layer rule and the selection rule of
`HandleSelectedNode`.  Every brush edge is accepted by exactly one of the two
filters.  The selection batch of a new map renderer carries the selected-brush
filter, and after a load every layer batch carries the unselected-brush filter. -/
theorem C24_brush_filters_agree (d : DefaultFilter) (b : Node) (e : BrushEdge)
    (prefs : Preferences) (world : Node)
    (hl : d.lockedBrush b = false) (hv : d.visibleBrush b = true) :
    (UnselectedBrushRendererFilter.brush d b = true ↔ d.selectedBrush b = false) ∧
    (SelectedBrushRendererFilter.brush d b = true ↔
      (d.selectedBrush b = true ∨ d.hasSelectedFaces b = true)) ∧
    (UnselectedBrushRendererFilter.brush d b = true ∨
      SelectedBrushRendererFilter.brush d b = true) ∧
    ((UnselectedBrushRendererFilter.brush d b = true ∧
        SelectedBrushRendererFilter.brush d b = true) ↔
      (d.selectedBrush b = false ∧ d.hasSelectedFaces b = true)) ∧
    (b.kind = NodeKind.Brush → d.selectedBrush b = b.selected →
      d.hasSelectedFaces b = b.descendantSelected →
      UnselectedBrushRendererFilter.brush d b = b.inLayerRule ∧
      SelectedBrushRendererFilter.brush d b = b.inSelectionRule) ∧
    (SelectedBrushRendererFilter.edge d e = true ↔
      ¬ UnselectedBrushRendererFilter.edge d e = true) ∧
    BrushFilter.brush (MapRenderer.new prefs).selectionRenderer.filter d b =
      SelectedBrushRendererFilter.brush d b ∧
    (∀ r', MapRenderer.documentWasNewedOrLoaded prefs world (MapRenderer.new prefs) = some r' →
      BrushFilter.brush r'.selectionRenderer.filter d b =
        SelectedBrushRendererFilter.brush d b ∧
      BrushFilter.edge r'.selectionRenderer.filter d e =
        SelectedBrushRendererFilter.edge d e ∧
      ∀ l br, MapUtils.find r'.layerRenderers l = some br →
        BrushFilter.brush br.filter d b = UnselectedBrushRendererFilter.brush d b ∧
        BrushFilter.edge br.filter d e = UnselectedBrushRendererFilter.edge d e) := by
  refine ⟨?_, ?_, ?_, ?_, ?_, ?_, rfl, ?_⟩
  · simp [UnselectedBrushRendererFilter.brush, hl, hv]
  · simp [SelectedBrushRendererFilter.brush, hl, hv]
  · simp only [UnselectedBrushRendererFilter.brush, SelectedBrushRendererFilter.brush, hl, hv]
    cases d.selectedBrush b <;> simp
  · simp only [UnselectedBrushRendererFilter.brush, SelectedBrushRendererFilter.brush, hl, hv]
    cases d.selectedBrush b <;> simp
  · intro hk hs hf
    simp only [UnselectedBrushRendererFilter.brush, SelectedBrushRendererFilter.brush, hl, hv,
      hs, hf, Node.inLayerRule, Node.inSelectionRule, hk]
    simp
  · simp [SelectedBrushRendererFilter.edge, UnselectedBrushRendererFilter.edge]
  · intro r' h
    obtain ⟨a1, a2⟩ := documentWasNewedOrLoaded_filter prefs world (MapRenderer.new prefs) r'
      (by
        intro l br hbr
        simp [MapRenderer.new, MapRenderer.setupRenderers, MapRenderer.setupLayerRenderers,
          MapUtils.find] at hbr) h
    refine ⟨by rw [a1]; rfl, by rw [a1]; rfl, fun l br hbr => ?_⟩
    rw [a2 l br hbr]
    exact ⟨rfl, rfl⟩

/-- Witness of C24: brush #1 of the example with one face selected, under the default
filter that reads the flags, is accepted by both filters. -/
theorem C24_brush_filters_agree_witness :
    (UnselectedBrushRendererFilter.brush Example.flagFilter Example.brush1FaceSelected = true ∧
        SelectedBrushRendererFilter.brush Example.flagFilter Example.brush1FaceSelected = true) ↔
      (Example.flagFilter.selectedBrush Example.brush1FaceSelected = false ∧
        Example.flagFilter.hasSelectedFaces Example.brush1FaceSelected = true) :=
  (C24_brush_filters_agree Example.flagFilter Example.brush1FaceSelected { id := 7 }
    Example.prefs Example.world rfl rfl).2.2.2.1

/-- C25. Overriding and restoring the selection colors.  For every mixing function,
color and mix, `overrideSelectionColors` leaves the layer renderers and the
membership, calls and filter of the selection batch alone and changes, in the style
of the selection batch, the entity-bounds, brush-edge, occluded-edge and tint colors
only; a following `restoreSelectionColors` gives the map renderer that
`restoreSelectionColors` gives without the override: the selection batch is
`setupSelectionRenderer` of the batch before the override, with the four colors
rewritten from the preferences, the layer renderers and every membership are
unchanged, and a map renderer that was set up is restored exactly. -/
theorem C25_override_restore_round_trip (mixed : Nat → Nat → Nat → Nat) (prefs : Preferences)
    (color mix : Nat) (r : MapRenderer) :
    (MapRenderer.overrideSelectionColors mixed prefs color mix r).layerRenderers =
      r.layerRenderers ∧
    (MapRenderer.overrideSelectionColors mixed prefs color mix r).selectionRenderer.objects =
      r.selectionRenderer.objects ∧
    (MapRenderer.overrideSelectionColors mixed prefs color mix r).selectionRenderer.calls =
      r.selectionRenderer.calls ∧
    (MapRenderer.overrideSelectionColors mixed prefs color mix r).selectionRenderer.filter =
      r.selectionRenderer.filter ∧
    (MapRenderer.overrideSelectionColors mixed prefs color mix r).selectionRenderer.style =
      { r.selectionRenderer.style with
        entityBoundsColor := mixed prefs.SelectedEdgeColor color mix
        brushEdgeColor := mixed prefs.SelectedEdgeColor color mix
        occludedEdgeColor := mixed prefs.SelectedFaceColor color mix
        tintColor := mixed prefs.SelectedFaceColor color mix } ∧
    MapRenderer.restoreSelectionColors prefs
        (MapRenderer.overrideSelectionColors mixed prefs color mix r) =
      MapRenderer.restoreSelectionColors prefs r ∧
    (MapRenderer.restoreSelectionColors prefs
        (MapRenderer.overrideSelectionColors mixed prefs color mix r)).selectionRenderer =
      MapRenderer.setupSelectionRenderer prefs r.selectionRenderer ∧
    (MapRenderer.restoreSelectionColors prefs
        (MapRenderer.overrideSelectionColors mixed prefs color mix r)).selectionRenderer.style.entityBoundsColor =
      prefs.SelectedEdgeColor ∧
    (MapRenderer.restoreSelectionColors prefs
        (MapRenderer.overrideSelectionColors mixed prefs color mix r)).selectionRenderer.style.brushEdgeColor =
      prefs.SelectedEdgeColor ∧
    (MapRenderer.restoreSelectionColors prefs
        (MapRenderer.overrideSelectionColors mixed prefs color mix r)).selectionRenderer.style.occludedEdgeColor =
      prefs.OccludedSelectedEdgeColor ∧
    (MapRenderer.restoreSelectionColors prefs
        (MapRenderer.overrideSelectionColors mixed prefs color mix r)).selectionRenderer.style.tintColor =
      prefs.SelectedFaceColor ∧
    (MapRenderer.restoreSelectionColors prefs
        (MapRenderer.overrideSelectionColors mixed prefs color mix r)).layerRenderers =
      r.layerRenderers ∧
    (MapRenderer.restoreSelectionColors prefs
        (MapRenderer.overrideSelectionColors mixed prefs color mix r)).selectionObjects =
      r.selectionObjects ∧
    (∀ l, (MapRenderer.restoreSelectionColors prefs
        (MapRenderer.overrideSelectionColors mixed prefs color mix r)).layerObjects l =
      r.layerObjects l) ∧
    MapRenderer.restoreSelectionColors prefs
        (MapRenderer.overrideSelectionColors mixed prefs color mix
          (MapRenderer.setupRenderers prefs r)) =
      MapRenderer.setupRenderers prefs r :=
  ⟨rfl, rfl, rfl, rfl, rfl, rfl, rfl, rfl, rfl, rfl, rfl, rfl, rfl, fun _ => rfl, rfl⟩

end TrenchBroom
